import Mathlib

/-!
# recordmcount.c: format dispatch, byte-order converters and the batch loop

A shallow embedding of `scripts/recordmcount.c` (linux-2.6.37.4).

* Machine integers are natural numbers; an argument of a fixed-width type is reduced
  modulo `2 ^ width` on entry to the function that takes it.
* The static variables of the translation unit are the fields of `State`; the
  system calls issued are recorded, in order, in `State.trace`.
* `setjmp`/`longjmp` is an explicit control outcome (`Flow.jump`, `Step.jumped`):
  the loop of `main` re-enters its body with the value passed to `longjmp`.
* The answers of the operating system for one argument, and the behaviour of the
  class-specific pass `do32`/`do64` (defined in `recordmcount.h`), are inputs of the
  model, collected in `FileEnv`.
* Diagnostics written to the standard error stream are not recorded, apart from the
  usage line and the internal-error line of `main`.

The namespaces `IpxeElf` and `ArmMisc` embed `image/elf.c` (iPXE in qemu-2.4.0.1) and
`memcpy`/`strreverse`/`itoa` of `arch/arm/boot/compressed/misc.c`; each starts with
its own conventions.
-/

namespace Recordmcount

/-! ## Constants of `<elf.h>` -/

def EI_CLASS : Nat := 4
def EI_DATA : Nat := 5
def EI_VERSION : Nat := 6
def ELFCLASS32 : Nat := 1
def ELFCLASS64 : Nat := 2
def ELFDATA2LSB : Nat := 1
def ELFDATA2MSB : Nat := 2
def ET_REL : Nat := 1
def EV_CURRENT : Nat := 1
def SELFMAG : Nat := 4
/-- The four magic bytes `"\177ELF"`. -/
def ELFMAG : List Nat := [0x7f, 69, 76, 70]

def EM_386 : Nat := 3
def EM_MIPS : Nat := 8
def EM_PPC : Nat := 20
def EM_PPC64 : Nat := 21
def EM_S390 : Nat := 22
def EM_ARM : Nat := 40
def EM_SH : Nat := 42
def EM_SPARCV9 : Nat := 43
def EM_IA_64 : Nat := 50
def EM_X86_64 : Nat := 62

def R_386_32 : Nat := 1
def R_ARM_ABS32 : Nat := 2
def R_IA64_IMM64 : Nat := 0x23
def R_MIPS_32 : Nat := 2
def R_MIPS_64 : Nat := 18
def R_PPC_ADDR32 : Nat := 1
def R_PPC64_ADDR64 : Nat := 38
def R_390_32 : Nat := 4
def R_390_64 : Nat := 22
def R_SH_DIR32 : Nat := 1
def R_SPARC_64 : Nat := 32
def R_X86_64_64 : Nat := 1

/-- Value of `sizeof(Elf32_Ehdr)`. -/
def sizeof_Elf32_Ehdr : Nat := 52
/-- Value of `sizeof(Elf32_Shdr)`. -/
def sizeof_Elf32_Shdr : Nat := 40
/-- Value of `sizeof(Elf64_Ehdr)`. -/
def sizeof_Elf64_Ehdr : Nat := 64
/-- Value of `sizeof(Elf64_Shdr)`. -/
def sizeof_Elf64_Shdr : Nat := 64

/-- Byte offset of `e_type` in `Elf32_Ehdr` and in `Elf64_Ehdr`. -/
def off_e_type : Nat := 16
/-- Byte offset of `e_machine` in `Elf32_Ehdr` and in `Elf64_Ehdr`. -/
def off_e_machine : Nat := 18
/-- Byte offset of `e_ehsize` in `Elf32_Ehdr`. -/
def off32_e_ehsize : Nat := 40
/-- Byte offset of `e_shentsize` in `Elf32_Ehdr`. -/
def off32_e_shentsize : Nat := 46
/-- Byte offset of `e_ehsize` in `Elf64_Ehdr`. -/
def off64_e_ehsize : Nat := 52
/-- Byte offset of `e_shentsize` in `Elf64_Ehdr`. -/
def off64_e_shentsize : Nat := 58

/-! ## setjmp() return values -/

def SJ_SETJMP : Nat := 0
def SJ_FAIL : Nat := 1
def SJ_SUCCEED : Nat := 2

/-! ## w8rev, w8nat, ...: handle endianness -/

def w8rev (x : Nat) : Nat :=
  let x := x % 2 ^ 64
  ((0xff &&& (x >>> (0 * 8))) <<< (7 * 8))
    ||| ((0xff &&& (x >>> (1 * 8))) <<< (6 * 8))
    ||| ((0xff &&& (x >>> (2 * 8))) <<< (5 * 8))
    ||| ((0xff &&& (x >>> (3 * 8))) <<< (4 * 8))
    ||| ((0xff &&& (x >>> (4 * 8))) <<< (3 * 8))
    ||| ((0xff &&& (x >>> (5 * 8))) <<< (2 * 8))
    ||| ((0xff &&& (x >>> (6 * 8))) <<< (1 * 8))
    ||| ((0xff &&& (x >>> (7 * 8))) <<< (0 * 8))

def w4rev (x : Nat) : Nat :=
  let x := x % 2 ^ 32
  ((0xff &&& (x >>> (0 * 8))) <<< (3 * 8))
    ||| ((0xff &&& (x >>> (1 * 8))) <<< (2 * 8))
    ||| ((0xff &&& (x >>> (2 * 8))) <<< (1 * 8))
    ||| ((0xff &&& (x >>> (3 * 8))) <<< (0 * 8))

def w2rev (x : Nat) : Nat :=
  let x := x % 2 ^ 16
  ((0xff &&& (x >>> (0 * 8))) <<< (1 * 8))
    ||| ((0xff &&& (x >>> (1 * 8))) <<< (0 * 8))

def w8nat (x : Nat) : Nat :=
  let x := x % 2 ^ 64
  x

def w4nat (x : Nat) : Nat :=
  let x := x % 2 ^ 32
  x

def w2nat (x : Nat) : Nat :=
  let x := x % 2 ^ 16
  x

/-- Targets of the function pointer `w8`. -/
inductive Fn8
  | w8nat
  | w8rev
  deriving DecidableEq, Repr

/-- Targets of the function pointer `w`. -/
inductive Fn4
  | w4nat
  | w4rev
  deriving DecidableEq, Repr

/-- Targets of the function pointer `w2`. -/
inductive Fn2
  | w2nat
  | w2rev
  deriving DecidableEq, Repr

/-- Call through the pointer `w2`.  The pointer is null only before the first
assignment in `do_file`; no call is made through it then. -/
def call_w2 (f : Option Fn2) (x : Nat) : Nat :=
  match f with
  | some Fn2.w2nat => w2nat x
  | some Fn2.w2rev => w2rev x
  | none => 0

/-- Call through the pointer `w`. -/
def call_w (f : Option Fn4) (x : Nat) : Nat :=
  match f with
  | some Fn4.w4nat => w4nat x
  | some Fn4.w4rev => w4rev x
  | none => 0

/-- Call through the pointer `w8`. -/
def call_w8 (f : Option Fn8) (x : Nat) : Nat :=
  match f with
  | some Fn8.w8nat => w8nat x
  | some Fn8.w8rev => w8rev x
  | none => 0

/-- Byte order of the machine that runs the tool. -/
inductive ByteOrder
  | little
  | big
  deriving DecidableEq, Repr

/-- The constant `static unsigned int const endian = 1` of `do_file`. -/
def endian : Nat := 1

/-- The expression `*(unsigned char const *)&v` for a 32-bit object `v`: the byte at
the lowest address of its representation. -/
def first_byte (host : ByteOrder) (v : Nat) : Nat :=
  match host with
  | ByteOrder.little => v % 2 ^ 32 % 256
  | ByteOrder.big => v % 2 ^ 32 / 2 ^ 24

/-! ## Hooks declared in `recordmcount.h` -/

/-- Modelled from the spec: the function pointers `is_fake_mcount32`,
`is_fake_mcount64`, `Elf64_r_sym` and `Elf64_r_info` are declared, with their initial
values, in `recordmcount.h`, which is not among the sources.  The spec calls the
initial target the default one; `dflt` stands for it and `mips` for the MIPS
function that `do_file` assigns (`MIPS32_is_fake_mcount`, `MIPS64_is_fake_mcount`,
`MIPS64_r_sym`, `MIPS64_r_info`). -/
inductive Hook
  | dflt
  | mips
  deriving DecidableEq, Repr

/-- The per-file configuration that `do32`/`do64` reads from the static variables. -/
structure Config where
  w : Option Fn4
  w2 : Option Fn2
  w8 : Option Fn8
  gpfx : Nat
  is_fake_mcount32 : Hook
  is_fake_mcount64 : Hook
  Elf64_r_sym : Hook
  Elf64_r_info : Hook
  deriving DecidableEq, Repr

/-! ## Observable events -/

/-- System calls that `do32`/`do64` issue on the file being processed. -/
inductive PassEvent
  | sys_lseek (fd : Int) (offset : Nat)
  | sys_write (fd : Int) (count : Nat)
  | sys_malloc (size : Nat) (ret : Nat)
  | sys_free (addr : Nat)
  deriving DecidableEq, Repr

/-- What the tool does that is visible from outside, in order. -/
inductive Event
  | usage
  | internal_error (fname : String)
  | call_do_file (fname : String)
  | sys_open (fname : String) (ret : Int)
  | sys_fstat (fd : Int) (ret : Int)
  | sys_mmap (len : Nat) (fd : Int) (ret : Option Nat)
  | sys_malloc (size : Nat) (ret : Nat)
  | sys_read (fd : Int) (count : Nat) (ret : Nat)
  | sys_munmap (addr : Nat) (len : Nat)
  | sys_free (addr : Nat)
  | sys_close (fd : Int)
  | call_do32 (fname : String) (reltype : Nat) (cfg : Config)
  | call_do64 (fname : String) (reltype : Nat) (cfg : Config)
  | in_pass (e : PassEvent)
  | longjmp (val : Nat)
  deriving DecidableEq, Repr

/-- How a call of `do32`/`do64` ends. -/
inductive PassOutcome
  | returned
  | failed
  | succeeded
  deriving DecidableEq, Repr

/-- Result of a call of `do32`/`do64`: the system calls it issued and how it ended. -/
structure PassResult where
  events : List PassEvent
  outcome : PassOutcome
  deriving DecidableEq, Repr

/-- What the environment answers while one argument is processed. -/
structure FileEnv where
  /-- Value returned by `open(fname, O_RDWR)`; negative on failure. -/
  open_ret : Int
  /-- Value returned by `fstat`; negative on failure. -/
  fstat_ret : Int
  /-- The field `sb.st_size` filled in by `fstat`. -/
  st_size : Nat
  /-- The value of `S_ISREG(sb.st_mode)`. -/
  is_reg : Bool
  /-- Address returned by `mmap`; `none` is `MAP_FAILED`. -/
  mmap_ret : Option Nat
  /-- Address returned by `malloc`; `0` is the null pointer. -/
  malloc_ret : Nat
  /-- Value returned by `read`, as a `size_t`. -/
  read_ret : Nat
  /-- The bytes found at the address that `mmap_file` returns. -/
  mem : List Nat
  /-- Behaviour of `do32` (first argument `false`) and `do64` (`true`) on this file,
  as a function of the relocation kind and of the configuration in effect. -/
  pass : Bool → Nat → Config → PassResult

/-! ## Static variables -/

/-- The static variables of `recordmcount.c` together with the trace of events. -/
structure State where
  fd_map : Int
  mmap_failed : Nat
  ehdr_curr : Nat
  gpfx : Nat
  sb_st_size : Nat
  w : Option Fn4
  w2 : Option Fn2
  w8 : Option Fn8
  is_fake_mcount32 : Hook
  is_fake_mcount64 : Hook
  Elf64_r_sym : Hook
  Elf64_r_info : Hook
  trace : List Event
  deriving DecidableEq, Repr

/-- State at program start: static storage is zero-initialised, the hooks of
`recordmcount.h` point to their default targets. -/
def State.init : State :=
  { fd_map := 0, mmap_failed := 0, ehdr_curr := 0, gpfx := 0, sb_st_size := 0,
    w := none, w2 := none, w8 := none,
    is_fake_mcount32 := Hook.dflt, is_fake_mcount64 := Hook.dflt,
    Elf64_r_sym := Hook.dflt, Elf64_r_info := Hook.dflt, trace := [] }

/-- Append an event to the trace. -/
def State.log (s : State) (e : Event) : State :=
  { s with trace := s.trace ++ [e] }

/-- The configuration visible to `do32`/`do64`. -/
def State.config (s : State) : Config :=
  { w := s.w, w2 := s.w2, w8 := s.w8, gpfx := s.gpfx,
    is_fake_mcount32 := s.is_fake_mcount32, is_fake_mcount64 := s.is_fake_mcount64,
    Elf64_r_sym := s.Elf64_r_sym, Elf64_r_info := s.Elf64_r_info }

/-- Outcome of a function that may escape through `longjmp`. -/
inductive Flow (α : Type)
  | ret (a : α) (s : State)
  | jump (val : Nat) (s : State)

/-- The state in which a function ended. -/
def Flow.state {α : Type} : Flow α → State
  | Flow.ret _ s => s
  | Flow.jump _ s => s

/-- Sequencing: a jump skips the rest. -/
def Flow.andThen {α β : Type} (x : Flow α) (f : α → State → Flow β) : Flow β :=
  match x with
  | Flow.ret a s => f a s
  | Flow.jump v s => Flow.jump v s

/-! ## Per-file resource cleanup and the per-file escape -/

def cleanup (s : State) : State :=
  let s := if s.mmap_failed = 0 then s.log (Event.sys_munmap s.ehdr_curr s.sb_st_size)
    else s.log (Event.sys_free s.ehdr_curr)
  s.log (Event.sys_close s.fd_map)

def fail_file {α : Type} (s : State) : Flow α :=
  let s := cleanup s
  Flow.jump SJ_FAIL (s.log (Event.longjmp SJ_FAIL))

def succeed_file {α : Type} (s : State) : Flow α :=
  let s := cleanup s
  Flow.jump SJ_SUCCEED (s.log (Event.longjmp SJ_SUCCEED))

/-! ## uread, umalloc: check return value for errors -/

def uread (env : FileEnv) (fd : Int) (_buf : Nat) (count : Nat) (s : State) : Flow Nat :=
  let n := env.read_ret
  let s := s.log (Event.sys_read fd count n)
  if n ≠ count then fail_file s else Flow.ret n s

def umalloc (env : FileEnv) (size : Nat) (s : State) : Flow Nat :=
  let addr := env.malloc_ret
  let s := s.log (Event.sys_malloc size addr)
  if 0 = addr then fail_file s else Flow.ret addr s

/-! ## mmap_file -/

/-- The function `mmap_file`.  The value returned is the address of the buffer; its
bytes are `env.mem`. -/
def mmap_file (env : FileEnv) (fname : String) (s : State) : Flow Nat :=
  let s := { s with fd_map := env.open_ret }
  let s := s.log (Event.sys_open fname s.fd_map)
  if 0 > s.fd_map then fail_file s
  else
    let s := s.log (Event.sys_fstat s.fd_map env.fstat_ret)
    let s := { s with sb_st_size := env.st_size }
    if 0 > env.fstat_ret then fail_file s
    else if !env.is_reg then fail_file s
    else
      let addr := env.mmap_ret
      let s := s.log (Event.sys_mmap s.sb_st_size s.fd_map addr)
      let s := { s with mmap_failed := 0 }
      match addr with
      | some a => Flow.ret a s
      | none =>
        let s := { s with mmap_failed := 1 }
        (umalloc env s.sb_st_size s).andThen fun addr s =>
          (uread env s.fd_map addr s.sb_st_size s).andThen fun _ s =>
            Flow.ret addr s

/-! ## Reading the ELF header through `ehdr` -/

/-- The byte `((unsigned char const *)ehdr)[i]`.  An index past the end of the
buffer reads as zero, as the tail of the last page of a mapping does. -/
def byte_at (mem : List Nat) (i : Nat) : Nat :=
  mem.getD i 0 % 256

/-- A 16-bit field at byte offset `off`, as the host loads it from memory. -/
def load16 (host : ByteOrder) (mem : List Nat) (off : Nat) : Nat :=
  match host with
  | ByteOrder.little => byte_at mem off + 256 * byte_at mem (off + 1)
  | ByteOrder.big => 256 * byte_at mem off + byte_at mem (off + 1)

/-- The value of `memcmp(ELFMAG, ehdr->e_ident, SELFMAG)` is zero. -/
def magic_matches (mem : List Nat) : Bool :=
  (List.range SELFMAG).map (byte_at mem) = ELFMAG

/-! ## The class-specific pass -/

/-- The body of `do32`/`do64` is in `recordmcount.h`; its behaviour is taken from
the environment.  It reads the static variables of `recordmcount.c` and does not
assign them. -/
def run_pass (cls64 : Bool) (env : FileEnv) (fname : String) (reltype : Nat) (s : State) :
    Flow Unit :=
  let s := s.log (if cls64 then Event.call_do64 fname reltype s.config
    else Event.call_do32 fname reltype s.config)
  let r := env.pass cls64 reltype s.config
  let s := { s with trace := s.trace ++ r.events.map Event.in_pass }
  match r.outcome with
  | PassOutcome.returned => Flow.ret () s
  | PassOutcome.failed => fail_file s
  | PassOutcome.succeeded => succeed_file s

def do32 (env : FileEnv) (fname : String) (reltype : Nat) (s : State) : Flow Unit :=
  run_pass false env fname reltype s

def do64 (env : FileEnv) (fname : String) (reltype : Nat) (s : State) : Flow Unit :=
  run_pass true env fname reltype s

/-! ## do_file -/

/-- The statement `switch (ehdr->e_ident[EI_DATA])` of `do_file`. -/
def switch_data (host : ByteOrder) (mem : List Nat) (s : State) : Flow Unit :=
  let d := byte_at mem EI_DATA
  if d = ELFDATA2LSB then
    if 1 ≠ first_byte host endian then
      /- main() is big endian, file.o is little endian. -/
      Flow.ret () { s with w := some Fn4.w4rev, w2 := some Fn2.w2rev, w8 := some Fn8.w8rev }
    else Flow.ret () s
  else if d = ELFDATA2MSB then
    if 0 ≠ first_byte host endian then
      /- main() is little endian, file.o is big endian. -/
      Flow.ret () { s with w := some Fn4.w4rev, w2 := some Fn2.w2rev, w8 := some Fn8.w8rev }
    else Flow.ret () s
  else fail_file s

/-- The test of magic, object type and version of `do_file`. -/
def check_rel (host : ByteOrder) (mem : List Nat) (s : State) : Flow Unit :=
  if magic_matches mem = false
      ∨ ET_REL ≠ call_w2 s.w2 (load16 host mem off_e_type)
      ∨ EV_CURRENT ≠ byte_at mem EI_VERSION then
    fail_file s
  else Flow.ret () s

/-- The statement `switch (w2(ehdr->e_machine))` of `do_file`; the value returned is
`reltype`. -/
def switch_machine (host : ByteOrder) (mem : List Nat) (reltype : Nat) (s : State) :
    Flow Nat :=
  let m := call_w2 s.w2 (load16 host mem off_e_machine)
  if m = EM_386 then Flow.ret R_386_32 s
  else if m = EM_ARM then Flow.ret R_ARM_ABS32 s
  else if m = EM_IA_64 then Flow.ret R_IA64_IMM64 { s with gpfx := '_'.toNat }
  else if m = EM_MIPS then Flow.ret reltype { s with gpfx := '_'.toNat }
  else if m = EM_PPC then Flow.ret R_PPC_ADDR32 { s with gpfx := '_'.toNat }
  else if m = EM_PPC64 then Flow.ret R_PPC64_ADDR64 { s with gpfx := '_'.toNat }
  else if m = EM_S390 then Flow.ret reltype { s with gpfx := '_'.toNat }
  else if m = EM_SH then Flow.ret R_SH_DIR32 s
  else if m = EM_SPARCV9 then Flow.ret R_SPARC_64 { s with gpfx := '_'.toNat }
  else if m = EM_X86_64 then Flow.ret R_X86_64_64 s
  else fail_file s

/-- The statement `switch (ehdr->e_ident[EI_CLASS])` of `do_file`. -/
def switch_class (host : ByteOrder) (env : FileEnv) (fname : String) (reltype : Nat)
    (s : State) : Flow Unit :=
  let mem := env.mem
  let c := byte_at mem EI_CLASS
  if c = ELFCLASS32 then
    if sizeof_Elf32_Ehdr ≠ call_w2 s.w2 (load16 host mem off32_e_ehsize)
        ∨ sizeof_Elf32_Shdr ≠ call_w2 s.w2 (load16 host mem off32_e_shentsize) then
      fail_file s
    else
      let reltype := if EM_S390 = call_w2 s.w2 (load16 host mem off_e_machine) then R_390_32
        else reltype
      let is_mips := EM_MIPS = call_w2 s.w2 (load16 host mem off_e_machine)
      let reltype := if is_mips then R_MIPS_32 else reltype
      let s := if is_mips then { s with is_fake_mcount32 := Hook.mips } else s
      do32 env fname reltype s
  else if c = ELFCLASS64 then
    if sizeof_Elf64_Ehdr ≠ call_w2 s.w2 (load16 host mem off64_e_ehsize)
        ∨ sizeof_Elf64_Shdr ≠ call_w2 s.w2 (load16 host mem off64_e_shentsize) then
      fail_file s
    else
      let reltype := if EM_S390 = call_w2 s.w2 (load16 host mem off_e_machine) then R_390_64
        else reltype
      let is_mips := EM_MIPS = call_w2 s.w2 (load16 host mem off_e_machine)
      let reltype := if is_mips then R_MIPS_64 else reltype
      let s := if is_mips then
        { s with Elf64_r_sym := Hook.mips, Elf64_r_info := Hook.mips,
                 is_fake_mcount64 := Hook.mips }
        else s
      do64 env fname reltype s
  else fail_file s

def do_file (host : ByteOrder) (env : FileEnv) (fname : String) (s : State) : Flow Unit :=
  (mmap_file env fname s).andThen fun ehdr s =>
    let reltype : Nat := 0
    let s := { s with ehdr_curr := ehdr }
    let s := { s with w := some Fn4.w4nat, w2 := some Fn2.w2nat, w8 := some Fn8.w8nat }
    (switch_data host env.mem s).andThen fun _ s =>
      (check_rel host env.mem s).andThen fun _ s =>
        let s := { s with gpfx := 0 }
        (switch_machine host env.mem reltype s).andThen fun reltype s =>
          (switch_class host env fname reltype s).andThen fun _ s =>
            Flow.ret () (cleanup s)

/-! ## main -/

def ftrace : String := "kernel/trace/ftrace.o"

/-- The value of `sizeof(ftrace) - 1`. -/
def ftrace_size : Nat := 21

/-- How one pass through the body of the loop of `main` ends. -/
inductive Step
  | next (n_error : Nat) (s : State)
  | jumped (val : Nat) (s : State)
  | exit (code : Nat) (s : State)

/-- One pass through the body of the `for` loop of `main`, entered with `sjval` as
the value returned by `setjmp`.  An argument is a string of characters where C has
bytes; the name compared is ASCII, so the two suffix tests agree.  `n_error` is
bounded by `argc`, an `int`, so the `int` counter does not overflow. -/
def loop_body (host : ByteOrder) (env : FileEnv) (arg : String) (sjval : Nat)
    (n_error : Nat) (s : State) : Step :=
  let len := arg.length
  if len ≥ ftrace_size ∧ arg.data.drop (len - ftrace_size) = ftrace.data then
    Step.next n_error s
  else if sjval = SJ_SETJMP then
    /- normal sequence -/
    let s := { s with fd_map := -1, ehdr_curr := 0, mmap_failed := 1 }
    match do_file host env arg (s.log (Event.call_do_file arg)) with
    | Flow.ret _ s => Step.next n_error s
    | Flow.jump val s => Step.jumped val s
  else if sjval = SJ_FAIL then
    /- error in do_file or below -/
    Step.next (n_error + 1) s
  else if sjval = SJ_SUCCEED then
    /- premature success -/
    Step.next n_error s
  else
    Step.exit 1 (s.log (Event.internal_error arg))

/-- How the `for` loop of `main` ends: it runs out of arguments, or the process
exits from inside it. -/
inductive LoopEnd
  | finished (n_error : Nat) (s : State)
  | exited (code : Nat) (s : State)

/-- The `for` loop of `main`.  `i` is the index in `argv` of the head of `args`;
`sjval` is what `setjmp` returns in the pass about to run: `0` on the direct call,
the value given to `longjmp` after an escape (`1` when that value is `0`).
Each pass through the body uses one unit of fuel. -/
def main_loop (host : ByteOrder) (env : Nat → FileEnv) :
    Nat → Nat → List String → Nat → Nat → State → Option LoopEnd
  | _, _, [], _, n_error, s => some (LoopEnd.finished n_error s)
  | 0, _, _ :: _, _, _, _ => none
  | fuel + 1, i, arg :: rest, sjval, n_error, s =>
    match loop_body host (env i) arg sjval n_error s with
    | Step.next n_error s => main_loop host env fuel (i + 1) rest SJ_SETJMP n_error s
    | Step.jumped val s =>
      main_loop host env fuel i (arg :: rest) (if val = 0 then 1 else val) n_error s
    | Step.exit code s => some (LoopEnd.exited code s)

/-- The function `main`: `argv` includes the program name, `argc` is its length.
The result is the exit status and the final state, or `none` when `fuel` passes
through the loop body did not suffice. -/
def main (host : ByteOrder) (env : Nat → FileEnv) (fuel : Nat) (argv : List String) :
    Option (Nat × State) :=
  let argc := argv.length
  let n_error : Nat := 0
  if argc ≤ 1 then
    some (0, State.init.log Event.usage)
  else
    match main_loop host env fuel 1 (argv.drop 1) SJ_SETJMP n_error State.init with
    | none => none
    | some (LoopEnd.finished n_error s) => some (if n_error ≠ 0 then 1 else 0, s)
    | some (LoopEnd.exited code s) => some (code, s)

/-! ## Vocabulary of the statements -/

/-- The byte order that a value of `e_ident[EI_DATA]` declares. -/
def file_order (d : Nat) : Option ByteOrder :=
  if d = ELFDATA2LSB then some ByteOrder.little
  else if d = ELFDATA2MSB then some ByteOrder.big
  else none

/-- The 32-bit converter that matches file encoding `d` on `host`: the identity
when the two byte orders agree, the swap otherwise. -/
def matched_w (host : ByteOrder) (d : Nat) : Fn4 :=
  if file_order d = some host then Fn4.w4nat else Fn4.w4rev

/-- The 16-bit converter that matches file encoding `d` on `host`. -/
def matched_w2 (host : ByteOrder) (d : Nat) : Fn2 :=
  if file_order d = some host then Fn2.w2nat else Fn2.w2rev

/-- The 64-bit converter that matches file encoding `d` on `host`. -/
def matched_w8 (host : ByteOrder) (d : Nat) : Fn8 :=
  if file_order d = some host then Fn8.w8nat else Fn8.w8rev

/-- A 16-bit header field after conversion by the matched converter. -/
def converted16 (host : ByteOrder) (mem : List Nat) (off : Nat) : Nat :=
  call_w2 (some (matched_w2 host (byte_at mem EI_DATA))) (load16 host mem off)

/-- The state with the three converter pointers set to the matched triple. -/
def with_converters (host : ByteOrder) (d : Nat) (s : State) : State :=
  { s with w := some (matched_w host d), w2 := some (matched_w2 host d),
           w8 := some (matched_w8 host d) }

/-- The ten values of `e_machine` that `do_file` knows. -/
def machines : List Nat :=
  [EM_386, EM_ARM, EM_IA_64, EM_MIPS, EM_PPC, EM_PPC64, EM_S390, EM_SH, EM_SPARCV9, EM_X86_64]

/-- The table of relocation kind and symbol prefix (`0` for none) per machine and
class, as the specification lists it. -/
def machine_table (m cls : Nat) : Option (Nat × Nat) :=
  if m = EM_386 then some (R_386_32, 0)
  else if m = EM_ARM then some (R_ARM_ABS32, 0)
  else if m = EM_IA_64 then some (R_IA64_IMM64, '_'.toNat)
  else if m = EM_PPC then some (R_PPC_ADDR32, '_'.toNat)
  else if m = EM_PPC64 then some (R_PPC64_ADDR64, '_'.toNat)
  else if m = EM_SH then some (R_SH_DIR32, 0)
  else if m = EM_SPARCV9 then some (R_SPARC_64, '_'.toNat)
  else if m = EM_X86_64 then some (R_X86_64_64, 0)
  else if m = EM_S390 then
    some (if cls = ELFCLASS32 then R_390_32 else R_390_64, '_'.toNat)
  else if m = EM_MIPS then
    some (if cls = ELFCLASS32 then R_MIPS_32 else R_MIPS_64, '_'.toNat)
  else none

/-- The conditions on the header that do not depend on the class. -/
def header_ok (host : ByteOrder) (mem : List Nat) : Prop :=
  (byte_at mem EI_DATA = ELFDATA2LSB ∨ byte_at mem EI_DATA = ELFDATA2MSB)
    ∧ (List.range SELFMAG).map (byte_at mem) = ELFMAG
    ∧ converted16 host mem off_e_type = ET_REL
    ∧ byte_at mem EI_VERSION = EV_CURRENT
    ∧ converted16 host mem off_e_machine ∈ machines

/-- The conditions under which a file is a class-32 object that is processed. -/
def accepted32 (host : ByteOrder) (mem : List Nat) : Prop :=
  header_ok host mem ∧ byte_at mem EI_CLASS = ELFCLASS32
    ∧ converted16 host mem off32_e_ehsize = sizeof_Elf32_Ehdr
    ∧ converted16 host mem off32_e_shentsize = sizeof_Elf32_Shdr

/-- The conditions under which a file is a class-64 object that is processed. -/
def accepted64 (host : ByteOrder) (mem : List Nat) : Prop :=
  header_ok host mem ∧ byte_at mem EI_CLASS = ELFCLASS64
    ∧ converted16 host mem off64_e_ehsize = sizeof_Elf64_Ehdr
    ∧ converted16 host mem off64_e_shentsize = sizeof_Elf64_Shdr

instance (host : ByteOrder) (mem : List Nat) : Decidable (header_ok host mem) := by
  unfold header_ok; infer_instance

instance (host : ByteOrder) (mem : List Nat) : Decidable (accepted32 host mem) := by
  unfold accepted32; infer_instance

instance (host : ByteOrder) (mem : List Nat) : Decidable (accepted64 host mem) := by
  unfold accepted64; infer_instance

/-- The value of `reltype` after the machine switch. -/
def base_reltype (m : Nat) : Nat :=
  if m = EM_386 then R_386_32
  else if m = EM_ARM then R_ARM_ABS32
  else if m = EM_IA_64 then R_IA64_IMM64
  else if m = EM_PPC then R_PPC_ADDR32
  else if m = EM_PPC64 then R_PPC64_ADDR64
  else if m = EM_SH then R_SH_DIR32
  else if m = EM_SPARCV9 then R_SPARC_64
  else if m = EM_X86_64 then R_X86_64_64
  else 0

/-- The machines for which the machine switch sets `gpfx` to an underscore. -/
def uses_underscore (m : Nat) : Bool :=
  m = EM_IA_64 ∨ m = EM_MIPS ∨ m = EM_PPC ∨ m = EM_PPC64 ∨ m = EM_S390 ∨ m = EM_SPARCV9

/-- The value of `reltype` passed to `do32` (`cls64 = false`) or `do64`. -/
def final_reltype (cls64 : Bool) (m : Nat) : Nat :=
  if m = EM_MIPS then (if cls64 then R_MIPS_64 else R_MIPS_32)
  else if m = EM_S390 then (if cls64 then R_390_64 else R_390_32)
  else base_reltype m

/-- The static variables at the moment `do_file` calls `do32` or `do64`, from the
state `s` in which `mmap_file` returned `addr`. -/
def call_state (host : ByteOrder) (mem : List Nat) (addr : Nat) (cls64 : Bool) (s : State) :
    State :=
  let m := converted16 host mem off_e_machine
  let s := with_converters host (byte_at mem EI_DATA) { s with ehdr_curr := addr }
  let s := { s with gpfx := if uses_underscore m then '_'.toNat else 0 }
  if m = EM_MIPS then
    if cls64 then
      { s with Elf64_r_sym := Hook.mips, Elf64_r_info := Hook.mips,
               is_fake_mcount64 := Hook.mips }
    else { s with is_fake_mcount32 := Hook.mips }
  else s

/-- The events of a call of `mmap_file` that returns. -/
def mmap_events (env : FileEnv) (fname : String) : List Event :=
  [Event.sys_open fname env.open_ret, Event.sys_fstat env.open_ret env.fstat_ret,
    Event.sys_mmap env.st_size env.open_ret env.mmap_ret]
  ++ (if env.mmap_ret = none then
        [Event.sys_malloc env.st_size env.malloc_ret,
          Event.sys_read env.open_ret env.st_size env.read_ret]
      else [])

/-- The names passed to `do_file`, in order. -/
def do_file_calls (t : List Event) : List String :=
  t.filterMap fun e => match e with
    | Event.call_do_file f => some f
    | _ => none

/-- The names passed to `open`, in order. -/
def opened (t : List Event) : List String :=
  t.filterMap fun e => match e with
    | Event.sys_open f _ => some f
    | _ => none

/-- Number of escapes through `fail_file`. -/
def fail_jumps (t : List Event) : Nat :=
  t.countP fun e => e = Event.longjmp SJ_FAIL

/-- Number of calls of `do32`. -/
def n_do32 (t : List Event) : Nat :=
  t.countP fun e => match e with
    | Event.call_do32 _ _ _ => true
    | _ => false

/-- Number of calls of `do64`. -/
def n_do64 (t : List Event) : Nat :=
  t.countP fun e => match e with
    | Event.call_do64 _ _ _ => true
    | _ => false

/-- The argument ends with the name of the skipped file. -/
def ends_with_ftrace (arg : String) : Prop :=
  ftrace.data <:+ arg.data

instance (arg : String) : Decidable (ends_with_ftrace arg) := by
  unfold ends_with_ftrace; infer_instance

/-- The state after the machine switch. -/
def machine_state (host : ByteOrder) (mem : List Nat) (addr : Nat) (s : State) : State :=
  if uses_underscore (converted16 host mem off_e_machine) then
    { { with_converters host (byte_at mem EI_DATA) { s with ehdr_curr := addr } with
        gpfx := 0 } with gpfx := '_'.toNat }
  else { with_converters host (byte_at mem EI_DATA) { s with ehdr_curr := addr } with
        gpfx := 0 }

/-- The state `t` agrees with `s` on everything that `cleanup` and the hooks use, with
`addr` as the current header. -/
def same_file (addr : Nat) (s t : State) : Prop :=
  t.trace = s.trace ∧ t.fd_map = s.fd_map ∧ t.mmap_failed = s.mmap_failed
    ∧ t.ehdr_curr = addr ∧ t.sb_st_size = s.sb_st_size
    ∧ t.is_fake_mcount32 = s.is_fake_mcount32 ∧ t.is_fake_mcount64 = s.is_fake_mcount64
    ∧ t.Elf64_r_sym = s.Elf64_r_sym ∧ t.Elf64_r_info = s.Elf64_r_info

/-- The events of `cleanup` in state `s`. -/
def cleanup_events (s : State) : List Event :=
  [if s.mmap_failed = 0 then Event.sys_munmap s.ehdr_curr s.sb_st_size
    else Event.sys_free s.ehdr_curr,
   Event.sys_close s.fd_map]

/-- The state in which `mmap_file` returns. -/
def mmap_state (env : FileEnv) (fname : String) (s : State) : State :=
  { s with fd_map := env.open_ret, sb_st_size := env.st_size,
           mmap_failed := if env.mmap_ret = none then 1 else 0,
           trace := s.trace ++ mmap_events env fname }

/-- The events of a call of `do32`/`do64` followed by the per-file cleanup. -/
def pass_events (cls64 : Bool) (env : FileEnv) (fname : String) (reltype : Nat) (s : State) :
    List Event :=
  [if cls64 then Event.call_do64 fname reltype s.config
    else Event.call_do32 fname reltype s.config]
  ++ (env.pass cls64 reltype s.config).events.map Event.in_pass
  ++ cleanup_events s
  ++ (match (env.pass cls64 reltype s.config).outcome with
      | PassOutcome.returned => []
      | PassOutcome.failed => [Event.longjmp SJ_FAIL]
      | PassOutcome.succeeded => [Event.longjmp SJ_SUCCEED])

/-- What a run of `do_file` shows in the trace: no nested call of `do_file`, one
`open` of `fname`, and `fails` escapes through `fail_file`. -/
def Summary (fname : String) (fails : Nat) (evs : List Event) : Prop :=
  do_file_calls evs = [] ∧ opened evs = [fname] ∧ fail_jumps evs = fails

/-- The operating system lets `mmap_file` return. -/
def maps (env : FileEnv) : Prop :=
  0 ≤ env.open_ret ∧ 0 ≤ env.fstat_ret ∧ env.is_reg = true
    ∧ (env.mmap_ret = none → env.malloc_ret ≠ 0 ∧ env.read_ret = env.st_size)

instance (env : FileEnv) : Decidable (maps env) := by
  unfold maps; infer_instance

/-- The state in which `main` calls `do_file` on `arg`. -/
def entry_state (arg : String) (s : State) : State :=
  ({ s with fd_map := -1, ehdr_curr := 0, mmap_failed := 1 } : State).log
    (Event.call_do_file arg)

/-- The arguments that the loop does not skip. -/
def processed (args : List String) : List String :=
  args.filter fun a => ¬ ends_with_ftrace a

/-- The events by which `cleanup` releases what `mmap_file` obtained at `addr`. -/
def release_events (env : FileEnv) (addr : Nat) : List Event :=
  [if env.mmap_ret = none then Event.sys_free addr else Event.sys_munmap addr env.st_size,
   Event.sys_close env.open_ret]

/-! ## Concrete inputs -/

/-- An x86-64, little-endian, class-64 relocatable header. -/
def sample_header64 : List Nat :=
  [0x7f, 69, 76, 70, 2, 1, 1, 0, 0, 0, 0, 0, 0, 0, 0, 0,
   1, 0, 62, 0] ++ List.replicate 32 0 ++ [64, 0, 0, 0, 0, 0, 64, 0, 0, 0, 0, 0]

/-- A pass that seeks, writes and returns. -/
def sample_pass : Bool → Nat → Config → PassResult := fun _ _ _ =>
  { events := [PassEvent.sys_lseek 3 0, PassEvent.sys_write 3 10],
    outcome := PassOutcome.returned }

/-- An environment in which every system call succeeds on an x86-64 object. -/
def sample_env : FileEnv :=
  { open_ret := 3, fstat_ret := 0, st_size := 64, is_reg := true, mmap_ret := some 4096,
    malloc_ret := 0, read_ret := 0, mem := sample_header64, pass := sample_pass }

/-- The same environment with a file whose first byte is not the magic byte. -/
def sample_env_bad : FileEnv :=
  { sample_env with mem := 0 :: sample_header64.drop 1 }

/-- A class-32, big-endian relocatable header for machine `m`. -/
def sample_header32_be (m : Nat) : List Nat :=
  [0x7f, 69, 76, 70, 1, 2, 1, 0, 0, 0, 0, 0, 0, 0, 0, 0,
   0, 1, 0, m] ++ List.replicate 20 0 ++ [0, 52, 0, 0, 0, 0, 0, 40, 0, 0, 0, 0]

/-- An environment in which every system call succeeds on a big-endian S/390 object
of class 32. -/
def sample_env_s390 : FileEnv :=
  { sample_env with mem := sample_header32_be EM_S390 }

/-- A command line with one file that is processed, the skipped file, and one file
that is rejected. -/
def sample_argv : List String :=
  ["recordmcount", "a.o", "kernel/trace/ftrace.o", "b.o"]

/-- The environment of `sample_argv`: the last argument has a bad magic number. -/
def sample_world : Nat → FileEnv :=
  fun i => if i = 3 then sample_env_bad else sample_env

/-- A class-64, big-endian relocatable header for machine `m`. -/
def sample_header64_be (m : Nat) : List Nat :=
  [0x7f, 69, 76, 70, 2, 2, 1, 0, 0, 0, 0, 0, 0, 0, 0, 0,
   0, 1, 0, m] ++ List.replicate 32 0 ++ [0, 64, 0, 0, 0, 0, 0, 64, 0, 0, 0, 0]

/-- An environment in which every system call succeeds on a big-endian MIPS object of
class 64. -/
def sample_env_mips : FileEnv :=
  { sample_env with mem := sample_header64_be EM_MIPS }

/-- The environment of the command line `recordmcount mips.o x86.o`. -/
def world_mips_first : Nat → FileEnv :=
  fun i => if i = 1 then sample_env_mips else sample_env

/-- The environment of the command line `recordmcount x86.o`. -/
def world_x86_only : Nat → FileEnv :=
  fun _ => sample_env

/-- An environment in which `mmap` fails, `malloc` returns a buffer at 8192 and `read`
returns 10 of the 64 bytes asked for. -/
def sample_env_short_read : FileEnv :=
  { open_ret := 3, fstat_ret := 0, st_size := 64, is_reg := true, mmap_ret := none,
    malloc_ret := 8192, read_ret := 10, mem := [], pass := sample_pass }

/-- Names of the sections that could contain calls to mcount.  A C string is a
sequence of non-NUL characters, on which `strcmp` returns `0` exactly for equal
strings; the result of the chain of `||` is `1` or `0`. -/
def is_mcounted_section_name (txtname : String) : Nat :=
  if ".text" = txtname ∨
      ".sched.text" = txtname ∨
      ".spinlock.text" = txtname ∨
      ".irqentry.text" = txtname ∨
      ".text.unlikely" = txtname then 1 else 0

/-- The allow-list of the claim. -/
def mcounted_names : List String :=
  [".text", ".sched.text", ".spinlock.text", ".irqentry.text", ".text.unlikely"]

/-- Byte `k` of a value: `(x >> (8 * k)) & 0xff`. -/
def byte_of (x k : Nat) : Nat :=
  x / 256 ^ k % 256

/-- The bytes of an `n`-byte unsigned object of value `v`, in memory order. -/
def to_bytes (host : ByteOrder) (n v : Nat) : List Nat :=
  match host with
  | ByteOrder.little => (List.range n).map (byte_of v)
  | ByteOrder.big => ((List.range n).map (byte_of v)).reverse

/-- The value of the unsigned object whose bytes, in memory order, are `bs`. -/
def of_bytes (host : ByteOrder) (bs : List Nat) : Nat :=
  match host with
  | ByteOrder.little => bs.foldr (fun b acc => b % 256 + 256 * acc) 0
  | ByteOrder.big => bs.foldl (fun acc b => 256 * acc + b % 256) 0

/-- The member `r_mips.r_sym` of a `union mips_r_info` whose bytes are `u`: the 32-bit
object at offset 0. -/
def r_mips_r_sym (host : ByteOrder) (u : List Nat) : Nat :=
  of_bytes host (u.take 4)

/-- The member `r_mips.r_ssym`: the byte at offset 4. -/
def r_mips_r_ssym (u : List Nat) : Nat := u.getD 4 0

/-- The member `r_mips.r_type3`: the byte at offset 5. -/
def r_mips_r_type3 (u : List Nat) : Nat := u.getD 5 0

/-- The member `r_mips.r_type2`: the byte at offset 6. -/
def r_mips_r_type2 (u : List Nat) : Nat := u.getD 6 0

/-- The member `r_mips.r_type`: the byte at offset 7. -/
def r_mips_r_type (u : List Nat) : Nat := u.getD 7 0

/-- The function `MIPS64_r_sym`, on the value of `rp->r_info`; `w` is the bound
32-bit converter. -/
def MIPS64_r_sym (host : ByteOrder) (w : Option Fn4) (r_info : Nat) : Nat :=
  let u := to_bytes host 8 (r_info % 2 ^ 64)
  call_w w (r_mips_r_sym host u)

/-- The function `MIPS64_r_info`; the result is the value stored in `rp->r_info`.
The compound literal sets `r_sym` and `r_type` and zeroes the other members. -/
def MIPS64_r_info (host : ByteOrder) (w : Option Fn4) (sym type : Nat) : Nat :=
  let sym := sym % 2 ^ 32
  let type := type % 2 ^ 32
  let u := to_bytes host 4 (call_w w sym) ++ [0, 0, 0, type % 256]
  of_bytes host u % 2 ^ 64

/-- Value of `offsetof(Elf32_Ehdr, e_shoff)` (`false`) and `offsetof(Elf64_Ehdr, e_shoff)`
(`true`). -/
def off_e_shoff (cls64 : Bool) : Nat := if cls64 then 40 else 32

/-- Size in bytes of the field `e_shoff`. -/
def size_e_shoff (cls64 : Bool) : Nat := if cls64 then 8 else 4

/-- Value of `offsetof(Elf32_Ehdr, e_shnum)` (`false`) and `offsetof(Elf64_Ehdr, e_shnum)`
(`true`); the field is two bytes wide. -/
def off_e_shnum (cls64 : Bool) : Nat := if cls64 then 60 else 48

/-- Size of the ELF header of the class. -/
def sizeof_Ehdr (cls64 : Bool) : Nat := if cls64 then sizeof_Elf64_Ehdr else sizeof_Elf32_Ehdr

/-- Modelled from the spec: the Synthesized Region of section 3, "the concatenation of
a new string-table extension, new section headers, the call-site data section, and the
call-site relocation section".  The code that builds it is in `recordmcount.h`, which
is not among the sources; the four parts are arbitrary byte strings here. -/
structure SynthRegion where
  strtab : List Nat
  shdrs : List Nat
  mcount_loc : List Nat
  mcount_rel : List Nat

/-- Modelled from the spec: the bytes of the Synthesized Region, its four parts in the
order section 3 lists them. -/
def SynthRegion.bytes (r : SynthRegion) : List Nat :=
  r.strtab ++ r.shdrs ++ r.mcount_loc ++ r.mcount_rel

/-- Modelled from the spec: a write of `bytes` at offset `off` of a file, the write
operation that section 4.5 uses; a gap between the end of the file and `off` reads as
zero. -/
def write_at (file : List Nat) (off : Nat) (bytes : List Nat) : List Nat :=
  file.take off ++ List.replicate (off - file.length) 0 ++ bytes
    ++ file.drop (off + bytes.length)

/-- Modelled from the spec: the operation append-and-finalize of section 4.5, which
"writes the Synthesized Region's bytes starting at the current end-of-file, then
overwrites only the fixed-size header fields (section-header offset, count) in place";
by section 4.4 the new section-header array is what the new offset designates.  `order`
is the byte order of the file, `shnum` the new section count. -/
def append_and_finalize (cls64 : Bool) (order : ByteOrder) (file : List Nat)
    (r : SynthRegion) (shnum : Nat) : List Nat :=
  let new_e_shoff := file.length + r.strtab.length
  let out := write_at file file.length r.bytes
  let out := write_at out (off_e_shoff cls64) (to_bytes order (size_e_shoff cls64) new_e_shoff)
  write_at out (off_e_shnum cls64) (to_bytes order 2 shnum)

/-- A small Synthesized Region. -/
def sample_region : SynthRegion :=
  { strtab := [0, 46, 116, 0], shdrs := List.replicate 8 1, mcount_loc := [2, 2],
    mcount_rel := [3] }

end Recordmcount

namespace IpxeElf

/-!
# image/elf.c (iPXE): loading the segments of an ELF image

The model is of the i386 build: `int`, `unsigned int`, `unsigned long` (the types of
`physaddr_t` and of `e_offset`) and `size_t` are 32 bits wide and memory is
little-endian; the fields of `Elf32_Ehdr` and `Elf32_Phdr` are 16 and 32 bits wide on
every build.  Unsigned arithmetic is arithmetic on naturals reduced modulo `2 ^ 32`.  `prep_segment`
(`core/segment.c`) and the constant `ENOEXEC` (`errno.h`) are not among the sources:
the first is a parameter, the second a non-zero constant.
-/

def PT_LOAD : Nat := 1
def ELFCLASS32 : Nat := 1
/-- The constant `ENOEXEC`; only its being non-zero matters. -/
def ENOEXEC : Int := 8
/-- Value of `sizeof(Elf32_Ehdr)`. -/
def sizeof_ehdr : Nat := 52
/-- Value of `sizeof(Elf32_Phdr)`. -/
def sizeof_phdr : Nat := 32

/-- The static array `e_ident` of `elf_load`: four magic bytes and the class. -/
def e_ident : List Nat := [0x7f, 69, 76, 70, ELFCLASS32]

/-- An image: `data` are the bytes of memory from `image->data` on (a byte past the
last one of the list reads as zero), `len` is `image->len`. -/
structure Image where
  data : List Nat
  len : Nat

/-- The byte at `offset` from `image->data`. -/
def byte_at (image : Image) (offset : Nat) : Nat :=
  image.data.getD offset 0 % 256

/-- A 16-bit little-endian field. -/
def le16 (image : Image) (offset : Nat) : Nat :=
  byte_at image offset + 256 * byte_at image (offset + 1)

/-- A 32-bit little-endian field. -/
def le32 (image : Image) (offset : Nat) : Nat :=
  byte_at image offset + 256 * byte_at image (offset + 1)
    + 65536 * byte_at image (offset + 2) + 16777216 * byte_at image (offset + 3)

/-- The fields of `Elf32_Ehdr` that `elf_load` uses. -/
structure Elf_Ehdr where
  e_ident : List Nat
  e_entry : Nat
  e_phoff : Nat
  e_phentsize : Nat
  e_phnum : Nat

/-- The fields of `Elf32_Phdr` that `elf_load_segment` uses. -/
structure Elf_Phdr where
  p_type : Nat
  p_offset : Nat
  p_vaddr : Nat
  p_paddr : Nat
  p_filesz : Nat
  p_memsz : Nat

/-- The header copied by `copy_from_user ( &ehdr, image->data, 0, sizeof ( ehdr ) )`. -/
def read_ehdr (image : Image) : Elf_Ehdr :=
  { e_ident := (List.range 16).map (byte_at image),
    e_entry := le32 image 24, e_phoff := le32 image 28,
    e_phentsize := le16 image 42, e_phnum := le16 image 44 }

/-- The header copied by
`copy_from_user ( &phdr, image->data, phoff, sizeof ( phdr ) )`. -/
def read_phdr (image : Image) (phoff : Nat) : Elf_Phdr :=
  { p_type := le32 image phoff, p_offset := le32 image (phoff + 4),
    p_vaddr := le32 image (phoff + 8), p_paddr := le32 image (phoff + 12),
    p_filesz := le32 image (phoff + 16), p_memsz := le32 image (phoff + 20) }

/-- The accesses to the image and to memory, in order. -/
inductive Access
  | read_header
  | read_phdr (phoff : Nat)
  | prep_segment (dest filesz memsz : Nat) (rc : Int)
  | memcpy_user (dest offset filesz : Nat)
  deriving DecidableEq, Repr

/-- The objects `*entry` and `*max` of the caller, and the accesses made. -/
structure Load where
  entry : Nat
  max : Nat
  trace : List Access
  deriving DecidableEq, Repr

/-- The statements `dest = phdr->p_paddr; if ( ! dest ) dest = phdr->p_vaddr;`. -/
def dest_of (phdr : Elf_Phdr) : Nat :=
  if phdr.p_paddr = 0 then phdr.p_vaddr else phdr.p_paddr

/-- Record an access. -/
def Load.log (s : Load) (a : Access) : Load :=
  { s with trace := s.trace ++ [a] }

/-- The statement `if ( end > *max ) *max = end;`. -/
def Load.raise_max (s : Load) (end_ : Nat) : Load :=
  if end_ > s.max then { s with max := end_ } else s

/-- The function `elf_load_segment`: the status returned, and `*entry`, `*max` and the
accesses afterwards. -/
def elf_load_segment (prep_segment : Nat → Nat → Nat → Int) (image : Image)
    (phdr : Elf_Phdr) (ehdr : Elf_Ehdr) (s : Load) : Int × Load :=
  /- Do nothing for non-PT_LOAD segments -/
  if phdr.p_type ≠ PT_LOAD then (0, s)
  /- Check segment lies within image -/
  else if (phdr.p_offset + phdr.p_filesz) % 2 ^ 32 > image.len then (-ENOEXEC, s)
  else
    let dest := dest_of phdr
    if dest = 0 then (-ENOEXEC, s)
    else
      let end_ := (dest + phdr.p_memsz) % 2 ^ 32
      /- Verify and prepare segment -/
      let rc := prep_segment dest phdr.p_filesz phdr.p_memsz
      let s := s.log (Access.prep_segment dest phdr.p_filesz phdr.p_memsz rc)
      if rc ≠ 0 then (rc, s)
      else
        /- Update maximum used address, if applicable -/
        let s := s.raise_max end_
        /- Copy image to segment -/
        let s := s.log (Access.memcpy_user dest phdr.p_offset phdr.p_filesz)
        /- Set execution address, if it lies within this segment -/
        let e_offset := (ehdr.e_entry + 2 ^ 32 - dest) % 2 ^ 32
        if e_offset < phdr.p_filesz then (0, { s with entry := ehdr.e_entry })
        else
          let e_offset := (ehdr.e_entry + 2 ^ 32 - phdr.p_vaddr) % 2 ^ 32
          if e_offset < phdr.p_filesz then
            if s.entry = 0 then (0, { s with entry := (dest + e_offset) % 2 ^ 32 })
            else (0, s)
          else (0, s)

/-- The `for` loop of `elf_load`, with `phnum` headers left and the next one at
`phoff`.  The status is non-zero when the loop is left by a `return`. -/
def elf_load_loop (prep_segment : Nat → Nat → Nat → Int) (image : Image) (ehdr : Elf_Ehdr) :
    Nat → Nat → Load → Int × Load
  | 0, _, s => (0, s)
  | phnum + 1, phoff, s =>
    if phoff > image.len then (-ENOEXEC, s)
    else
      let phdr := read_phdr image phoff
      let s := s.log (Access.read_phdr phoff)
      let r := elf_load_segment prep_segment image phdr ehdr s
      if r.1 ≠ 0 then r
      else elf_load_loop prep_segment image ehdr phnum
        ((phoff + ehdr.e_phentsize) % 2 ^ 32) r.2

/-- The function `elf_load`: the status returned, and `*entry`, `*max` and the accesses
afterwards. -/
def elf_load (prep_segment : Nat → Nat → Nat → Int) (image : Image) (s : Load) :
    Int × Load :=
  /- Read ELF header -/
  let ehdr := read_ehdr image
  let s := s.log Access.read_header
  if ehdr.e_ident.take e_ident.length ≠ e_ident then (-ENOEXEC, s)
  else
    /- Initialise maximum used address, invalidate entry point -/
    let s := { s with max := 0, entry := 0 }
    /- Read ELF program headers -/
    let r := elf_load_loop prep_segment image ehdr ehdr.e_phnum ehdr.e_phoff s
    if r.1 ≠ 0 then r
    /- Check for a valid execution address -/
    else if r.2.entry = 0 then (-ENOEXEC, r.2)
    else (0, r.2)

/-- The `n` bytes of the little-endian representation of `v`. -/
def le_bytes (n v : Nat) : List Nat :=
  (List.range n).map fun k => v / 256 ^ k % 256

/-- The bytes of an ELF header of class 32 with the given entry point and program
header table. -/
def ehdr_bytes (entry phoff phentsize phnum : Nat) : List Nat :=
  e_ident ++ List.replicate 11 0 ++ le_bytes 2 2 ++ le_bytes 2 3 ++ le_bytes 4 1
    ++ le_bytes 4 entry ++ le_bytes 4 phoff ++ le_bytes 4 0 ++ le_bytes 4 0
    ++ le_bytes 2 sizeof_ehdr ++ le_bytes 2 phentsize ++ le_bytes 2 phnum
    ++ le_bytes 2 0 ++ le_bytes 2 0 ++ le_bytes 2 0

/-- The bytes of a program header. -/
def phdr_bytes (type offset vaddr paddr filesz memsz : Nat) : List Nat :=
  le_bytes 4 type ++ le_bytes 4 offset ++ le_bytes 4 vaddr ++ le_bytes 4 paddr
    ++ le_bytes 4 filesz ++ le_bytes 4 memsz ++ le_bytes 4 5 ++ le_bytes 4 0

/-- A `prep_segment` that rejects a segment whose file size exceeds its memory size
with status `-22` and accepts every other one. -/
def prep_sane : Nat → Nat → Nat → Int :=
  fun _ filesz memsz => if filesz > memsz then -22 else 0

/-- The caller's objects before the call. -/
def Load.init : Load := { entry := 0, max := 0, trace := [] }

/-- An image of 84 bytes: one `PT_LOAD` segment whose `p_offset + p_filesz` exceeds
`2 ^ 32`. -/
def image_wrapped_offset : Image :=
  { data := ehdr_bytes 0x100000 52 32 1
      ++ phdr_bytes PT_LOAD 0xfffffff0 0x100000 0x100000 0x20 0x20,
    len := 84 }

/-- An image of 56 bytes whose program header starts at offset 52; the 28 bytes of
memory after the image complete a `PT_LOAD` header. -/
def image_short : Image :=
  { data := ehdr_bytes 0x100000 52 32 1 ++ phdr_bytes PT_LOAD 0 0x100000 0x100000 0x20 0x20,
    len := 56 }

/-- An image whose only segment ends past the top of the 32-bit address space. -/
def image_wrapped_end : Image :=
  { data := ehdr_bytes 0xfffff000 52 32 1
      ++ phdr_bytes PT_LOAD 0 0xfffff000 0xfffff000 0x20 0x2000,
    len := 84 }

/-- An image whose only segment does not contain the entry point and has a file size
above its memory size. -/
def image_insane : Image :=
  { data := ehdr_bytes 0x200000 52 32 1
      ++ phdr_bytes PT_LOAD 0 0x100000 0x100000 0x20 0x10,
    len := 84 }

/-- An image whose only segment contains the entry point. -/
def image_plain : Image :=
  { data := ehdr_bytes 0x100010 52 32 1
      ++ phdr_bytes PT_LOAD 0 0x100000 0x100000 0x20 0x20,
    len := 84 }

/-- An image whose only segment does not contain the entry point. -/
def image_no_entry : Image :=
  { data := ehdr_bytes 0x200000 52 32 1
      ++ phdr_bytes PT_LOAD 0 0x100000 0x100000 0x20 0x20,
    len := 84 }

/-- An image whose only segment starts 16 bytes below the top of the 32-bit address
space and has 32 file-backed bytes; the entry point is the address 5. -/
def image_wrapped_entry : Image :=
  { data := ehdr_bytes 5 52 32 1
      ++ phdr_bytes PT_LOAD 0 0xfffffff0 0xfffffff0 0x20 0x20,
    len := 84 }

/-- The offset of program header `k`, as the loop of `elf_load` computes it. -/
def phoff_at (ehdr : Elf_Ehdr) : Nat → Nat
  | 0 => ehdr.e_phoff
  | k + 1 => (phoff_at ehdr k + ehdr.e_phentsize) % 2 ^ 32

/-- Program header `k` of the image. -/
def segment (image : Image) (k : Nat) : Elf_Phdr :=
  read_phdr image (phoff_at (read_ehdr image) k)

/-- Segment `k` is a `PT_LOAD` segment that contains the address `a` counted from its
load address. -/
def loads_at (image : Image) (k a : Nat) : Prop :=
  (segment image k).p_type = PT_LOAD
    ∧ dest_of (segment image k) ≤ a
    ∧ a < dest_of (segment image k) + (segment image k).p_filesz

/-- Segment `k` is a `PT_LOAD` segment that contains `e_entry` by physical or by
virtual address. -/
def contains_entry (image : Image) (k : Nat) : Prop :=
  (segment image k).p_type = PT_LOAD
    ∧ ((dest_of (segment image k) ≤ (read_ehdr image).e_entry
        ∧ (read_ehdr image).e_entry
            < dest_of (segment image k) + (segment image k).p_filesz)
      ∨ ((segment image k).p_vaddr ≤ (read_ehdr image).e_entry
        ∧ (read_ehdr image).e_entry
            < (segment image k).p_vaddr + (segment image k).p_filesz))

/-- No `PT_LOAD` segment of the image wraps around the 32-bit address space, by load
address or by virtual address. -/
def no_wrap (image : Image) : Prop :=
  ∀ k, k < (read_ehdr image).e_phnum → (segment image k).p_type = PT_LOAD →
    dest_of (segment image k) + (segment image k).p_filesz ≤ 2 ^ 32
      ∧ (segment image k).p_vaddr + (segment image k).p_filesz ≤ 2 ^ 32

/-- The signature of the image matches: magic and 32-bit class. -/
def signature_ok (image : Image) : Prop :=
  (read_ehdr image).e_ident.take e_ident.length = e_ident

instance (image : Image) : Decidable (no_wrap image) := by
  unfold no_wrap; infer_instance

instance (image : Image) (k a : Nat) : Decidable (loads_at image k a) := by
  unfold loads_at; infer_instance

instance (image : Image) (k : Nat) : Decidable (contains_entry image k) := by
  unfold contains_entry; infer_instance

instance (image : Image) : Decidable (signature_ok image) := by
  unfold signature_ok; infer_instance

/-- No `PT_LOAD` segment of the image wraps around the 32-bit address space counted
from its load address. -/
def no_wrap_dest (image : Image) : Prop :=
  ∀ k, k < (read_ehdr image).e_phnum → (segment image k).p_type = PT_LOAD →
    dest_of (segment image k) + (segment image k).p_filesz ≤ 2 ^ 32

instance (image : Image) : Decidable (no_wrap_dest image) := by
  unfold no_wrap_dest; infer_instance

/-- Segment `k` is a `PT_LOAD` segment for which `prep_segment` returns the non-zero
status `rc`. -/
def rejected (prep_segment : Nat → Nat → Nat → Int) (image : Image) (k : Nat) (rc : Int) :
    Prop :=
  (segment image k).p_type = PT_LOAD
    ∧ prep_segment (dest_of (segment image k)) (segment image k).p_filesz
        (segment image k).p_memsz = rc
    ∧ rc ≠ 0

/-- An image whose only segment has the load address `0x100000` and a virtual address
16 bytes below the top of the 32-bit address space, with 32 file-backed bytes; the
entry point is the address 5. -/
def image_wrapped_vaddr : Image :=
  { data := ehdr_bytes 5 52 32 1
      ++ phdr_bytes PT_LOAD 0 0xfffffff0 0x100000 0x20 0x20,
    len := 84 }

end IpxeElf

namespace ArmMisc

/-!
# arch/arm/boot/compressed/misc.c: `memcpy`, `strreverse` and `itoa`

An `int` is 32 bits wide in two's complement; the result of an `int` operation that
leaves the range is reduced into it (`wrap_int`), as the ARM instructions do.  Division
and remainder truncate towards zero.  A string buffer is the list of the bytes from
`str` up to the last byte written.
-/

/-- The value of an `int` expression: reduced into `-2 ^ 31 .. 2 ^ 31 - 1`. -/
def wrap_int (x : Int) : Int :=
  (x + 2 ^ 31) % 2 ^ 32 - 2 ^ 31

/-- The smallest `int`. -/
def INT_MIN : Int := -2147483648

/-- The character NUL. -/
def NUL : Char := Char.ofNat 0

/-- The static array `num` of `itoa`: 36 digits and the terminating NUL. -/
def num : List Char := "0123456789abcdefghijklmnopqrstuvwxyz".toList ++ [NUL]

/-- The loop of `strreverse` with `begin` and `end` as indices into the buffer:
`while(end>begin) aux=*end, *end--=*begin, *begin++=aux;`.  `none` when the fuel runs
out. -/
def strreverse_loop : Nat → List Char → Nat → Nat → Option (List Char)
  | 0, _, _, _ => none
  | fuel + 1, buf, begin_, end_ =>
    if end_ > begin_ then
      let aux := buf.getD end_ NUL
      let buf := buf.set end_ (buf.getD begin_ NUL)
      let buf := buf.set begin_ aux
      strreverse_loop fuel buf (begin_ + 1) (end_ - 1)
    else some buf

/-- The function `strreverse`. -/
def strreverse (buf : List Char) (begin_ end_ : Nat) : Option (List Char) :=
  strreverse_loop (end_ + 1) buf begin_ end_

/-- How the conversion loop of `itoa` ends. -/
inductive Digits
  | done (buf : List Char)
  | outside_table (index : Int)
  | unfinished
  deriving DecidableEq, Repr

/-- The loop `do *wstr++ = num[value%base]; while(value/=base);`, the bytes written so
far being `buf`.  It stops at an index outside the array `num`; `unfinished` when the
fuel runs out. -/
def itoa_loop : Nat → Int → Int → List Char → Digits
  | 0, _, _, _ => Digits.unfinished
  | fuel + 1, value, base, buf =>
    let index := Int.tmod value base
    if index < 0 ∨ index ≥ num.length then Digits.outside_table index
    else
      let buf := buf ++ [num.getD index.toNat NUL]
      let value := Int.tdiv value base
      if value ≠ 0 then itoa_loop fuel value base buf else Digits.done buf

/-- What a call of `itoa` does: it returns `NULL` or `str` with the buffer as given, or
it reads `num` at an index outside the array. -/
inductive Outcome
  | ret_null (str : List Char)
  | ret_str (str : List Char)
  | outside_table (index : Int)
  | unfinished
  deriving DecidableEq, Repr

/-- The function `itoa`. -/
def itoa (value : Int) (base : Int) : Outcome :=
  /- Validate base -/
  if base < 2 ∨ base > 35 then Outcome.ret_null [NUL]
  else
    /- Take care of sign -/
    let sign := value
    let value := if sign < 0 then wrap_int (-value) else value
    /- Conversion. Number is reversed. -/
    match itoa_loop 33 value base [] with
    | Digits.outside_table index => Outcome.outside_table index
    | Digits.unfinished => Outcome.unfinished
    | Digits.done buf =>
      let buf := if sign < 0 then buf ++ ['-'] else buf
      let wstr := buf.length
      let buf := buf ++ [NUL]
      /- Reverse string -/
      match strreverse buf 0 (wstr - 1) with
      | none => Outcome.unfinished
      | some buf => Outcome.ret_str buf

/-- The C string that a buffer holds: the bytes before the first NUL. -/
def c_string (buf : List Char) : String :=
  String.mk (buf.takeWhile fun c => c ≠ NUL)

/-- The call read `num` at a negative index. -/
def Outcome.below_table : Outcome → Bool
  | Outcome.outside_table index => decide (index < 0)
  | _ => false

/-- The memory, the pointers `d` and `s` of `memcpy`, and the addresses stored to so
far, in order.  An address is a natural number; the buffers lie in the address space,
so no pointer increment wraps. -/
structure Copy where
  mem : Nat → Nat
  d : Nat
  s : Nat
  written : List Nat

/-- The statement `*d++ = *s++;`. -/
def copy_byte (c : Copy) : Copy :=
  { mem := fun a => if a = c.d then c.mem c.s else c.mem a,
    d := c.d + 1, s := c.s + 1, written := c.written ++ [c.d] }

/-- The loop `for (i = ...; i > 0; i--)` of `memcpy`, entered with `i` the given
count (no pass when `i` is not positive): eight byte copies per pass. -/
def memcpy_loop : Nat → Copy → Copy
  | 0, c => c
  | i + 1, c =>
    let c := copy_byte c
    let c := copy_byte c
    let c := copy_byte c
    let c := copy_byte c
    let c := copy_byte c
    let c := copy_byte c
    let c := copy_byte c
    let c := copy_byte c
    memcpy_loop i c

/-- The function `memcpy`: the value returned and the memory afterwards.  `size_t` is
32 bits wide; `i` is an `int`. -/
def memcpy (mem : Nat → Nat) (dest src n : Nat) : Nat × Copy :=
  let n := n % 2 ^ 32
  let c : Copy := { mem := mem, d := dest, s := src, written := [] }
  let i := wrap_int (n >>> 3)
  let c := memcpy_loop i.toNat c
  let c := if n &&& 1 <<< 2 ≠ 0 then
      copy_byte (copy_byte (copy_byte (copy_byte c)))
    else c
  let c := if n &&& 1 <<< 1 ≠ 0 then copy_byte (copy_byte c) else c
  let c := if n &&& 1 ≠ 0 then copy_byte c else c
  (dest, c)

/-- A memory whose byte at address `a` is `a % 251`. -/
def sample_mem : Nat → Nat := fun a => a % 251

end ArmMisc

/-! # Theorems -/

namespace Recordmcount

/-! ## Arithmetic form of the byte-swapping converters -/

theorem and_ff (y : Nat) : 0xff &&& y = y % 256 := by
  rw [Nat.and_comm]
  exact Nat.and_pow_two_sub_one_eq_mod y 8

theorem or_low (k A b : Nat) (hdiv : 2 ^ k ∣ A) (hb : b < 2 ^ k) : A ||| b = A + b := by
  obtain ⟨q, rfl⟩ := hdiv
  exact (Nat.mul_add_lt_is_or hb q).symm

theorem or_chain4 (b0 b1 b2 b3 : Nat) (h1 : b1 < 256) (h2 : b2 < 256) (h3 : b3 < 256) :
    b0 * 16777216 ||| b1 * 65536 ||| b2 * 256 ||| b3 * 1
      = b0 * 16777216 + b1 * 65536 + b2 * 256 + b3 := by
  rw [or_low 24 (b0 * 16777216) (b1 * 65536) (by omega) (by omega),
    or_low 16 (b0 * 16777216 + b1 * 65536) (b2 * 256) (by omega) (by omega),
    or_low 8 (b0 * 16777216 + b1 * 65536 + b2 * 256) (b3 * 1) (by omega) (by omega)]
  omega

theorem or_chain8 (b0 b1 b2 b3 b4 b5 b6 b7 : Nat) (h1 : b1 < 256)
    (h2 : b2 < 256) (h3 : b3 < 256) (h4 : b4 < 256) (h5 : b5 < 256) (h6 : b6 < 256)
    (h7 : b7 < 256) :
    b0 * 72057594037927936 ||| b1 * 281474976710656 ||| b2 * 1099511627776
      ||| b3 * 4294967296 ||| b4 * 16777216 ||| b5 * 65536 ||| b6 * 256 ||| b7 * 1
      = b0 * 72057594037927936 + b1 * 281474976710656 + b2 * 1099511627776
      + b3 * 4294967296 + b4 * 16777216 + b5 * 65536 + b6 * 256 + b7 := by
  rw [or_low 56 (b0 * 72057594037927936) (b1 * 281474976710656) (by omega) (by omega),
    or_low 48 _ (b2 * 1099511627776) (by omega) (by omega),
    or_low 40 _ (b3 * 4294967296) (by omega) (by omega),
    or_low 32 _ (b4 * 16777216) (by omega) (by omega),
    or_low 24 _ (b5 * 65536) (by omega) (by omega),
    or_low 16 _ (b6 * 256) (by omega) (by omega),
    or_low 8 _ (b7 * 1) (by omega) (by omega)]
  omega

/-- The 16-bit swap written with division and remainder. -/
theorem w2rev_arith (x : Nat) : w2rev x = x % 256 * 256 + x / 256 % 256 := by
  unfold w2rev
  simp only [and_ff, Nat.shiftLeft_eq, Nat.shiftRight_eq_div_pow, Nat.reduceMul, Nat.reducePow]
  rw [or_low 8 _ _ (by omega) (by omega)]
  omega

/-- The 32-bit swap written with division and remainder. -/
theorem w4rev_arith (x : Nat) :
    w4rev x = x % 256 * 16777216 + x / 256 % 256 * 65536 + x / 65536 % 256 * 256
      + x / 16777216 % 256 := by
  unfold w4rev
  simp only [and_ff, Nat.shiftLeft_eq, Nat.shiftRight_eq_div_pow, Nat.reduceMul, Nat.reducePow]
  rw [or_chain4 _ _ _ _ (by omega) (by omega) (by omega)]
  omega

/-- The 64-bit swap written with division and remainder. -/
theorem w8rev_arith (x : Nat) :
    w8rev x = x % 256 * 72057594037927936 + x / 256 % 256 * 281474976710656
      + x / 65536 % 256 * 1099511627776 + x / 16777216 % 256 * 4294967296
      + x / 4294967296 % 256 * 16777216 + x / 1099511627776 % 256 * 65536
      + x / 281474976710656 % 256 * 256 + x / 72057594037927936 % 256 := by
  unfold w8rev
  simp only [and_ff, Nat.shiftLeft_eq, Nat.shiftRight_eq_div_pow, Nat.reduceMul, Nat.reducePow]
  rw [or_chain8 _ _ _ _ _ _ _ _ (by omega) (by omega) (by omega) (by omega) (by omega)
    (by omega) (by omega)]
  omega

theorem w2rev_bytes (b0 b1 : Nat) (h0 : b0 < 256) (h1 : b1 < 256) :
    w2rev (b0 + 256 * b1) = b1 + 256 * b0 := by
  rw [w2rev_arith]
  omega

theorem w4rev_bytes (b0 b1 b2 b3 : Nat) (h0 : b0 < 256) (h1 : b1 < 256) (h2 : b2 < 256)
    (h3 : b3 < 256) :
    w4rev (b0 + 256 * b1 + 65536 * b2 + 16777216 * b3)
      = b3 + 256 * b2 + 65536 * b1 + 16777216 * b0 := by
  rw [w4rev_arith]
  omega

theorem w8rev_bytes (b0 b1 b2 b3 b4 b5 b6 b7 : Nat) (h0 : b0 < 256) (h1 : b1 < 256)
    (h2 : b2 < 256) (h3 : b3 < 256) (h4 : b4 < 256) (h5 : b5 < 256) (h6 : b6 < 256)
    (h7 : b7 < 256) :
    w8rev (b0 + 256 * b1 + 65536 * b2 + 16777216 * b3 + 4294967296 * b4 + 1099511627776 * b5
        + 281474976710656 * b6 + 72057594037927936 * b7)
      = b7 + 256 * b6 + 65536 * b5 + 16777216 * b4 + 4294967296 * b3 + 1099511627776 * b2
        + 281474976710656 * b1 + 72057594037927936 * b0 := by
  rw [w8rev_arith]
  omega

theorem w2rev_w2rev (x : Nat) (h : x < 2 ^ 16) : w2rev (w2rev x) = x := by
  have hx : x = x % 256 + 256 * (x / 256) := by omega
  have e1 := w2rev_bytes (x % 256) (x / 256) (by omega) (by omega)
  have e2 := w2rev_bytes (x / 256) (x % 256) (by omega) (by omega)
  rw [← hx] at e1
  rw [e1, e2]
  omega

theorem w4rev_w4rev (x : Nat) (h : x < 2 ^ 32) : w4rev (w4rev x) = x := by
  have hx : x = x % 256 + 256 * (x / 256 % 256) + 65536 * (x / 65536 % 256)
      + 16777216 * (x / 16777216) := by omega
  have e1 := w4rev_bytes (x % 256) (x / 256 % 256) (x / 65536 % 256) (x / 16777216)
    (by omega) (by omega) (by omega) (by omega)
  have e2 := w4rev_bytes (x / 16777216) (x / 65536 % 256) (x / 256 % 256) (x % 256)
    (by omega) (by omega) (by omega) (by omega)
  rw [← hx] at e1
  rw [e1, e2]
  omega

theorem w8rev_w8rev (x : Nat) (h : x < 2 ^ 64) : w8rev (w8rev x) = x := by
  have hx : x = x % 256 + 256 * (x / 256 % 256) + 65536 * (x / 65536 % 256)
      + 16777216 * (x / 16777216 % 256) + 4294967296 * (x / 4294967296 % 256)
      + 1099511627776 * (x / 1099511627776 % 256)
      + 281474976710656 * (x / 281474976710656 % 256)
      + 72057594037927936 * (x / 72057594037927936) := by omega
  have e1 := w8rev_bytes (x % 256) (x / 256 % 256) (x / 65536 % 256) (x / 16777216 % 256)
    (x / 4294967296 % 256) (x / 1099511627776 % 256) (x / 281474976710656 % 256)
    (x / 72057594037927936)
    (by omega) (by omega) (by omega) (by omega) (by omega) (by omega) (by omega) (by omega)
  have e2 := w8rev_bytes (x / 72057594037927936) (x / 281474976710656 % 256)
    (x / 1099511627776 % 256) (x / 4294967296 % 256)
    (x / 16777216 % 256) (x / 65536 % 256) (x / 256 % 256) (x % 256)
    (by omega) (by omega) (by omega) (by omega) (by omega) (by omega) (by omega) (by omega)
  rw [← hx] at e1
  rw [e1, e2]
  omega

/-! ## C4: a converter applied twice is the identity -/

/-- C4: applying a converter twice yields the original value, for every 64-bit
argument of `w8rev`/`w8nat`, every 32-bit argument of `w4rev`/`w4nat` and every 16-bit
argument of `w2rev`/`w2nat` (whose 32-bit result is converted back to 16 bits when it
is passed again). -/
theorem converter_twice (x : Nat) :
    (x < 2 ^ 64 → w8rev (w8rev x) = x ∧ w8nat (w8nat x) = x)
      ∧ (x < 2 ^ 32 → w4rev (w4rev x) = x ∧ w4nat (w4nat x) = x)
      ∧ (x < 2 ^ 16 → w2rev (w2rev x) = x ∧ w2nat (w2nat x) = x) := by
  refine ⟨fun h => ⟨w8rev_w8rev x h, ?_⟩, fun h => ⟨w4rev_w4rev x h, ?_⟩,
    fun h => ⟨w2rev_w2rev x h, ?_⟩⟩
  · simp only [w8nat]; omega
  · simp only [w4nat]; omega
  · simp only [w2nat]; omega

theorem converter_twice_witness :
    (w8rev (w8rev 0x1234) = 0x1234 ∧ w8nat (w8nat 0x1234) = 0x1234)
      ∧ (w4rev (w4rev 0x1234) = 0x1234 ∧ w4nat (w4nat 0x1234) = 0x1234)
      ∧ (w2rev (w2rev 0x1234) = 0x1234 ∧ w2nat (w2nat 0x1234) = 0x1234) :=
  ⟨(converter_twice 0x1234).1 (by decide), (converter_twice 0x1234).2.1 (by decide),
    (converter_twice 0x1234).2.2 (by decide)⟩

/-! ## The stages of `do_file` -/

@[simp] theorem log_trace (s : State) (e : Event) : (s.log e).trace = s.trace ++ [e] := rfl

theorem switch_data_ret (host : ByteOrder) (mem : List Nat) (s : State)
    (hd : byte_at mem EI_DATA = ELFDATA2LSB ∨ byte_at mem EI_DATA = ELFDATA2MSB) :
    switch_data host mem
        { s with w := some Fn4.w4nat, w2 := some Fn2.w2nat, w8 := some Fn8.w8nat }
      = Flow.ret () (with_converters host (byte_at mem EI_DATA) s) := by
  rcases hd with hd | hd <;> cases host <;>
    simp [switch_data, hd, with_converters, matched_w, matched_w2, matched_w8, file_order,
      first_byte, endian, ELFDATA2LSB, ELFDATA2MSB]

theorem switch_data_fail (host : ByteOrder) (mem : List Nat) (s : State)
    (hd : ¬ (byte_at mem EI_DATA = ELFDATA2LSB ∨ byte_at mem EI_DATA = ELFDATA2MSB)) :
    switch_data host mem s = fail_file s := by
  simp only [not_or] at hd
  simp [switch_data, hd.1, hd.2]

theorem check_rel_ret (host : ByteOrder) (mem : List Nat) (s : State)
    (h1 : (List.range SELFMAG).map (byte_at mem) = ELFMAG)
    (h2 : call_w2 s.w2 (load16 host mem off_e_type) = ET_REL)
    (h3 : byte_at mem EI_VERSION = EV_CURRENT) :
    check_rel host mem s = Flow.ret () s := by
  simp [check_rel, magic_matches, h1, h2, h3]

theorem check_rel_fail (host : ByteOrder) (mem : List Nat) (s : State)
    (h : ¬ ((List.range SELFMAG).map (byte_at mem) = ELFMAG
      ∧ call_w2 s.w2 (load16 host mem off_e_type) = ET_REL
      ∧ byte_at mem EI_VERSION = EV_CURRENT)) :
    check_rel host mem s = fail_file s := by
  unfold check_rel magic_matches
  rw [if_pos]
  by_contra hc
  simp only [not_or, not_not, ne_eq, decide_eq_false_iff_not] at hc
  exact h ⟨hc.1, hc.2.1.symm, hc.2.2.symm⟩

theorem switch_machine_ret (host : ByteOrder) (mem : List Nat) (s : State) (m : Nat)
    (hm : call_w2 s.w2 (load16 host mem off_e_machine) = m) (hin : m ∈ machines) :
    switch_machine host mem 0 s
      = Flow.ret (base_reltype m)
          (if uses_underscore m then { s with gpfx := '_'.toNat } else s) := by
  simp only [machines, List.mem_cons, List.mem_singleton, List.not_mem_nil, or_false] at hin
  rcases hin with h | h | h | h | h | h | h | h | h | h <;> subst h <;>
    simp [switch_machine, hm, base_reltype, uses_underscore, EM_386, EM_ARM, EM_IA_64, EM_MIPS,
      EM_PPC, EM_PPC64, EM_S390, EM_SH, EM_SPARCV9, EM_X86_64]

theorem switch_machine_fail (host : ByteOrder) (mem : List Nat) (s : State) (m : Nat)
    (hm : call_w2 s.w2 (load16 host mem off_e_machine) = m) (hin : m ∉ machines) :
    switch_machine host mem 0 s = fail_file s := by
  simp only [machines, List.mem_cons, List.mem_singleton, List.not_mem_nil, or_false,
    not_or] at hin
  obtain ⟨h1, h2, h3, h4, h5, h6, h7, h8, h9, h10⟩ := hin
  simp [switch_machine, hm, h1, h2, h3, h4, h5, h6, h7, h8, h9, h10]

theorem switch_class_32 (host : ByteOrder) (env : FileEnv) (fname : String) (s : State)
    (m : Nat) (hm : call_w2 s.w2 (load16 host env.mem off_e_machine) = m)
    (hc : byte_at env.mem EI_CLASS = ELFCLASS32)
    (h1 : call_w2 s.w2 (load16 host env.mem off32_e_ehsize) = sizeof_Elf32_Ehdr)
    (h2 : call_w2 s.w2 (load16 host env.mem off32_e_shentsize) = sizeof_Elf32_Shdr) :
    switch_class host env fname (base_reltype m) s
      = do32 env fname (final_reltype false m)
          (if m = EM_MIPS then { s with is_fake_mcount32 := Hook.mips } else s) := by
  simp only [switch_class, hc, h1, h2, hm, final_reltype]
  by_cases hM : m = EM_MIPS
  · subst hM; simp [EM_MIPS, EM_S390]
  · by_cases hS : m = EM_S390
    · subst hS; simp [EM_MIPS, EM_S390]
    · simp [hM, hS, Ne.symm hM, Ne.symm hS]

theorem switch_class_64 (host : ByteOrder) (env : FileEnv) (fname : String) (s : State)
    (m : Nat) (hm : call_w2 s.w2 (load16 host env.mem off_e_machine) = m)
    (hc : byte_at env.mem EI_CLASS = ELFCLASS64)
    (h1 : call_w2 s.w2 (load16 host env.mem off64_e_ehsize) = sizeof_Elf64_Ehdr)
    (h2 : call_w2 s.w2 (load16 host env.mem off64_e_shentsize) = sizeof_Elf64_Shdr) :
    switch_class host env fname (base_reltype m) s
      = do64 env fname (final_reltype true m)
          (if m = EM_MIPS then
            { s with Elf64_r_sym := Hook.mips, Elf64_r_info := Hook.mips,
                     is_fake_mcount64 := Hook.mips }
          else s) := by
  have hne : ELFCLASS64 ≠ ELFCLASS32 := by decide
  simp only [switch_class, hc, h1, h2, hm, final_reltype, hne]
  by_cases hM : m = EM_MIPS
  · subst hM; simp [EM_MIPS, EM_S390]
  · by_cases hS : m = EM_S390
    · subst hS; simp [EM_MIPS, EM_S390]
    · simp [hM, hS, Ne.symm hM, Ne.symm hS]

theorem switch_class_fail (host : ByteOrder) (env : FileEnv) (fname : String) (s : State)
    (rt : Nat)
    (h32 : ¬ (byte_at env.mem EI_CLASS = ELFCLASS32
      ∧ call_w2 s.w2 (load16 host env.mem off32_e_ehsize) = sizeof_Elf32_Ehdr
      ∧ call_w2 s.w2 (load16 host env.mem off32_e_shentsize) = sizeof_Elf32_Shdr))
    (h64 : ¬ (byte_at env.mem EI_CLASS = ELFCLASS64
      ∧ call_w2 s.w2 (load16 host env.mem off64_e_ehsize) = sizeof_Elf64_Ehdr
      ∧ call_w2 s.w2 (load16 host env.mem off64_e_shentsize) = sizeof_Elf64_Shdr)) :
    switch_class host env fname rt s = fail_file s := by
  unfold switch_class
  by_cases hc : byte_at env.mem EI_CLASS = ELFCLASS32
  · simp only [hc, if_true]
    rw [if_pos]
    by_contra hcon
    simp only [not_or, not_not, ne_eq] at hcon
    exact h32 ⟨hc, hcon.1.symm, hcon.2.symm⟩
  · by_cases hc2 : byte_at env.mem EI_CLASS = ELFCLASS64
    · simp only [hc2, if_true]
      have hne : ELFCLASS64 ≠ ELFCLASS32 := by decide
      simp only [hne, if_false]
      rw [if_pos]
      by_contra hcon
      simp only [not_or, not_not, ne_eq] at hcon
      exact h64 ⟨hc2, hcon.1.symm, hcon.2.symm⟩
    · simp [hc, hc2]

/-! ## Normal forms of `do_file` after `mmap_file` returned -/

theorem machine_state_w2 (host : ByteOrder) (mem : List Nat) (addr : Nat) (s : State) :
    (machine_state host mem addr s).w2 = some (matched_w2 host (byte_at mem EI_DATA)) := by
  unfold machine_state; split <;> rfl

theorem call_state_eq32 (host : ByteOrder) (mem : List Nat) (addr : Nat) (s : State) :
    (if converted16 host mem off_e_machine = EM_MIPS then
        { machine_state host mem addr s with is_fake_mcount32 := Hook.mips }
      else machine_state host mem addr s) = call_state host mem addr false s := by
  cases s
  simp only [call_state, machine_state, with_converters]
  split_ifs <;> first | rfl | simp_all

theorem call_state_eq64 (host : ByteOrder) (mem : List Nat) (addr : Nat) (s : State) :
    (if converted16 host mem off_e_machine = EM_MIPS then
        { machine_state host mem addr s with
          Elf64_r_sym := Hook.mips, Elf64_r_info := Hook.mips, is_fake_mcount64 := Hook.mips }
      else machine_state host mem addr s) = call_state host mem addr true s := by
  cases s
  simp only [call_state, machine_state, with_converters]
  split_ifs <;> rfl

theorem do_file_accept32 (host : ByteOrder) (env : FileEnv) (fname : String) (s s1 : State)
    (addr : Nat) (hmap : mmap_file env fname s = Flow.ret addr s1)
    (h : accepted32 host env.mem) :
    do_file host env fname s
      = (do32 env fname (final_reltype false (converted16 host env.mem off_e_machine))
          (call_state host env.mem addr false s1)).andThen
          fun _ s => Flow.ret () (cleanup s) := by
  obtain ⟨⟨hd, hmag, hty, hver, hmach⟩, hcls, hsz1, hsz2⟩ := h
  have e1 := switch_data_ret host env.mem { s1 with ehdr_curr := addr } hd
  have e2 := check_rel_ret host env.mem
    (with_converters host (byte_at env.mem EI_DATA) { s1 with ehdr_curr := addr }) hmag hty hver
  have e3 := switch_machine_ret host env.mem
    { with_converters host (byte_at env.mem EI_DATA) { s1 with ehdr_curr := addr } with
      gpfx := 0 } (converted16 host env.mem off_e_machine) rfl hmach
  have hw := machine_state_w2 host env.mem addr s1
  have e4 := switch_class_32 host env fname (machine_state host env.mem addr s1)
    (converted16 host env.mem off_e_machine)
    (by rw [hw]; rfl) hcls (by rw [hw]; exact hsz1) (by rw [hw]; exact hsz2)
  rw [call_state_eq32] at e4
  unfold do_file
  rw [hmap]
  show (switch_data host env.mem _).andThen _ = _
  rw [e1]
  show (check_rel host env.mem _).andThen _ = _
  rw [e2]
  show (switch_machine host env.mem 0 _).andThen _ = _
  rw [e3]
  show (switch_class host env fname _ (machine_state host env.mem addr s1)).andThen _ = _
  rw [e4]

theorem do_file_accept64 (host : ByteOrder) (env : FileEnv) (fname : String) (s s1 : State)
    (addr : Nat) (hmap : mmap_file env fname s = Flow.ret addr s1)
    (h : accepted64 host env.mem) :
    do_file host env fname s
      = (do64 env fname (final_reltype true (converted16 host env.mem off_e_machine))
          (call_state host env.mem addr true s1)).andThen
          fun _ s => Flow.ret () (cleanup s) := by
  obtain ⟨⟨hd, hmag, hty, hver, hmach⟩, hcls, hsz1, hsz2⟩ := h
  have e1 := switch_data_ret host env.mem { s1 with ehdr_curr := addr } hd
  have e2 := check_rel_ret host env.mem
    (with_converters host (byte_at env.mem EI_DATA) { s1 with ehdr_curr := addr }) hmag hty hver
  have e3 := switch_machine_ret host env.mem
    { with_converters host (byte_at env.mem EI_DATA) { s1 with ehdr_curr := addr } with
      gpfx := 0 } (converted16 host env.mem off_e_machine) rfl hmach
  have hw := machine_state_w2 host env.mem addr s1
  have e4 := switch_class_64 host env fname (machine_state host env.mem addr s1)
    (converted16 host env.mem off_e_machine)
    (by rw [hw]; rfl) hcls (by rw [hw]; exact hsz1) (by rw [hw]; exact hsz2)
  rw [call_state_eq64] at e4
  unfold do_file
  rw [hmap]
  show (switch_data host env.mem _).andThen _ = _
  rw [e1]
  show (check_rel host env.mem _).andThen _ = _
  rw [e2]
  show (switch_machine host env.mem 0 _).andThen _ = _
  rw [e3]
  show (switch_class host env fname _ (machine_state host env.mem addr s1)).andThen _ = _
  rw [e4]

theorem machine_state_same (host : ByteOrder) (mem : List Nat) (addr : Nat) (s : State) :
    same_file addr s (machine_state host mem addr s) := by
  unfold machine_state same_file; split <;> simp [with_converters]

theorem do_file_reject (host : ByteOrder) (env : FileEnv) (fname : String) (s s1 : State)
    (addr : Nat) (hmap : mmap_file env fname s = Flow.ret addr s1)
    (h32 : ¬ accepted32 host env.mem) (h64 : ¬ accepted64 host env.mem) :
    ∃ t, do_file host env fname s = fail_file t ∧ same_file addr s1 t
      ∧ ((byte_at env.mem EI_DATA = ELFDATA2LSB ∨ byte_at env.mem EI_DATA = ELFDATA2MSB) →
          t.w = some (matched_w host (byte_at env.mem EI_DATA))
          ∧ t.w2 = some (matched_w2 host (byte_at env.mem EI_DATA))
          ∧ t.w8 = some (matched_w8 host (byte_at env.mem EI_DATA))) := by
  unfold do_file
  rw [hmap]
  by_cases hd : byte_at env.mem EI_DATA = ELFDATA2LSB ∨ byte_at env.mem EI_DATA = ELFDATA2MSB
  · have e1 := switch_data_ret host env.mem { s1 with ehdr_curr := addr } hd
    by_cases hrel : (List.range SELFMAG).map (byte_at env.mem) = ELFMAG
        ∧ converted16 host env.mem off_e_type = ET_REL
        ∧ byte_at env.mem EI_VERSION = EV_CURRENT
    · have e2 := check_rel_ret host env.mem
        (with_converters host (byte_at env.mem EI_DATA) { s1 with ehdr_curr := addr })
        hrel.1 hrel.2.1 hrel.2.2
      by_cases hmach : converted16 host env.mem off_e_machine ∈ machines
      · have e3 := switch_machine_ret host env.mem
          { with_converters host (byte_at env.mem EI_DATA) { s1 with ehdr_curr := addr } with
            gpfx := 0 } (converted16 host env.mem off_e_machine) rfl hmach
        have hw := machine_state_w2 host env.mem addr s1
        have hok : header_ok host env.mem := ⟨hd, hrel.1, hrel.2.1, hrel.2.2, hmach⟩
        have e4 := switch_class_fail host env fname (machine_state host env.mem addr s1)
          (base_reltype (converted16 host env.mem off_e_machine))
          (by rw [hw]; exact fun h => h32 ⟨hok, h⟩) (by rw [hw]; exact fun h => h64 ⟨hok, h⟩)
        refine ⟨machine_state host env.mem addr s1, ?_, machine_state_same _ _ _ _, ?_⟩
        · show (switch_data host env.mem _).andThen _ = _
          rw [e1]
          show (check_rel host env.mem _).andThen _ = _
          rw [e2]
          show (switch_machine host env.mem 0 _).andThen _ = _
          rw [e3]
          show (switch_class host env fname _ (machine_state host env.mem addr s1)).andThen _ = _
          rw [e4]
          rfl
        · intro _
          unfold machine_state; split <;> exact ⟨rfl, rfl, rfl⟩
      · have e3 := switch_machine_fail host env.mem
          { with_converters host (byte_at env.mem EI_DATA) { s1 with ehdr_curr := addr } with
            gpfx := 0 } (converted16 host env.mem off_e_machine) rfl hmach
        refine ⟨{ with_converters host (byte_at env.mem EI_DATA) { s1 with ehdr_curr := addr }
          with gpfx := 0 }, ?_, ?_, fun _ => ⟨rfl, rfl, rfl⟩⟩
        · show (switch_data host env.mem _).andThen _ = _
          rw [e1]
          show (check_rel host env.mem _).andThen _ = _
          rw [e2]
          show (switch_machine host env.mem 0 _).andThen _ = _
          rw [e3]
          rfl
        · simp [same_file, with_converters]
    · have e2 := check_rel_fail host env.mem
        (with_converters host (byte_at env.mem EI_DATA) { s1 with ehdr_curr := addr }) hrel
      refine ⟨with_converters host (byte_at env.mem EI_DATA) { s1 with ehdr_curr := addr },
        ?_, ?_, fun _ => ⟨rfl, rfl, rfl⟩⟩
      · show (switch_data host env.mem _).andThen _ = _
        rw [e1]
        show (check_rel host env.mem _).andThen _ = _
        rw [e2]
        rfl
      · simp [same_file, with_converters]
  · have e1 := switch_data_fail host env.mem
      { { s1 with ehdr_curr := addr } with
        w := some Fn4.w4nat, w2 := some Fn2.w2nat, w8 := some Fn8.w8nat } hd
    refine ⟨{ { s1 with ehdr_curr := addr } with
        w := some Fn4.w4nat, w2 := some Fn2.w2nat, w8 := some Fn8.w8nat }, ?_, ?_,
      fun h => absurd h hd⟩
    · show (switch_data host env.mem _).andThen _ = _
      rw [e1]
      rfl
    · simp [same_file]

/-! ## Traces of `cleanup`, `fail_file`, `mmap_file` and of the pass -/

theorem cleanup_trace (s : State) : (cleanup s).trace = s.trace ++ cleanup_events s := by
  unfold cleanup cleanup_events
  split <;> simp [State.log]

theorem fail_file_trace {α : Type} (s : State) :
    (fail_file s : Flow α).state.trace
      = s.trace ++ cleanup_events s ++ [Event.longjmp SJ_FAIL] := by
  simp [fail_file, Flow.state, cleanup_trace]

theorem succeed_file_trace {α : Type} (s : State) :
    (succeed_file s : Flow α).state.trace
      = s.trace ++ cleanup_events s ++ [Event.longjmp SJ_SUCCEED] := by
  simp [succeed_file, Flow.state, cleanup_trace]

theorem mmap_file_ret (env : FileEnv) (fname : String) (s s1 : State) (addr : Nat)
    (h : mmap_file env fname s = Flow.ret addr s1) :
    s1 = mmap_state env fname s ∧ addr = env.mmap_ret.getD env.malloc_ret
      ∧ 0 ≤ env.open_ret ∧ 0 ≤ env.fstat_ret ∧ env.is_reg = true
      ∧ (env.mmap_ret = none → env.malloc_ret ≠ 0 ∧ env.read_ret = env.st_size) := by
  unfold mmap_file at h
  simp only [State.log, gt_iff_lt] at h
  by_cases h1 : env.open_ret < 0
  · simp [h1, fail_file] at h
  · by_cases h2 : env.fstat_ret < 0
    · simp [h1, h2, fail_file] at h
    · by_cases h3 : env.is_reg = true
      · rcases hm : env.mmap_ret with _ | a
        · simp only [h1, h2, h3, hm, if_false, Bool.not_true, Bool.false_eq_true, umalloc,
            uread, State.log] at h
          by_cases h4 : 0 = env.malloc_ret
          · simp [h4, fail_file, Flow.andThen] at h
          · by_cases h5 : env.read_ret = env.st_size
            · simp only [h4, h5, if_false, Flow.andThen, ne_eq, not_true_eq_false,
                Flow.ret.injEq] at h
              obtain ⟨ha, hs⟩ := h
              refine ⟨?_, ?_, by omega, by omega, h3, fun _ => ⟨fun hz => h4 hz.symm, h5⟩⟩
              · rw [← hs]; simp [mmap_state, mmap_events, hm, h5]
              · simp [← ha]
            · simp [h4, h5, fail_file, Flow.andThen] at h
        · simp only [h1, h2, h3, hm, if_false, Bool.not_true, Bool.false_eq_true,
            Flow.ret.injEq] at h
          obtain ⟨ha, hs⟩ := h
          refine ⟨?_, ?_, by omega, by omega, h3, fun hn => by simp at hn⟩
          · rw [← hs]; simp [mmap_state, mmap_events, hm]
          · simp [← ha]
      · simp [h1, h2, h3, fail_file] at h

theorem config_log (s : State) (e : Event) : (s.log e).config = s.config := rfl

theorem run_pass_trace (cls64 : Bool) (env : FileEnv) (fname : String) (reltype : Nat)
    (s : State) :
    ((run_pass cls64 env fname reltype s).andThen
        fun _ s => Flow.ret () (cleanup s)).state.trace
      = s.trace ++ pass_events cls64 env fname reltype s := by
  unfold run_pass pass_events
  simp only [config_log]
  rcases ho : (env.pass cls64 reltype s.config).outcome <;>
    simp [Flow.andThen, Flow.state, fail_file, succeed_file, cleanup_trace, cleanup_events,
      State.log]

theorem run_pass_outcome (cls64 : Bool) (env : FileEnv) (fname : String) (reltype : Nat)
    (s : State) :
    (∃ t, (run_pass cls64 env fname reltype s).andThen (fun _ s => Flow.ret () (cleanup s))
        = Flow.ret () t ∧ (env.pass cls64 reltype s.config).outcome = PassOutcome.returned)
    ∨ (∃ t, (run_pass cls64 env fname reltype s).andThen (fun _ s => Flow.ret () (cleanup s))
        = Flow.jump SJ_FAIL t ∧ (env.pass cls64 reltype s.config).outcome = PassOutcome.failed)
    ∨ (∃ t, (run_pass cls64 env fname reltype s).andThen (fun _ s => Flow.ret () (cleanup s))
        = Flow.jump SJ_SUCCEED t
          ∧ (env.pass cls64 reltype s.config).outcome = PassOutcome.succeeded) := by
  unfold run_pass
  simp only [config_log]
  rcases ho : (env.pass cls64 reltype s.config).outcome <;>
    simp [Flow.andThen, fail_file, succeed_file]

/-! ## C1: the dispatch of `do_file` -/

theorem n_do32_append (a b : List Event) : n_do32 (a ++ b) = n_do32 a + n_do32 b := by
  simp [n_do32, List.countP_append]

theorem n_do64_append (a b : List Event) : n_do64 (a ++ b) = n_do64 a + n_do64 b := by
  simp [n_do64, List.countP_append]

theorem n_do32_in_pass (l : List PassEvent) : n_do32 (l.map Event.in_pass) = 0 := by
  induction l with
  | nil => rfl
  | cons a l ih => simp [n_do32, List.countP_cons]

theorem n_do64_in_pass (l : List PassEvent) : n_do64 (l.map Event.in_pass) = 0 := by
  induction l with
  | nil => rfl
  | cons a l ih => simp [n_do64, List.countP_cons]

theorem n_do32_cleanup (s : State) : n_do32 (cleanup_events s) = 0 := by
  unfold cleanup_events; split <;> simp [n_do32, List.countP_cons]

theorem n_do64_cleanup (s : State) : n_do64 (cleanup_events s) = 0 := by
  unfold cleanup_events; split <;> simp [n_do64, List.countP_cons]

theorem n_do32_mmap (env : FileEnv) (fname : String) : n_do32 (mmap_events env fname) = 0 := by
  unfold mmap_events; split <;> simp [n_do32, List.countP_cons]

theorem n_do64_mmap (env : FileEnv) (fname : String) : n_do64 (mmap_events env fname) = 0 := by
  unfold mmap_events; split <;> simp [n_do64, List.countP_cons]

theorem n_do32_pass (cls64 : Bool) (env : FileEnv) (fname : String) (reltype : Nat)
    (s : State) :
    n_do32 (pass_events cls64 env fname reltype s) = if cls64 then 0 else 1 := by
  unfold pass_events
  rw [n_do32_append, n_do32_append, n_do32_append, n_do32_in_pass, n_do32_cleanup]
  cases cls64 <;> rcases (env.pass _ reltype s.config).outcome <;>
    simp [n_do32, List.countP_cons]

theorem n_do64_pass (cls64 : Bool) (env : FileEnv) (fname : String) (reltype : Nat)
    (s : State) :
    n_do64 (pass_events cls64 env fname reltype s) = if cls64 then 1 else 0 := by
  unfold pass_events
  rw [n_do64_append, n_do64_append, n_do64_append, n_do64_in_pass, n_do64_cleanup]
  cases cls64 <;> rcases (env.pass _ reltype s.config).outcome <;>
    simp [n_do64, List.countP_cons]

theorem not_both_accepted (host : ByteOrder) (mem : List Nat) :
    ¬ (accepted32 host mem ∧ accepted64 host mem) := by
  rintro ⟨⟨_, h1, _⟩, ⟨_, h2, _⟩⟩
  rw [h1] at h2
  exact absurd h2 (by decide)

/-- C1: for every buffer that `mmap_file` returned, `do_file` calls `do32` exactly
when the header passes all checks with class 32 (`accepted32`), calls `do64` exactly
when it passes them with class 64 (`accepted64`), and in every other case escapes
through `fail_file` with neither pass called. -/
theorem do_file_dispatch (host : ByteOrder) (env : FileEnv) (fname : String) (s s1 : State)
    (addr : Nat) (hmap : mmap_file env fname s = Flow.ret addr s1) :
    n_do32 (do_file host env fname s).state.trace
        = n_do32 s.trace + (if accepted32 host env.mem then 1 else 0)
      ∧ n_do64 (do_file host env fname s).state.trace
        = n_do64 s.trace + (if accepted64 host env.mem then 1 else 0)
      ∧ (¬ accepted32 host env.mem → ¬ accepted64 host env.mem →
          ∃ t, do_file host env fname s = fail_file t) := by
  have hs1 : s1.trace = s.trace ++ mmap_events env fname := by
    rw [(mmap_file_ret env fname s s1 addr hmap).1]; rfl
  by_cases h32 : accepted32 host env.mem
  · have h64 : ¬ accepted64 host env.mem := fun h => not_both_accepted host env.mem ⟨h32, h⟩
    rw [do_file_accept32 host env fname s s1 addr hmap h32]
    unfold do32
    rw [run_pass_trace]
    have ht : (call_state host env.mem addr false s1).trace = s1.trace := by
      unfold call_state; simp only []; split <;> rfl
    rw [ht, hs1]
    simp [n_do32_append, n_do64_append, n_do32_pass, n_do64_pass, n_do32_mmap, n_do64_mmap,
      h32, h64]
  · by_cases h64 : accepted64 host env.mem
    · rw [do_file_accept64 host env fname s s1 addr hmap h64]
      unfold do64
      rw [run_pass_trace]
      have ht : (call_state host env.mem addr true s1).trace = s1.trace := by
        unfold call_state; simp only []; split <;> rfl
      rw [ht, hs1]
      simp [n_do32_append, n_do64_append, n_do32_pass, n_do64_pass, n_do32_mmap, n_do64_mmap,
        h32, h64]
    · obtain ⟨t, ht, hsame, _⟩ := do_file_reject host env fname s s1 addr hmap h32 h64
      rw [ht, fail_file_trace, hsame.1, hs1]
      refine ⟨?_, ?_, fun _ _ => ⟨t, rfl⟩⟩
      · rw [n_do32_append, n_do32_append, n_do32_append, n_do32_mmap, n_do32_cleanup,
          if_neg h32]
        rfl
      · rw [n_do64_append, n_do64_append, n_do64_append, n_do64_mmap, n_do64_cleanup,
          if_neg h64]
        rfl

theorem fail_file_state {α : Type} (s : State) :
    (fail_file s : Flow α).state
      = { s with trace := s.trace ++ cleanup_events s ++ [Event.longjmp SJ_FAIL] } := by
  unfold fail_file cleanup cleanup_events
  split <;> simp [Flow.state, State.log]

theorem run_pass_state (cls64 : Bool) (env : FileEnv) (fname : String) (reltype : Nat)
    (s : State) :
    ((run_pass cls64 env fname reltype s).andThen
        fun _ s => Flow.ret () (cleanup s)).state
      = { s with trace := s.trace ++ pass_events cls64 env fname reltype s } := by
  unfold run_pass pass_events
  simp only [config_log]
  rcases ho : (env.pass cls64 reltype s.config).outcome <;>
    by_cases hm : s.mmap_failed = 0 <;>
    simp [Flow.andThen, Flow.state, fail_file, succeed_file, cleanup, cleanup_events,
      State.log, hm]

theorem do_file_dispatch_witness :
    (mmap_file sample_env "a.o" State.init
        = Flow.ret 4096 (mmap_state sample_env "a.o" State.init)
      ∧ n_do32 (do_file ByteOrder.little sample_env "a.o" State.init).state.trace
        = n_do32 State.init.trace + (if accepted32 ByteOrder.little sample_env.mem then 1 else 0)
      ∧ n_do64 (do_file ByteOrder.little sample_env "a.o" State.init).state.trace
        = n_do64 State.init.trace + (if accepted64 ByteOrder.little sample_env.mem then 1 else 0))
    ∧ ∃ t, do_file ByteOrder.big sample_env_bad "a.o" State.init = fail_file t :=
  ⟨⟨rfl, (do_file_dispatch ByteOrder.little sample_env "a.o" State.init _ 4096 rfl).1,
      (do_file_dispatch ByteOrder.little sample_env "a.o" State.init _ 4096 rfl).2.1⟩,
    (do_file_dispatch ByteOrder.big sample_env_bad "a.o" State.init
      (mmap_state sample_env_bad "a.o" State.init) 4096 rfl).2.2 (by decide) (by decide)⟩

/-! ## C2 and C3: relocation kind, symbol prefix and converters -/

theorem machine_table_spec (m : Nat) (hm : m ∈ machines) (cls64 : Bool) :
    machine_table m (if cls64 then ELFCLASS64 else ELFCLASS32)
        = some (final_reltype cls64 m, if uses_underscore m then '_'.toNat else 0)
      ∧ final_reltype cls64 m ≠ 0 := by
  simp only [machines, List.mem_cons, List.mem_singleton, List.not_mem_nil, or_false] at hm
  rcases hm with h | h | h | h | h | h | h | h | h | h <;> subst h <;> cases cls64 <;> decide

theorem call_state_trace (host : ByteOrder) (mem : List Nat) (addr : Nat) (cls64 : Bool)
    (s : State) : (call_state host mem addr cls64 s).trace = s.trace := by
  unfold call_state; simp only []; split
  · split <;> rfl
  · rfl

theorem call_state_gpfx (host : ByteOrder) (mem : List Nat) (addr : Nat) (cls64 : Bool)
    (s : State) :
    (call_state host mem addr cls64 s).gpfx
      = if uses_underscore (converted16 host mem off_e_machine) then '_'.toNat else 0 := by
  unfold call_state; simp only []; split
  · split <;> rfl
  · rfl

theorem call_state_converters (host : ByteOrder) (mem : List Nat) (addr : Nat) (cls64 : Bool)
    (s : State) :
    (call_state host mem addr cls64 s).w = some (matched_w host (byte_at mem EI_DATA))
      ∧ (call_state host mem addr cls64 s).w2 = some (matched_w2 host (byte_at mem EI_DATA))
      ∧ (call_state host mem addr cls64 s).w8 = some (matched_w8 host (byte_at mem EI_DATA)) := by
  unfold call_state; simp only []; split
  · split <;> exact ⟨rfl, rfl, rfl⟩
  · exact ⟨rfl, rfl, rfl⟩

/-- C2: for every accepted file the relocation kind passed to `do32`/`do64` and the
symbol prefix in `gpfx` at that call are the entry of `machine_table` for the converted
`e_machine` and the class; the relocation kind is never `0`; a file whose converted
`e_machine` is not one of the ten known values fails. -/
theorem machine_binding (host : ByteOrder) (env : FileEnv) (fname : String) (s s1 : State)
    (addr : Nat) (hmap : mmap_file env fname s = Flow.ret addr s1) :
    (accepted32 host env.mem →
        ∃ rt g cfg rest,
          machine_table (converted16 host env.mem off_e_machine) ELFCLASS32 = some (rt, g)
          ∧ rt ≠ 0 ∧ cfg.gpfx = g
          ∧ (do_file host env fname s).state.trace
              = s1.trace ++ Event.call_do32 fname rt cfg :: rest)
      ∧ (accepted64 host env.mem →
        ∃ rt g cfg rest,
          machine_table (converted16 host env.mem off_e_machine) ELFCLASS64 = some (rt, g)
          ∧ rt ≠ 0 ∧ cfg.gpfx = g
          ∧ (do_file host env fname s).state.trace
              = s1.trace ++ Event.call_do64 fname rt cfg :: rest)
      ∧ (converted16 host env.mem off_e_machine ∉ machines →
        ∃ t, do_file host env fname s = fail_file t) := by
  refine ⟨fun h => ?_, fun h => ?_, fun h => ?_⟩
  · have hm := machine_table_spec _ h.1.2.2.2.2 false
    refine ⟨_, _, (call_state host env.mem addr false s1).config,
      (pass_events false env fname (final_reltype false (converted16 host env.mem off_e_machine))
        (call_state host env.mem addr false s1)).tail, hm.1, hm.2, ?_, ?_⟩
    · exact call_state_gpfx host env.mem addr false s1
    · rw [do_file_accept32 host env fname s s1 addr hmap h]
      unfold do32
      rw [run_pass_trace, call_state_trace]
      rfl
  · have hm := machine_table_spec _ h.1.2.2.2.2 true
    refine ⟨_, _, (call_state host env.mem addr true s1).config,
      (pass_events true env fname (final_reltype true (converted16 host env.mem off_e_machine))
        (call_state host env.mem addr true s1)).tail, hm.1, hm.2, ?_, ?_⟩
    · exact call_state_gpfx host env.mem addr true s1
    · rw [do_file_accept64 host env fname s s1 addr hmap h]
      unfold do64
      rw [run_pass_trace, call_state_trace]
      rfl
  · obtain ⟨t, ht, _⟩ := do_file_reject host env fname s s1 addr hmap
      (fun a => h a.1.2.2.2.2) (fun a => h a.1.2.2.2.2)
    exact ⟨t, ht⟩

/-- C3: for every file that `mmap_file` returned whose data encoding declares a byte
order, `do_file` leaves in `w`, `w2`, `w8` the three identity converters exactly when
that order is the host order and the three swapping converters exactly when it is not
(so never a mixed triple); a file with any other encoding value fails. -/
theorem converters_matched (host : ByteOrder) (env : FileEnv) (fname : String) (s s1 : State)
    (addr : Nat) (hmap : mmap_file env fname s = Flow.ret addr s1) :
    (∀ o, file_order (byte_at env.mem EI_DATA) = some o →
        (((do_file host env fname s).state.w = some Fn4.w4nat
            ∧ (do_file host env fname s).state.w2 = some Fn2.w2nat
            ∧ (do_file host env fname s).state.w8 = some Fn8.w8nat) ↔ o = host)
        ∧ (((do_file host env fname s).state.w = some Fn4.w4rev
            ∧ (do_file host env fname s).state.w2 = some Fn2.w2rev
            ∧ (do_file host env fname s).state.w8 = some Fn8.w8rev) ↔ o ≠ host))
      ∧ (file_order (byte_at env.mem EI_DATA) = none →
        ∃ t, do_file host env fname s = fail_file t) := by
  have key : (byte_at env.mem EI_DATA = ELFDATA2LSB ∨ byte_at env.mem EI_DATA = ELFDATA2MSB) →
      (do_file host env fname s).state.w = some (matched_w host (byte_at env.mem EI_DATA))
      ∧ (do_file host env fname s).state.w2 = some (matched_w2 host (byte_at env.mem EI_DATA))
      ∧ (do_file host env fname s).state.w8
          = some (matched_w8 host (byte_at env.mem EI_DATA)) := by
    intro hd
    by_cases h32 : accepted32 host env.mem
    · rw [do_file_accept32 host env fname s s1 addr hmap h32]
      unfold do32
      rw [run_pass_state]
      exact call_state_converters host env.mem addr false s1
    · by_cases h64 : accepted64 host env.mem
      · rw [do_file_accept64 host env fname s s1 addr hmap h64]
        unfold do64
        rw [run_pass_state]
        exact call_state_converters host env.mem addr true s1
      · obtain ⟨t, ht, _, hw⟩ := do_file_reject host env fname s s1 addr hmap h32 h64
        rw [ht, fail_file_state]
        exact hw hd
  constructor
  · intro o ho
    have hd : byte_at env.mem EI_DATA = ELFDATA2LSB ∨ byte_at env.mem EI_DATA = ELFDATA2MSB := by
      unfold file_order at ho
      by_cases h1 : byte_at env.mem EI_DATA = ELFDATA2LSB
      · exact Or.inl h1
      · by_cases h2 : byte_at env.mem EI_DATA = ELFDATA2MSB
        · exact Or.inr h2
        · simp [h1, h2] at ho
    obtain ⟨k1, k2, k3⟩ := key hd
    rw [k1, k2, k3]
    unfold matched_w matched_w2 matched_w8
    rw [ho]
    by_cases hoh : o = host
    · simp [hoh]
    · simp [hoh]
  · intro hn
    have hd : ¬ (byte_at env.mem EI_DATA = ELFDATA2LSB
        ∨ byte_at env.mem EI_DATA = ELFDATA2MSB) := by
      unfold file_order at hn
      rintro (h | h)
      · simp [h] at hn
      · by_cases h1 : byte_at env.mem EI_DATA = ELFDATA2LSB
        · simp [h1] at hn
        · rw [if_neg h1, if_pos h] at hn
          exact absurd hn (by simp)
    obtain ⟨t, ht, _⟩ := do_file_reject host env fname s s1 addr hmap
      (fun a => hd a.1.1) (fun a => hd a.1.1)
    exact ⟨t, ht⟩

theorem machine_binding_witness :
    (mmap_file sample_env_s390 "a.o" State.init
        = Flow.ret 4096 (mmap_state sample_env_s390 "a.o" State.init)
      ∧ accepted32 ByteOrder.little sample_env_s390.mem)
    ∧ ∃ rt g cfg rest,
        machine_table (converted16 ByteOrder.little sample_env_s390.mem off_e_machine)
          ELFCLASS32 = some (rt, g)
        ∧ rt ≠ 0 ∧ cfg.gpfx = g
        ∧ (do_file ByteOrder.little sample_env_s390 "a.o" State.init).state.trace
            = (mmap_state sample_env_s390 "a.o" State.init).trace
              ++ Event.call_do32 "a.o" rt cfg :: rest :=
  ⟨⟨rfl, by decide⟩,
    (machine_binding ByteOrder.little sample_env_s390 "a.o" State.init _ 4096 rfl).1
      (by decide)⟩

theorem converters_matched_witness :
    (mmap_file sample_env "a.o" State.init
        = Flow.ret 4096 (mmap_state sample_env "a.o" State.init)
      ∧ file_order (byte_at sample_env.mem EI_DATA) = some ByteOrder.little)
    ∧ ((((do_file ByteOrder.big sample_env "a.o" State.init).state.w = some Fn4.w4nat
          ∧ (do_file ByteOrder.big sample_env "a.o" State.init).state.w2 = some Fn2.w2nat
          ∧ (do_file ByteOrder.big sample_env "a.o" State.init).state.w8 = some Fn8.w8nat)
          ↔ ByteOrder.little = ByteOrder.big)
        ∧ (((do_file ByteOrder.big sample_env "a.o" State.init).state.w = some Fn4.w4rev
          ∧ (do_file ByteOrder.big sample_env "a.o" State.init).state.w2 = some Fn2.w2rev
          ∧ (do_file ByteOrder.big sample_env "a.o" State.init).state.w8 = some Fn8.w8rev)
          ↔ ByteOrder.little ≠ ByteOrder.big)) :=
  ⟨⟨rfl, by decide⟩,
    (converters_matched ByteOrder.big sample_env "a.o" State.init _ 4096 rfl).1
      ByteOrder.little (by decide)⟩

/-! ## What any run of `do_file` leaves in the trace -/

theorem do_file_calls_append (a b : List Event) :
    do_file_calls (a ++ b) = do_file_calls a ++ do_file_calls b := by
  simp [do_file_calls, List.filterMap_append]

theorem opened_append (a b : List Event) : opened (a ++ b) = opened a ++ opened b := by
  simp [opened, List.filterMap_append]

theorem fail_jumps_append (a b : List Event) :
    fail_jumps (a ++ b) = fail_jumps a + fail_jumps b := by
  simp [fail_jumps, List.countP_append]

theorem quiet_in_pass (l : List PassEvent) :
    do_file_calls (l.map Event.in_pass) = [] ∧ opened (l.map Event.in_pass) = []
      ∧ fail_jumps (l.map Event.in_pass) = 0 := by
  induction l with
  | nil => exact ⟨rfl, rfl, rfl⟩
  | cons a l _ =>
    refine ⟨?_, ?_, ?_⟩
    · simp [do_file_calls, List.filterMap_cons]
    · simp [opened, List.filterMap_cons]
    · simp [fail_jumps, List.countP_cons]

theorem quiet_cleanup (s : State) :
    do_file_calls (cleanup_events s) = [] ∧ opened (cleanup_events s) = []
      ∧ fail_jumps (cleanup_events s) = 0 := by
  unfold cleanup_events
  split <;> exact ⟨rfl, rfl, rfl⟩

theorem summary_mmap (env : FileEnv) (fname : String) :
    Summary fname 0 (mmap_events env fname) := by
  unfold mmap_events Summary
  split <;> exact ⟨rfl, rfl, rfl⟩

theorem summary_pass (cls64 : Bool) (env : FileEnv) (fname : String) (reltype : Nat)
    (s : State) :
    do_file_calls (pass_events cls64 env fname reltype s) = []
      ∧ opened (pass_events cls64 env fname reltype s) = []
      ∧ fail_jumps (pass_events cls64 env fname reltype s)
        = if (env.pass cls64 reltype s.config).outcome = PassOutcome.failed then 1 else 0 := by
  unfold pass_events
  obtain ⟨p1, p2, p3⟩ := quiet_in_pass (env.pass cls64 reltype s.config).events
  obtain ⟨c1, c2, c3⟩ := quiet_cleanup s
  simp only [do_file_calls_append, opened_append, fail_jumps_append, p1, p2, p3, c1, c2, c3]
  cases cls64 <;> rcases (env.pass _ reltype s.config).outcome <;> exact ⟨rfl, rfl, rfl⟩

theorem mmap_file_of_maps (env : FileEnv) (fname : String) (s : State) (h : maps env) :
    mmap_file env fname s
      = Flow.ret (env.mmap_ret.getD env.malloc_ret) (mmap_state env fname s) := by
  obtain ⟨h1, h2, h3, h4⟩ := h
  unfold mmap_file
  simp only [State.log, gt_iff_lt]
  rw [if_neg (by omega), if_neg (by omega)]
  rcases hm : env.mmap_ret with _ | a
  · obtain ⟨h5, h6⟩ := h4 hm
    simp [h3, umalloc, uread, Flow.andThen, State.log, Ne.symm h5, h6, mmap_state, mmap_events,
      hm]
  · simp [h3, mmap_state, mmap_events, hm]

theorem mmap_file_fails (env : FileEnv) (fname : String) (s : State) (h : ¬ maps env) :
    ∃ t pre, mmap_file env fname s = fail_file t
      ∧ t.trace = s.trace ++ Event.sys_open fname env.open_ret :: pre
      ∧ do_file_calls pre = [] ∧ opened pre = [] ∧ fail_jumps pre = 0 := by
  unfold mmap_file
  simp only [State.log, gt_iff_lt]
  by_cases h1 : env.open_ret < 0
  · exact ⟨_, [], by rw [if_pos h1], rfl, rfl, rfl, rfl⟩
  · rw [if_neg h1]
    by_cases h2 : env.fstat_ret < 0
    · exact ⟨_, [Event.sys_fstat env.open_ret env.fstat_ret], by rw [if_pos h2],
        by simp, rfl, rfl, rfl⟩
    · rw [if_neg h2]
      by_cases h3 : env.is_reg = true
      · rcases hm : env.mmap_ret with _ | a
        · simp only [h3, Bool.not_true, Bool.false_eq_true, if_false, umalloc, uread, State.log]
          by_cases h4 : 0 = env.malloc_ret
          · exact ⟨_, [Event.sys_fstat env.open_ret env.fstat_ret,
              Event.sys_mmap env.st_size env.open_ret none,
              Event.sys_malloc env.st_size env.malloc_ret],
              by rw [if_pos h4]; rfl, by simp, rfl, rfl, rfl⟩
          · by_cases h5 : env.read_ret = env.st_size
            · exact absurd ⟨by omega, by omega, h3, fun _ => ⟨fun hz => h4 hz.symm, h5⟩⟩ h
            · simp only [h4, h5, if_false, Flow.andThen, ne_eq, not_false_eq_true, if_true]
              exact ⟨_, [Event.sys_fstat env.open_ret env.fstat_ret,
                Event.sys_mmap env.st_size env.open_ret none,
                Event.sys_malloc env.st_size env.malloc_ret,
                Event.sys_read env.open_ret env.st_size env.read_ret],
                by rfl, by simp,
                rfl, rfl, rfl⟩
        · exact absurd ⟨by omega, by omega, h3, fun hn => by simp [hm] at hn⟩ h
      · simp only [h3, Bool.not_false, if_true]
        exact ⟨_, [Event.sys_fstat env.open_ret env.fstat_ret], rfl, by simp, rfl, rfl, rfl⟩

theorem fail_file_jump {α : Type} (s : State) :
    (fail_file s : Flow α) = Flow.jump SJ_FAIL (fail_file s : Flow α).state := rfl

theorem summary_fail (fname : String) (evs : List Event) (s : State)
    (h : Summary fname 0 evs) :
    Summary fname 1 (evs ++ cleanup_events s ++ [Event.longjmp SJ_FAIL]) := by
  obtain ⟨h1, h2, h3⟩ := h
  obtain ⟨c1, c2, c3⟩ := quiet_cleanup s
  refine ⟨?_, ?_, ?_⟩
  · rw [do_file_calls_append, do_file_calls_append, h1, c1]; rfl
  · rw [opened_append, opened_append, h2, c2]; rfl
  · rw [fail_jumps_append, fail_jumps_append, h3, c3]; rfl

theorem summary_accept (cls64 : Bool) (env : FileEnv) (fname : String)
    (rt : Nat) (s st : State) (r : Flow Unit)
    (hr : r = (run_pass cls64 env fname rt st).andThen fun _ s => Flow.ret () (cleanup s))
    (hst : st.trace = s.trace ++ mmap_events env fname) :
    ∃ t evs, t.trace = s.trace ++ evs ∧ do_file_calls evs = [] ∧ opened evs = [fname]
      ∧ ((r = Flow.ret () t ∧ fail_jumps evs = 0)
        ∨ (r = Flow.jump SJ_FAIL t ∧ fail_jumps evs = 1)
        ∨ (r = Flow.jump SJ_SUCCEED t ∧ fail_jumps evs = 0)) := by
  have htr := run_pass_trace cls64 env fname rt st
  obtain ⟨m1, m2, m3⟩ := summary_mmap env fname
  obtain ⟨p1, p2, p3⟩ := summary_pass cls64 env fname rt st
  rw [← hr, hst] at htr
  refine ⟨r.state, mmap_events env fname ++ pass_events cls64 env fname rt st, ?_, ?_, ?_, ?_⟩
  · rw [htr, List.append_assoc]
  · rw [do_file_calls_append, m1, p1]; rfl
  · rw [opened_append, m2, p2]; rfl
  · rw [fail_jumps_append, m3, p3]
    rcases run_pass_outcome cls64 env fname rt st with ⟨t, h, ho⟩ | ⟨t, h, ho⟩ | ⟨t, h, ho⟩
    · left; rw [hr, h, ho]; exact ⟨rfl, by simp⟩
    · right; left; rw [hr, h, ho]; exact ⟨rfl, by simp⟩
    · right; right; rw [hr, h, ho]; exact ⟨rfl, by simp⟩

theorem do_file_summary (host : ByteOrder) (env : FileEnv) (fname : String) (s : State) :
    ∃ t evs, t.trace = s.trace ++ evs ∧ do_file_calls evs = [] ∧ opened evs = [fname]
      ∧ ((do_file host env fname s = Flow.ret () t ∧ fail_jumps evs = 0)
        ∨ (do_file host env fname s = Flow.jump SJ_FAIL t ∧ fail_jumps evs = 1)
        ∨ (do_file host env fname s = Flow.jump SJ_SUCCEED t ∧ fail_jumps evs = 0)) := by
  by_cases hmaps : maps env
  · have hmap := mmap_file_of_maps env fname s hmaps
    by_cases h32 : accepted32 host env.mem
    · exact summary_accept false env fname _ s _ _
        (do_file_accept32 host env fname s _ _ hmap h32)
        (by rw [call_state_trace]; rfl)
    · by_cases h64 : accepted64 host env.mem
      · exact summary_accept true env fname _ s _ _
          (do_file_accept64 host env fname s _ _ hmap h64)
          (by rw [call_state_trace]; rfl)
      · obtain ⟨t0, ht0, hsame, _⟩ := do_file_reject host env fname s _ _ hmap h32 h64
        have hs := summary_fail fname _ t0 (summary_mmap env fname)
        refine ⟨(fail_file t0 : Flow Unit).state, _, ?_, hs.1, hs.2.1, Or.inr (Or.inl ⟨?_, hs.2.2⟩)⟩
        · rw [fail_file_trace, hsame.1]
          show (s.trace ++ mmap_events env fname) ++ _ ++ _ = _
          simp only [List.append_assoc]
        · rw [ht0]; rfl
  · obtain ⟨t0, pre, hf, htr, q1, q2, q3⟩ := mmap_file_fails env fname s hmaps
    have hpre : Summary fname 0 (Event.sys_open fname env.open_ret :: pre) := by
      refine ⟨?_, ?_, ?_⟩
      · show do_file_calls ([Event.sys_open fname env.open_ret] ++ pre) = []
        rw [do_file_calls_append, q1]; rfl
      · show opened ([Event.sys_open fname env.open_ret] ++ pre) = [fname]
        rw [opened_append, q2]; rfl
      · show fail_jumps ([Event.sys_open fname env.open_ret] ++ pre) = 0
        rw [fail_jumps_append, q3]; rfl
    have hs := summary_fail fname _ t0 hpre
    refine ⟨(fail_file t0 : Flow Unit).state, _, ?_, hs.1, hs.2.1, Or.inr (Or.inl ⟨?_, hs.2.2⟩)⟩
    · rw [fail_file_trace, htr]
      simp only [List.append_assoc]
    · unfold do_file
      rw [hf]
      rfl

/-! ## The loop of `main` -/

theorem skip_test_iff (arg : String) :
    (arg.length ≥ ftrace_size ∧ arg.data.drop (arg.length - ftrace_size) = ftrace.data)
      ↔ ends_with_ftrace arg := by
  have hlen : ftrace.data.length = ftrace_size := by decide
  unfold ends_with_ftrace
  constructor
  · rintro ⟨_, h⟩
    rw [← h]
    exact List.drop_suffix _ _
  · rintro ⟨t, ht⟩
    have hl : arg.length = t.length + ftrace_size := by
      show arg.data.length = _
      rw [← ht, List.length_append, hlen]
    refine ⟨by omega, ?_⟩
    rw [hl, Nat.add_sub_cancel, ← ht, List.drop_left]

theorem loop_body_skip (host : ByteOrder) (env : FileEnv) (arg : String) (sjval n : Nat)
    (s : State) (h : ends_with_ftrace arg) :
    loop_body host env arg sjval n s = Step.next n s := by
  unfold loop_body
  simp only []
  rw [if_pos ((skip_test_iff arg).2 h)]

theorem loop_body_setjmp (host : ByteOrder) (env : FileEnv) (arg : String) (n : Nat)
    (s : State) (h : ¬ ends_with_ftrace arg) :
    loop_body host env arg SJ_SETJMP n s
      = match do_file host env arg (entry_state arg s) with
        | Flow.ret _ s => Step.next n s
        | Flow.jump val s => Step.jumped val s := by
  unfold loop_body
  simp only []
  rw [if_neg (fun hc => h ((skip_test_iff arg).1 hc)), if_pos trivial]
  rfl

theorem loop_body_fail (host : ByteOrder) (env : FileEnv) (arg : String) (n : Nat)
    (s : State) (h : ¬ ends_with_ftrace arg) :
    loop_body host env arg SJ_FAIL n s = Step.next (n + 1) s := by
  unfold loop_body
  simp only []
  rw [if_neg (fun hc => h ((skip_test_iff arg).1 hc)), if_neg (by decide), if_pos trivial]

theorem loop_body_succeed (host : ByteOrder) (env : FileEnv) (arg : String) (n : Nat)
    (s : State) (h : ¬ ends_with_ftrace arg) :
    loop_body host env arg SJ_SUCCEED n s = Step.next n s := by
  unfold loop_body
  simp only []
  rw [if_neg (fun hc => h ((skip_test_iff arg).1 hc)), if_neg (by decide), if_neg (by decide),
    if_pos trivial]

/-- One argument that is not skipped: after at most two passes through the body the
loop is at the next argument, the counter raised by the number of escapes through
`fail_file`. -/
theorem main_loop_step (host : ByteOrder) (env : Nat → FileEnv) (fuel i : Nat) (arg : String)
    (rest : List String) (n : Nat) (s : State) (h : ¬ ends_with_ftrace arg) :
    ∃ t evs k, k ≤ 1
      ∧ main_loop host env (fuel + 2) i (arg :: rest) SJ_SETJMP n s
          = main_loop host env (fuel + k) (i + 1) rest SJ_SETJMP (n + fail_jumps evs) t
      ∧ t.trace = s.trace ++ Event.call_do_file arg :: evs
      ∧ do_file_calls evs = [] ∧ opened evs = [arg] := by
  obtain ⟨t, evs, htr, h1, h2, hcase⟩ := do_file_summary host (env i) arg (entry_state arg s)
  have htr2 : t.trace = s.trace ++ Event.call_do_file arg :: evs := by
    rw [htr]
    show (s.trace ++ [Event.call_do_file arg]) ++ evs = _
    simp
  have hb := loop_body_setjmp host (env i) arg n s h
  rcases hcase with ⟨hd, hf⟩ | ⟨hd, hf⟩ | ⟨hd, hf⟩
  · refine ⟨t, evs, 1, le_refl _, ?_, htr2, h1, h2⟩
    rw [hd] at hb
    rw [hf]
    show (match loop_body host (env i) arg SJ_SETJMP n s with
      | Step.next n_error s => main_loop host env (fuel + 1) (i + 1) rest SJ_SETJMP n_error s
      | Step.jumped val s =>
        main_loop host env (fuel + 1) i (arg :: rest) (if val = 0 then 1 else val) n s
      | Step.exit code s => some (LoopEnd.exited code s)) = _
    rw [hb]
    rfl
  · refine ⟨t, evs, 0, Nat.zero_le _, ?_, htr2, h1, h2⟩
    rw [hd] at hb
    rw [hf]
    show (match loop_body host (env i) arg SJ_SETJMP n s with
      | Step.next n_error s => main_loop host env (fuel + 1) (i + 1) rest SJ_SETJMP n_error s
      | Step.jumped val s =>
        main_loop host env (fuel + 1) i (arg :: rest) (if val = 0 then 1 else val) n s
      | Step.exit code s => some (LoopEnd.exited code s)) = _
    rw [hb]
    show (match loop_body host (env i) arg SJ_FAIL n t with
      | Step.next n_error s => main_loop host env fuel (i + 1) rest SJ_SETJMP n_error s
      | Step.jumped val s =>
        main_loop host env fuel i (arg :: rest) (if val = 0 then 1 else val) n s
      | Step.exit code s => some (LoopEnd.exited code s)) = _
    rw [loop_body_fail host (env i) arg n t h]
    rfl
  · refine ⟨t, evs, 0, Nat.zero_le _, ?_, htr2, h1, h2⟩
    rw [hd] at hb
    rw [hf]
    show (match loop_body host (env i) arg SJ_SETJMP n s with
      | Step.next n_error s => main_loop host env (fuel + 1) (i + 1) rest SJ_SETJMP n_error s
      | Step.jumped val s =>
        main_loop host env (fuel + 1) i (arg :: rest) (if val = 0 then 1 else val) n s
      | Step.exit code s => some (LoopEnd.exited code s)) = _
    rw [hb]
    show (match loop_body host (env i) arg SJ_SUCCEED n t with
      | Step.next n_error s => main_loop host env fuel (i + 1) rest SJ_SETJMP n_error s
      | Step.jumped val s =>
        main_loop host env fuel i (arg :: rest) (if val = 0 then 1 else val) n s
      | Step.exit code s => some (LoopEnd.exited code s)) = _
    rw [loop_body_succeed host (env i) arg n t h]
    rfl

theorem main_loop_nil (host : ByteOrder) (env : Nat → FileEnv) (fuel i sjval n : Nat)
    (s : State) :
    main_loop host env fuel i [] sjval n s = some (LoopEnd.finished n s) := by
  cases fuel <;> rfl

theorem processed_cons_skip (arg : String) (rest : List String) (h : ends_with_ftrace arg) :
    processed (arg :: rest) = processed rest := by
  simp [processed, List.filter_cons, h]

theorem processed_cons_keep (arg : String) (rest : List String) (h : ¬ ends_with_ftrace arg) :
    processed (arg :: rest) = arg :: processed rest := by
  simp [processed, List.filter_cons, h]

/-- The loop of `main` ends, with enough fuel, after one call of `do_file` per argument
that is not skipped, in order; each of them opens its file, and the counter grows by
the number of escapes through `fail_file`. -/
theorem main_loop_spec (host : ByteOrder) (env : Nat → FileEnv) (args : List String) :
    ∀ (fuel i n : Nat) (s : State), 2 * args.length ≤ fuel →
      ∃ t evs, main_loop host env fuel i args SJ_SETJMP n s
          = some (LoopEnd.finished (n + fail_jumps evs) t)
        ∧ t.trace = s.trace ++ evs
        ∧ do_file_calls evs = processed args ∧ opened evs = processed args := by
  induction args with
  | nil =>
    intro fuel i n s _
    exact ⟨s, [], main_loop_nil host env fuel i _ n s, by simp, rfl, rfl⟩
  | cons arg rest ih =>
    intro fuel i n s hfuel
    obtain ⟨f, rfl⟩ : ∃ f, fuel = f + 2 := ⟨fuel - 2, by simp at hfuel; omega⟩
    have hf : 2 * rest.length ≤ f := by simp at hfuel; omega
    by_cases hskip : ends_with_ftrace arg
    · obtain ⟨t, evs, hrun, htr, hc, ho⟩ := ih (f + 1) (i + 1) n s (by omega)
      refine ⟨t, evs, ?_, htr, ?_, ?_⟩
      · rw [← hrun]
        show (match loop_body host (env i) arg SJ_SETJMP n s with
          | Step.next n_error s => main_loop host env (f + 1) (i + 1) rest SJ_SETJMP n_error s
          | Step.jumped val s =>
            main_loop host env (f + 1) i (arg :: rest) (if val = 0 then 1 else val) n s
          | Step.exit code s => some (LoopEnd.exited code s)) = _
        rw [loop_body_skip host (env i) arg SJ_SETJMP n s hskip]
      · rw [hc, processed_cons_skip arg rest hskip]
      · rw [ho, processed_cons_skip arg rest hskip]
    · obtain ⟨t1, evs1, k, _, hstep, htr1, hc1, ho1⟩ :=
        main_loop_step host env f i arg rest n s hskip
      obtain ⟨t, evs, hrun, htr, hc, ho⟩ :=
        ih (f + k) (i + 1) (n + fail_jumps evs1) t1 (by omega)
      refine ⟨t, Event.call_do_file arg :: evs1 ++ evs, ?_, ?_, ?_, ?_⟩
      · rw [hstep, hrun]
        have : fail_jumps (Event.call_do_file arg :: evs1 ++ evs)
            = fail_jumps evs1 + fail_jumps evs := by
          show fail_jumps (([Event.call_do_file arg] ++ evs1) ++ evs) = _
          rw [fail_jumps_append, fail_jumps_append]
          show 0 + _ + _ = _
          omega
        rw [this, Nat.add_assoc]
      · rw [htr, htr1]
        simp
      · show do_file_calls (([Event.call_do_file arg] ++ evs1) ++ evs) = _
        rw [do_file_calls_append, do_file_calls_append, hc1, hc,
          processed_cons_keep arg rest hskip]
        rfl
      · show opened (([Event.call_do_file arg] ++ evs1) ++ evs) = _
        rw [opened_append, opened_append, ho1, ho, processed_cons_keep arg rest hskip]
        rfl

/-! ## C5, C6, C8: exit status, isolation of failures, the skipped file -/

theorem main_of_loop (host : ByteOrder) (env : Nat → FileEnv) (fuel : Nat)
    (argv : List String) (h : 2 * argv.length ≤ fuel) :
    ∃ t, main host env fuel argv
        = some (if argv.length ≤ 1 then 0 else if fail_jumps t.trace ≠ 0 then 1 else 0, t)
      ∧ (argv.length ≤ 1 → t.trace = [Event.usage])
      ∧ do_file_calls t.trace = processed (argv.drop 1)
      ∧ opened t.trace = processed (argv.drop 1) := by
  by_cases hlen : argv.length ≤ 1
  · refine ⟨State.init.log Event.usage, ?_, fun _ => rfl, ?_, ?_⟩
    · unfold main; simp [hlen]
    · have : argv.drop 1 = [] := by
        apply List.drop_eq_nil_of_le; exact hlen
      rw [this]; rfl
    · have : argv.drop 1 = [] := by
        apply List.drop_eq_nil_of_le; exact hlen
      rw [this]; rfl
  · obtain ⟨t, evs, hrun, htr, hc, ho⟩ :=
      main_loop_spec host env (argv.drop 1) fuel 1 0 State.init
        (by rw [List.length_drop]; omega)
    have hte : t.trace = evs := by rw [htr]; rfl
    refine ⟨t, ?_, fun h => absurd h hlen, by rw [hte, hc], by rw [hte, ho]⟩
    unfold main
    simp only [hlen, if_false]
    rw [hrun, hte]
    simp

/-- C5: with enough fuel `main` returns; its exit status is `0` when there is no file
argument (the usage line is the only event), `0` when no processed file escaped
through `fail_file`, and `1` when at least one did. -/
theorem main_exit_status (host : ByteOrder) (env : Nat → FileEnv) (fuel : Nat)
    (argv : List String) (hfuel : 2 * argv.length ≤ fuel) :
    ∃ status t, main host env fuel argv = some (status, t)
      ∧ (argv.length ≤ 1 → status = 0 ∧ t.trace = [Event.usage])
      ∧ (1 < argv.length → fail_jumps t.trace = 0 → status = 0)
      ∧ (1 < argv.length → 0 < fail_jumps t.trace → status = 1) := by
  obtain ⟨t, hmain, husage, _, _⟩ := main_of_loop host env fuel argv hfuel
  refine ⟨_, t, hmain, ?_, ?_, ?_⟩
  · intro h; exact ⟨by simp [h], husage h⟩
  · intro h h0
    have : ¬ argv.length ≤ 1 := by omega
    simp [this, h0]
  · intro h h0
    have : ¬ argv.length ≤ 1 := by omega
    have h1 : fail_jumps t.trace ≠ 0 := by omega
    simp [this, h1]

/-- C6: with enough fuel the loop of `main`, started as `main` starts it, ends after
calling `do_file` exactly once for each argument that is not skipped, in argument
order, whatever the outcome of each call; the failure counter at the end of the loop
is the number of escapes through `fail_file`. -/
theorem failures_isolated (host : ByteOrder) (env : Nat → FileEnv) (fuel : Nat)
    (args : List String) (hfuel : 2 * args.length ≤ fuel) :
    ∃ t, main_loop host env fuel 1 args SJ_SETJMP 0 State.init
        = some (LoopEnd.finished (fail_jumps t.trace) t)
      ∧ do_file_calls t.trace = processed args := by
  obtain ⟨t, evs, hrun, htr, hc, _⟩ := main_loop_spec host env args fuel 1 0 State.init hfuel
  have hte : t.trace = evs := by rw [htr]; rfl
  refine ⟨t, ?_, by rw [hte, hc]⟩
  rw [hrun, hte, Nat.zero_add]

/-- C8: a pass through the loop body entered from `setjmp` leaves counter and state
untouched exactly when the argument ends with `kernel/trace/ftrace.o`; over a whole
run, the names passed to `do_file` and the names passed to `open` are the arguments
that do not end with it, in order. -/
theorem designated_file_skipped (host : ByteOrder) (env : Nat → FileEnv) :
    (∀ (e : FileEnv) (arg : String) (n : Nat) (s : State),
        loop_body host e arg SJ_SETJMP n s = Step.next n s ↔ ends_with_ftrace arg)
      ∧ ∀ (fuel : Nat) (argv : List String), 2 * argv.length ≤ fuel →
          ∃ status t, main host env fuel argv = some (status, t)
            ∧ do_file_calls t.trace = processed (argv.drop 1)
            ∧ opened t.trace = processed (argv.drop 1) := by
  constructor
  · intro e arg n s
    constructor
    · intro h
      by_contra hskip
      rw [loop_body_setjmp host e arg n s hskip] at h
      obtain ⟨t, evs, htr, _, _, hcase⟩ := do_file_summary host e arg (entry_state arg s)
      rcases hcase with ⟨hd, _⟩ | ⟨hd, _⟩ | ⟨hd, _⟩
      · rw [hd] at h
        simp only [Step.next.injEq, true_and] at h
        rw [h] at htr
        have := congrArg List.length htr
        simp [entry_state, State.log] at this
      · rw [hd] at h; simp at h
      · rw [hd] at h; simp at h
    · exact loop_body_skip host e arg SJ_SETJMP n s
  · intro fuel argv hfuel
    obtain ⟨t, hmain, _, hc, ho⟩ := main_of_loop host env fuel argv hfuel
    exact ⟨_, t, hmain, hc, ho⟩

theorem main_exit_status_witness :
    2 * sample_argv.length ≤ 8
    ∧ ∃ status t, main ByteOrder.little sample_world 8 sample_argv = some (status, t)
      ∧ (sample_argv.length ≤ 1 → status = 0 ∧ t.trace = [Event.usage])
      ∧ (1 < sample_argv.length → fail_jumps t.trace = 0 → status = 0)
      ∧ (1 < sample_argv.length → 0 < fail_jumps t.trace → status = 1) :=
  ⟨by decide, main_exit_status ByteOrder.little sample_world 8 sample_argv (by decide)⟩

theorem failures_isolated_witness :
    2 * (sample_argv.drop 1).length ≤ 6
    ∧ ∃ t, main_loop ByteOrder.little sample_world 6 1 (sample_argv.drop 1) SJ_SETJMP 0
          State.init = some (LoopEnd.finished (fail_jumps t.trace) t)
      ∧ do_file_calls t.trace = processed (sample_argv.drop 1) :=
  ⟨by decide,
    failures_isolated ByteOrder.little sample_world 6 (sample_argv.drop 1) (by decide)⟩

theorem designated_file_skipped_witness :
    2 * sample_argv.length ≤ 8
    ∧ ∃ status t, main ByteOrder.big sample_world 8 sample_argv = some (status, t)
      ∧ do_file_calls t.trace = processed (sample_argv.drop 1)
      ∧ opened t.trace = processed (sample_argv.drop 1) :=
  ⟨by decide,
    (designated_file_skipped ByteOrder.big sample_world).2 8 sample_argv (by decide)⟩

/-! ## C7: a rejected file is not written -/

theorem cleanup_events_of_same (env : FileEnv) (fname : String) (s t : State) (addr : Nat)
    (h : same_file addr (mmap_state env fname s) t) :
    cleanup_events t = release_events env addr := by
  obtain ⟨_, h2, h3, h4, h5, _⟩ := h
  unfold cleanup_events release_events
  rw [h2, h3, h4, h5]
  by_cases hm : env.mmap_ret = none <;> simp [mmap_state, hm]

theorem no_pass_event_mmap (env : FileEnv) (fname : String) :
    ∀ e ∈ mmap_events env fname, ∀ p, e ≠ Event.in_pass p := by
  intro e he p
  unfold mmap_events at he
  split at he
  · simp only [List.mem_cons, List.mem_append, List.mem_singleton, List.not_mem_nil,
      or_false] at he
    rcases he with (h | h | h) | h | h <;> simp [h]
  · simp only [List.mem_cons, List.mem_append, List.mem_singleton, List.not_mem_nil,
      or_false] at he
    rcases he with h | h | h <;> simp [h]

theorem no_pass_event_release (env : FileEnv) (addr : Nat) :
    ∀ e ∈ release_events env addr, ∀ p, e ≠ Event.in_pass p := by
  intro e he p
  unfold release_events at he
  simp only [List.mem_cons, List.mem_singleton, List.not_mem_nil, or_false] at he
  rcases he with h | h
  · rw [h]; split <;> simp
  · simp [h]

/-- C7: a file that `mmap_file` returned and whose header is accepted neither as class
32 nor as class 64 is left unmodified: from the call of `do_file` to the escape the
only events are those of `mmap_file` (open, fstat, mmap and possibly malloc, read), the
release of the buffer and the close, followed by `longjmp(SJ_FAIL)`, so no event of
`do32`/`do64` (the only writes and seeks); the counter grows by one and the loop goes
on with the remaining arguments. -/
theorem rejected_file_unmodified (host : ByteOrder) (env : Nat → FileEnv) (fuel i : Nat)
    (arg : String) (rest : List String) (n : Nat) (s s1 : State) (addr : Nat)
    (hskip : ¬ ends_with_ftrace arg)
    (hmap : mmap_file (env i) arg (entry_state arg s) = Flow.ret addr s1)
    (h32 : ¬ accepted32 host (env i).mem) (h64 : ¬ accepted64 host (env i).mem) :
    ∃ t, main_loop host env (fuel + 2) i (arg :: rest) SJ_SETJMP n s
          = main_loop host env fuel (i + 1) rest SJ_SETJMP (n + 1) t
      ∧ t.trace = s.trace ++ Event.call_do_file arg ::
          (mmap_events (env i) arg ++ release_events (env i) addr ++ [Event.longjmp SJ_FAIL])
      ∧ ∀ e ∈ Event.call_do_file arg ::
          (mmap_events (env i) arg ++ release_events (env i) addr ++ [Event.longjmp SJ_FAIL]),
          ∀ p, e ≠ Event.in_pass p := by
  obtain ⟨t0, ht0, hsame, _⟩ := do_file_reject host (env i) arg _ s1 addr hmap h32 h64
  have hs1 := (mmap_file_ret (env i) arg _ s1 addr hmap).1
  rw [hs1] at hsame
  refine ⟨(fail_file t0 : Flow Unit).state, ?_, ?_, ?_⟩
  · show (match loop_body host (env i) arg SJ_SETJMP n s with
      | Step.next n_error s => main_loop host env (fuel + 1) (i + 1) rest SJ_SETJMP n_error s
      | Step.jumped val s =>
        main_loop host env (fuel + 1) i (arg :: rest) (if val = 0 then 1 else val) n s
      | Step.exit code s => some (LoopEnd.exited code s)) = _
    rw [loop_body_setjmp host (env i) arg n s hskip, ht0, fail_file_jump]
    show (match loop_body host (env i) arg SJ_FAIL n (fail_file t0 : Flow Unit).state with
      | Step.next n_error s => main_loop host env fuel (i + 1) rest SJ_SETJMP n_error s
      | Step.jumped val s =>
        main_loop host env fuel i (arg :: rest) (if val = 0 then 1 else val) n s
      | Step.exit code s => some (LoopEnd.exited code s)) = _
    rw [loop_body_fail host (env i) arg n _ hskip]
    rfl
  · rw [fail_file_trace, cleanup_events_of_same (env i) arg _ t0 addr hsame, hsame.1]
    simp [mmap_state, entry_state, State.log]
  · intro e he p
    simp only [List.mem_cons, List.mem_append, List.mem_singleton, List.not_mem_nil,
      or_false] at he
    rcases he with h | (h | h) | h
    · simp [h]
    · exact no_pass_event_mmap (env i) arg e h p
    · exact no_pass_event_release (env i) addr e h p
    · simp [h]

theorem rejected_file_unmodified_witness :
    (¬ ends_with_ftrace "b.o"
      ∧ mmap_file (sample_world 3) "b.o" (entry_state "b.o" State.init)
          = Flow.ret 4096 (mmap_state (sample_world 3) "b.o" (entry_state "b.o" State.init))
      ∧ ¬ accepted32 ByteOrder.little (sample_world 3).mem
      ∧ ¬ accepted64 ByteOrder.little (sample_world 3).mem)
    ∧ ∃ t, main_loop ByteOrder.little sample_world (2 + 2) 3 ["b.o", "a.o"] SJ_SETJMP 0
            State.init
          = main_loop ByteOrder.little sample_world 2 (3 + 1) ["a.o"] SJ_SETJMP (0 + 1) t
      ∧ t.trace = State.init.trace ++ Event.call_do_file "b.o" ::
          (mmap_events (sample_world 3) "b.o" ++ release_events (sample_world 3) 4096
            ++ [Event.longjmp SJ_FAIL])
      ∧ ∀ e ∈ Event.call_do_file "b.o" ::
          (mmap_events (sample_world 3) "b.o" ++ release_events (sample_world 3) 4096
            ++ [Event.longjmp SJ_FAIL]),
          ∀ p, e ≠ Event.in_pass p :=
  ⟨⟨by decide, rfl, by decide, by decide⟩,
    rejected_file_unmodified ByteOrder.little sample_world 2 3 "b.o" ["a.o"] 0 State.init _
      4096 (by decide) rfl (by decide) (by decide)⟩

/-! ## C9 and C10: the code at the failing inputs -/

/-- C9 (the code at the failing input): after a MIPS object of class 64, the x86-64
object is passed to `do64` with the MIPS fake-call filter and the MIPS relocation
accessors still bound, while the same object processed alone gets the default ones. -/
theorem hooks_survive_mips_file :
    (∃ t, main ByteOrder.little world_mips_first 4 ["recordmcount", "mips.o", "x86.o"]
          = some (0, t)
        ∧ Event.call_do64 "x86.o" R_X86_64_64
            { w := some Fn4.w4nat, w2 := some Fn2.w2nat, w8 := some Fn8.w8nat, gpfx := 0,
              is_fake_mcount32 := Hook.dflt, is_fake_mcount64 := Hook.mips,
              Elf64_r_sym := Hook.mips, Elf64_r_info := Hook.mips } ∈ t.trace)
    ∧ (∃ t, main ByteOrder.little world_x86_only 2 ["recordmcount", "x86.o"] = some (0, t)
        ∧ Event.call_do64 "x86.o" R_X86_64_64
            { w := some Fn4.w4nat, w2 := some Fn2.w2nat, w8 := some Fn8.w8nat, gpfx := 0,
              is_fake_mcount32 := Hook.dflt, is_fake_mcount64 := Hook.dflt,
              Elf64_r_sym := Hook.dflt, Elf64_r_info := Hook.dflt } ∈ t.trace) :=
  ⟨⟨_, rfl, by decide⟩, ⟨_, rfl, by decide⟩⟩

/-- C10 (the code at the failing input): when `mmap` fails, `malloc` succeeds and
`read` comes back short, `cleanup` runs while `ehdr_curr` is still null: the trace
shows `free(0)` and no `free` of the buffer that `malloc` returned. -/
theorem buffer_not_freed_on_short_read :
    (do_file ByteOrder.little sample_env_short_read "a.o"
        (entry_state "a.o" State.init)).state.trace
      = [Event.call_do_file "a.o", Event.sys_open "a.o" 3, Event.sys_fstat 3 0,
          Event.sys_mmap 64 3 none, Event.sys_malloc 64 8192, Event.sys_read 3 64 10,
          Event.sys_free 0, Event.sys_close 3, Event.longjmp SJ_FAIL] := by
  decide

/-- C11: `is_mcounted_section_name` is non-zero exactly on the five listed names;
the variants `.text.hot` and `.init.text` are not eligible. -/
theorem mcounted_allow_list (s : String) :
    (is_mcounted_section_name s ≠ 0 ↔ s ∈ mcounted_names)
      ∧ is_mcounted_section_name ".text.hot" = 0
      ∧ is_mcounted_section_name ".init.text" = 0 := by
  refine ⟨?_, by decide, by decide⟩
  unfold is_mcounted_section_name mcounted_names
  simp only [List.mem_cons, List.mem_singleton, List.not_mem_nil, or_false]
  constructor
  · intro h
    by_contra hn
    apply h
    rw [if_neg]
    rintro (h | h | h | h | h) <;> exact hn (by simp [← h])
  · intro h
    rw [if_pos]
    · decide
    · rcases h with h | h | h | h | h <;> simp [h]

theorem byte_of_bytes8 (b0 b1 b2 b3 b4 b5 b6 b7 : Nat) (h0 : b0 < 256) (h1 : b1 < 256)
    (h2 : b2 < 256) (h3 : b3 < 256) (h4 : b4 < 256) (h5 : b5 < 256) (h6 : b6 < 256)
    (h7 : b7 < 256) (k : Nat) (hk : k ≤ 7) :
    byte_of (b0 + 256 * b1 + 65536 * b2 + 16777216 * b3 + 4294967296 * b4 + 1099511627776 * b5
        + 281474976710656 * b6 + 72057594037927936 * b7) k
      = [b0, b1, b2, b3, b4, b5, b6, b7].getD k 0 := by
  unfold byte_of
  interval_cases k <;> simp only [Nat.reducePow, List.getD_cons_zero, List.getD_cons_succ] <;>
    omega

theorem byte_of_bytes4 (b0 b1 b2 b3 : Nat) (h0 : b0 < 256) (h1 : b1 < 256)
    (h2 : b2 < 256) (h3 : b3 < 256) (k : Nat) (hk : k ≤ 3) :
    byte_of (b0 + 256 * b1 + 65536 * b2 + 16777216 * b3) k = [b0, b1, b2, b3].getD k 0 := by
  unfold byte_of
  interval_cases k <;> simp only [Nat.reducePow, List.getD_cons_zero, List.getD_cons_succ] <;>
    omega

theorem byte_of_bytes2 (b0 b1 : Nat) (h0 : b0 < 256) (h1 : b1 < 256) (k : Nat) (hk : k ≤ 1) :
    byte_of (b0 + 256 * b1) k = [b0, b1].getD k 0 := by
  unfold byte_of
  interval_cases k <;> simp only [Nat.reducePow, List.getD_cons_zero, List.getD_cons_succ] <;>
    omega

/-- C16: the swapping converters reverse the bytes: byte `k` of `w8rev x` is byte
`7 - k` of `x`, byte `k` of `w4rev x` is byte `3 - k` of `x`, and `w2rev x` is below
`2 ^ 16` with the two bytes of `x` exchanged. -/
theorem swap_reverses_bytes (x k : Nat) :
    (x < 2 ^ 64 → k ≤ 7 → byte_of (w8rev x) k = byte_of x (7 - k))
      ∧ (x < 2 ^ 32 → k ≤ 3 → byte_of (w4rev x) k = byte_of x (3 - k))
      ∧ (x < 2 ^ 16 →
          w2rev x < 2 ^ 16 ∧ byte_of (w2rev x) 0 = byte_of x 1
            ∧ byte_of (w2rev x) 1 = byte_of x 0) := by
  refine ⟨fun hx hk => ?_, fun hx hk => ?_, fun hx => ?_⟩
  · obtain ⟨b0, b1, b2, b3, b4, b5, b6, b7, h0, h1, h2, h3, h4, h5, h6, h7, rfl⟩ :
        ∃ b0 b1 b2 b3 b4 b5 b6 b7 : Nat, b0 < 256 ∧ b1 < 256 ∧ b2 < 256 ∧ b3 < 256
          ∧ b4 < 256 ∧ b5 < 256 ∧ b6 < 256 ∧ b7 < 256
          ∧ x = b0 + 256 * b1 + 65536 * b2 + 16777216 * b3 + 4294967296 * b4
              + 1099511627776 * b5 + 281474976710656 * b6 + 72057594037927936 * b7 :=
      ⟨x % 256, x / 256 % 256, x / 65536 % 256, x / 16777216 % 256, x / 4294967296 % 256,
        x / 1099511627776 % 256, x / 281474976710656 % 256, x / 72057594037927936,
        by omega, by omega, by omega, by omega, by omega, by omega, by omega, by omega,
        by omega⟩
    rw [w8rev_bytes b0 b1 b2 b3 b4 b5 b6 b7 h0 h1 h2 h3 h4 h5 h6 h7,
      byte_of_bytes8 b7 b6 b5 b4 b3 b2 b1 b0 h7 h6 h5 h4 h3 h2 h1 h0 k hk,
      byte_of_bytes8 b0 b1 b2 b3 b4 b5 b6 b7 h0 h1 h2 h3 h4 h5 h6 h7 (7 - k) (by omega)]
    interval_cases k <;> rfl
  · obtain ⟨b0, b1, b2, b3, h0, h1, h2, h3, rfl⟩ :
        ∃ b0 b1 b2 b3 : Nat, b0 < 256 ∧ b1 < 256 ∧ b2 < 256 ∧ b3 < 256
          ∧ x = b0 + 256 * b1 + 65536 * b2 + 16777216 * b3 :=
      ⟨x % 256, x / 256 % 256, x / 65536 % 256, x / 16777216,
        by omega, by omega, by omega, by omega, by omega⟩
    rw [w4rev_bytes b0 b1 b2 b3 h0 h1 h2 h3,
      byte_of_bytes4 b3 b2 b1 b0 h3 h2 h1 h0 k hk,
      byte_of_bytes4 b0 b1 b2 b3 h0 h1 h2 h3 (3 - k) (by omega)]
    interval_cases k <;> rfl
  · obtain ⟨b0, b1, h0, h1, rfl⟩ : ∃ b0 b1 : Nat, b0 < 256 ∧ b1 < 256 ∧ x = b0 + 256 * b1 :=
      ⟨x % 256, x / 256, by omega, by omega, by omega⟩
    rw [w2rev_bytes b0 b1 h0 h1, byte_of_bytes2 b1 b0 h1 h0 0 (by omega),
      byte_of_bytes2 b1 b0 h1 h0 1 (by omega), byte_of_bytes2 b0 b1 h0 h1 0 (by omega),
      byte_of_bytes2 b0 b1 h0 h1 1 (by omega)]
    exact ⟨by omega, rfl, rfl⟩

theorem swap_reverses_bytes_witness :
    ((0x0102030405060708 : Nat) < 2 ^ 64 ∧ 2 ≤ 7
        ∧ byte_of (w8rev 0x0102030405060708) 2 = byte_of 0x0102030405060708 (7 - 2))
      ∧ ((0x01020304 : Nat) < 2 ^ 32 ∧ 2 ≤ 3
        ∧ byte_of (w4rev 0x01020304) 2 = byte_of 0x01020304 (3 - 2))
      ∧ ((0x0102 : Nat) < 2 ^ 16 ∧ w2rev 0x0102 < 2 ^ 16
        ∧ byte_of (w2rev 0x0102) 0 = byte_of 0x0102 1
        ∧ byte_of (w2rev 0x0102) 1 = byte_of 0x0102 0) :=
  ⟨⟨by decide, by decide, (swap_reverses_bytes 0x0102030405060708 2).1 (by decide) (by decide)⟩,
    ⟨by decide, by decide, (swap_reverses_bytes 0x01020304 2).2.1 (by decide) (by decide)⟩,
    ⟨by decide, (swap_reverses_bytes 0x0102 0).2.2 (by decide)⟩⟩

theorem loop_body_cases (host : ByteOrder) (e : FileEnv) (arg : String) (sjval n : Nat)
    (s : State) (hsj : sjval = SJ_SETJMP ∨ sjval = SJ_FAIL ∨ sjval = SJ_SUCCEED) :
    (∃ n1 s1, loop_body host e arg sjval n s = Step.next n1 s1)
      ∨ (∃ s1, loop_body host e arg sjval n s = Step.jumped SJ_FAIL s1)
      ∨ (∃ s1, loop_body host e arg sjval n s = Step.jumped SJ_SUCCEED s1) := by
  by_cases hskip : ends_with_ftrace arg
  · exact Or.inl ⟨n, s, loop_body_skip host e arg sjval n s hskip⟩
  · rcases hsj with h | h | h
    · rw [h, loop_body_setjmp host e arg n s hskip]
      obtain ⟨t, _, _, _, _, hcase⟩ := do_file_summary host e arg (entry_state arg s)
      rcases hcase with ⟨hd, _⟩ | ⟨hd, _⟩ | ⟨hd, _⟩
      · exact Or.inl ⟨n, t, by rw [hd]⟩
      · exact Or.inr (Or.inl ⟨t, by rw [hd]⟩)
      · exact Or.inr (Or.inr ⟨t, by rw [hd]⟩)
    · exact Or.inl ⟨n + 1, s, by rw [h, loop_body_fail host e arg n s hskip]⟩
    · exact Or.inl ⟨n, s, by rw [h, loop_body_succeed host e arg n s hskip]⟩

theorem main_loop_never_exits (host : ByteOrder) (env : Nat → FileEnv) :
    ∀ (fuel i : Nat) (args : List String) (sjval n : Nat) (s : State),
      (sjval = SJ_SETJMP ∨ sjval = SJ_FAIL ∨ sjval = SJ_SUCCEED) →
      ∀ code t, main_loop host env fuel i args sjval n s ≠ some (LoopEnd.exited code t) := by
  intro fuel
  induction fuel with
  | zero =>
    intro i args sjval n s _ code t
    cases args with
    | nil => simp [main_loop]
    | cons a rest => simp [main_loop]
  | succ f ih =>
    intro i args sjval n s hsj code t
    cases args with
    | nil => simp [main_loop]
    | cons arg rest =>
      show (match loop_body host (env i) arg sjval n s with
        | Step.next n_error s => main_loop host env f (i + 1) rest SJ_SETJMP n_error s
        | Step.jumped val s =>
          main_loop host env f i (arg :: rest) (if val = 0 then 1 else val) n s
        | Step.exit code s => some (LoopEnd.exited code s)) ≠ _
      rcases loop_body_cases host (env i) arg sjval n s hsj with
        ⟨n1, s1, h⟩ | ⟨s1, h⟩ | ⟨s1, h⟩
      · rw [h]; exact ih (i + 1) rest SJ_SETJMP n1 s1 (Or.inl rfl) code t
      · rw [h]; exact ih i (arg :: rest) SJ_FAIL n s1 (Or.inr (Or.inl rfl)) code t
      · rw [h]; exact ih i (arg :: rest) SJ_SUCCEED n s1 (Or.inr (Or.inr rfl)) code t

/-- C17: a pass through the loop body that `setjmp` entered with `SJ_SETJMP`, `SJ_FAIL`
or `SJ_SUCCEED` ends by going to the next argument or by an escape with `SJ_FAIL` or
`SJ_SUCCEED`, never in the default case; so the loop of `main`, whatever the fuel,
never ends through the internal-error exit, and with enough fuel it ends normally. -/
theorem internal_error_unreachable (host : ByteOrder) (env : Nat → FileEnv) :
    (∀ (e : FileEnv) (arg : String) (sjval n : Nat) (s : State),
        (sjval = SJ_SETJMP ∨ sjval = SJ_FAIL ∨ sjval = SJ_SUCCEED) →
        (∃ n1 s1, loop_body host e arg sjval n s = Step.next n1 s1)
          ∨ (∃ s1, loop_body host e arg sjval n s = Step.jumped SJ_FAIL s1)
          ∨ (∃ s1, loop_body host e arg sjval n s = Step.jumped SJ_SUCCEED s1))
      ∧ (∀ (fuel : Nat) (args : List String) (code : Nat) (t : State),
          main_loop host env fuel 1 args SJ_SETJMP 0 State.init
            ≠ some (LoopEnd.exited code t))
      ∧ (∀ (fuel : Nat) (args : List String), 2 * args.length ≤ fuel →
          ∃ n t, main_loop host env fuel 1 args SJ_SETJMP 0 State.init
            = some (LoopEnd.finished n t)) := by
  refine ⟨fun e arg sjval n s h => loop_body_cases host e arg sjval n s h,
    fun fuel args code t =>
      main_loop_never_exits host env fuel 1 args SJ_SETJMP 0 State.init (Or.inl rfl) code t,
    fun fuel args hf => ?_⟩
  obtain ⟨t, evs, hrun, _⟩ := main_loop_spec host env args fuel 1 0 State.init hf
  exact ⟨_, t, hrun⟩

theorem internal_error_unreachable_witness :
    2 * (sample_argv.drop 1).length ≤ 6
      ∧ ∃ n t, main_loop ByteOrder.little sample_world 6 1 (sample_argv.drop 1) SJ_SETJMP 0
          State.init = some (LoopEnd.finished n t) :=
  ⟨by decide,
    (internal_error_unreachable ByteOrder.little sample_world).2.2 6 (sample_argv.drop 1)
      (by decide)⟩

theorem call_w_lt (w : Option Fn4) (x : Nat) : call_w w x < 2 ^ 32 := by
  rcases w with _ | f
  · simp [call_w]
  · cases f
    · simp only [call_w, w4nat]; omega
    · simp only [call_w]; rw [w4rev_arith]; omega

theorem call_w_twice (w : Option Fn4) (hw : w = some Fn4.w4nat ∨ w = some Fn4.w4rev)
    (x : Nat) (hx : x < 2 ^ 32) : call_w w (call_w w x) = x := by
  rcases hw with h | h <;> subst h
  · simp only [call_w, w4nat]; omega
  · simp only [call_w]; exact w4rev_w4rev x hx

/-- The union written by `MIPS64_r_info` and read back through `r_info`. -/
theorem mips_union_bytes (host : ByteOrder) (v t : Nat) (hv : v < 2 ^ 32) :
    to_bytes host 8 (of_bytes host (to_bytes host 4 v ++ [0, 0, 0, t % 256]) % 2 ^ 64)
      = to_bytes host 4 v ++ [0, 0, 0, t % 256] := by
  obtain ⟨b0, b1, b2, b3, h0, h1, h2, h3, rfl⟩ :
      ∃ b0 b1 b2 b3 : Nat, b0 < 256 ∧ b1 < 256 ∧ b2 < 256 ∧ b3 < 256
        ∧ v = b0 + 256 * b1 + 65536 * b2 + 16777216 * b3 :=
    ⟨v % 256, v / 256 % 256, v / 65536 % 256, v / 16777216,
      by omega, by omega, by omega, by omega, by omega⟩
  have ht : t % 256 < 256 := Nat.mod_lt _ (by decide)
  have e0 := byte_of_bytes4 b0 b1 b2 b3 h0 h1 h2 h3 0 (by omega)
  have e1 := byte_of_bytes4 b0 b1 b2 b3 h0 h1 h2 h3 1 (by omega)
  have e2 := byte_of_bytes4 b0 b1 b2 b3 h0 h1 h2 h3 2 (by omega)
  have e3 := byte_of_bytes4 b0 b1 b2 b3 h0 h1 h2 h3 3 (by omega)
  simp only [List.getD_cons_zero, List.getD_cons_succ] at e0 e1 e2 e3
  generalize t % 256 = c at ht
  have hb := byte_of_bytes8 b0 b1 b2 b3 0 0 0 c h0 h1 h2 h3 (by omega) (by omega) (by omega) ht
  have hr := byte_of_bytes8 c 0 0 0 b0 b1 b2 b3 ht (by omega) (by omega) (by omega) h0 h1 h2 h3
  cases host
  · have hX : (b0 + 256 * (b1 + 256 * (b2 + 256 * (b3 + 256 * (0 % 256 + 256 * (0 % 256
        + 256 * (0 % 256 + 256 * (c % 256 + 256 * 0)))))))) % 2 ^ 64
        = b0 + 256 * b1 + 65536 * b2 + 16777216 * b3 + 4294967296 * 0 + 1099511627776 * 0
          + 281474976710656 * 0 + 72057594037927936 * c := by omega
    simp only [to_bytes, of_bytes, List.range, List.range.loop, List.map, e0, e1, e2, e3,
      List.cons_append, List.nil_append, List.foldr, Nat.mod_eq_of_lt h0, Nat.mod_eq_of_lt h1,
      Nat.mod_eq_of_lt h2, Nat.mod_eq_of_lt h3]
    rw [hX, hb 0 (by omega), hb 1 (by omega), hb 2 (by omega), hb 3 (by omega),
      hb 4 (by omega), hb 5 (by omega), hb 6 (by omega), hb 7 (by omega)]
    rfl
  · have hX : (256 * (256 * (256 * (256 * (256 * (256 * (256 * (256 * 0 + b3 % 256) + b2 % 256)
        + b1 % 256) + b0 % 256) + 0 % 256) + 0 % 256) + 0 % 256) + c % 256) % 2 ^ 64
        = c + 256 * 0 + 65536 * 0 + 16777216 * 0 + 4294967296 * b0 + 1099511627776 * b1
          + 281474976710656 * b2 + 72057594037927936 * b3 := by omega
    simp only [to_bytes, of_bytes, List.range, List.range.loop, List.map, e0, e1, e2, e3,
      List.cons_append, List.nil_append, List.foldl, List.reverse_cons, List.reverse_nil]
    rw [hX, hr 0 (by omega), hr 1 (by omega), hr 2 (by omega), hr 3 (by omega),
      hr 4 (by omega), hr 5 (by omega), hr 6 (by omega), hr 7 (by omega)]
    rfl

theorem of_to_bytes4 (host : ByteOrder) (v : Nat) (hv : v < 2 ^ 32) :
    of_bytes host (to_bytes host 4 v) = v := by
  obtain ⟨b0, b1, b2, b3, h0, h1, h2, h3, rfl⟩ :
      ∃ b0 b1 b2 b3 : Nat, b0 < 256 ∧ b1 < 256 ∧ b2 < 256 ∧ b3 < 256
        ∧ v = b0 + 256 * b1 + 65536 * b2 + 16777216 * b3 :=
    ⟨v % 256, v / 256 % 256, v / 65536 % 256, v / 16777216,
      by omega, by omega, by omega, by omega, by omega⟩
  have e0 := byte_of_bytes4 b0 b1 b2 b3 h0 h1 h2 h3 0 (by omega)
  have e1 := byte_of_bytes4 b0 b1 b2 b3 h0 h1 h2 h3 1 (by omega)
  have e2 := byte_of_bytes4 b0 b1 b2 b3 h0 h1 h2 h3 2 (by omega)
  have e3 := byte_of_bytes4 b0 b1 b2 b3 h0 h1 h2 h3 3 (by omega)
  simp only [List.getD_cons_zero, List.getD_cons_succ] at e0 e1 e2 e3
  cases host
  · simp only [to_bytes, of_bytes, List.range, List.range.loop, List.map, e0, e1, e2, e3,
      List.foldr]
    omega
  · simp only [to_bytes, of_bytes, List.range, List.range.loop, List.map, e0, e1, e2, e3,
      List.foldl, List.reverse_cons, List.reverse_nil, List.nil_append, List.cons_append]
    omega

theorem take4_to_bytes (host : ByteOrder) (v c : Nat) :
    (to_bytes host 4 v ++ [0, 0, 0, c]).take 4 = to_bytes host 4 v := by
  cases host <;> rfl

/-- C18: with either converter bound to `w` and on either host, `MIPS64_r_sym` returns
the 32-bit symbol index that `MIPS64_r_info` stored; in the stored `r_info`, read as
the union, `r_type` is the type truncated to 8 bits and `r_ssym`, `r_type3` and
`r_type2` are zero. -/
theorem mips_r_info_roundtrip (host : ByteOrder) (w : Option Fn4) (sym type : Nat)
    (hw : w = some Fn4.w4nat ∨ w = some Fn4.w4rev) (hsym : sym < 2 ^ 32) :
    MIPS64_r_sym host w (MIPS64_r_info host w sym type) = sym
      ∧ r_mips_r_type (to_bytes host 8 (MIPS64_r_info host w sym type)) = type % 256
      ∧ r_mips_r_ssym (to_bytes host 8 (MIPS64_r_info host w sym type)) = 0
      ∧ r_mips_r_type3 (to_bytes host 8 (MIPS64_r_info host w sym type)) = 0
      ∧ r_mips_r_type2 (to_bytes host 8 (MIPS64_r_info host w sym type)) = 0 := by
  have hs : sym % 2 ^ 32 = sym := Nat.mod_eq_of_lt hsym
  have hv := call_w_lt w sym
  have hu := mips_union_bytes host (call_w w sym) (type % 2 ^ 32) hv
  have ht : type % 2 ^ 32 % 256 = type % 256 := by omega
  rw [ht] at hu
  have hinfo : MIPS64_r_info host w sym type
      = of_bytes host (to_bytes host 4 (call_w w sym) ++ [0, 0, 0, type % 256]) % 2 ^ 64 := by
    simp only [MIPS64_r_info, hs, ht]
  refine ⟨?_, ?_, ?_, ?_, ?_⟩
  · unfold MIPS64_r_sym r_mips_r_sym
    simp only []
    rw [hinfo, Nat.mod_mod, hu, take4_to_bytes, of_to_bytes4 host _ hv]
    exact call_w_twice w hw sym hsym
  · rw [hinfo, hu]; cases host <;> rfl
  · rw [hinfo, hu]; cases host <;> rfl
  · rw [hinfo, hu]; cases host <;> rfl
  · rw [hinfo, hu]; cases host <;> rfl

theorem mips_r_info_roundtrip_witness :
    ((some Fn4.w4rev = some Fn4.w4nat ∨ some Fn4.w4rev = some Fn4.w4rev)
      ∧ (0x12345678 : Nat) < 2 ^ 32)
    ∧ MIPS64_r_sym ByteOrder.little (some Fn4.w4rev)
        (MIPS64_r_info ByteOrder.little (some Fn4.w4rev) 0x12345678 0x1ff) = 0x12345678
    ∧ r_mips_r_type (to_bytes ByteOrder.little 8
        (MIPS64_r_info ByteOrder.little (some Fn4.w4rev) 0x12345678 0x1ff)) = 0x1ff % 256
    ∧ r_mips_r_ssym (to_bytes ByteOrder.little 8
        (MIPS64_r_info ByteOrder.little (some Fn4.w4rev) 0x12345678 0x1ff)) = 0
    ∧ r_mips_r_type3 (to_bytes ByteOrder.little 8
        (MIPS64_r_info ByteOrder.little (some Fn4.w4rev) 0x12345678 0x1ff)) = 0
    ∧ r_mips_r_type2 (to_bytes ByteOrder.little 8
        (MIPS64_r_info ByteOrder.little (some Fn4.w4rev) 0x12345678 0x1ff)) = 0 :=
  ⟨⟨by decide, by decide⟩,
    mips_r_info_roundtrip ByteOrder.little (some Fn4.w4rev) 0x12345678 0x1ff (by decide)
      (by decide)⟩

theorem to_bytes_length (host : ByteOrder) (n v : Nat) : (to_bytes host n v).length = n := by
  cases host <;> simp [to_bytes]

theorem write_at_end (file bytes : List Nat) : write_at file file.length bytes = file ++ bytes := by
  simp [write_at]

theorem write_at_inside (file bytes : List Nat) (off : Nat)
    (h : off + bytes.length ≤ file.length) :
    write_at file off bytes = file.take off ++ bytes ++ file.drop (off + bytes.length) := by
  unfold write_at
  have : off - file.length = 0 := by omega
  rw [this]
  simp

theorem write_at_length (file bytes : List Nat) (off : Nat)
    (h : off + bytes.length ≤ file.length) :
    (write_at file off bytes).length = file.length := by
  rw [write_at_inside file bytes off h]
  simp only [List.length_append, List.length_take, List.length_drop]
  omega

theorem write_at_get (file bytes : List Nat) (off i : Nat)
    (h : off + bytes.length ≤ file.length) (hi : i < off ∨ off + bytes.length ≤ i) :
    (write_at file off bytes)[i]? = file[i]? := by
  rw [write_at_inside file bytes off h]
  rcases hi with hi | hi
  · rw [List.append_assoc, List.getElem?_append_left (by simp; omega),
      List.getElem?_take_of_lt hi]
  · rw [List.getElem?_append_right (by simp; omega), List.getElem?_drop]
    congr 1
    simp only [List.length_append, List.length_take]
    omega

theorem write_at_drop (file bytes : List Nat) (off o : Nat)
    (h : off + bytes.length ≤ file.length) (ho : off + bytes.length ≤ o) :
    (write_at file off bytes).drop o = file.drop o := by
  apply List.ext_getElem?
  intro j
  rw [List.getElem?_drop, List.getElem?_drop,
    write_at_get file bytes off (o + j) h (Or.inr (by omega))]

theorem drop_take_parts (a b c : List Nat) :
    ((a ++ b ++ c).drop a.length).take b.length = b := by
  rw [List.append_assoc, List.drop_left, List.take_left]

/-- C12: on the model of append-and-finalize, for a file of length `L` that holds an
ELF header: the output has the `L` original bytes followed by the Synthesized Region;
every byte below `L` outside the fields `e_shoff` and `e_shnum` is the original byte,
so every run of bytes between the end of the ELF header and `L` (every pre-existing
section header) is unchanged; and the new string table, section-header array,
call-site section and relocation section start at `L`, `L + |strtab|`,
`L + |strtab| + |shdrs|` and `L + |strtab| + |shdrs| + |mcount_loc|`. -/
theorem append_only (cls64 : Bool) (order : ByteOrder) (file : List Nat) (r : SynthRegion)
    (shnum : Nat) (hL : sizeof_Ehdr cls64 ≤ file.length) :
    (append_and_finalize cls64 order file r shnum).length = file.length + r.bytes.length
      ∧ (∀ i, i < file.length →
          ¬ (off_e_shoff cls64 ≤ i ∧ i < off_e_shoff cls64 + size_e_shoff cls64) →
          ¬ (off_e_shnum cls64 ≤ i ∧ i < off_e_shnum cls64 + 2) →
          (append_and_finalize cls64 order file r shnum)[i]? = file[i]?)
      ∧ (∀ o n, sizeof_Ehdr cls64 ≤ o → o + n ≤ file.length →
          ((append_and_finalize cls64 order file r shnum).drop o).take n
            = (file.drop o).take n)
      ∧ ((append_and_finalize cls64 order file r shnum).drop file.length).take
            r.strtab.length = r.strtab
      ∧ ((append_and_finalize cls64 order file r shnum).drop
            (file.length + r.strtab.length)).take r.shdrs.length = r.shdrs
      ∧ ((append_and_finalize cls64 order file r shnum).drop
            (file.length + r.strtab.length + r.shdrs.length)).take r.mcount_loc.length
          = r.mcount_loc
      ∧ (append_and_finalize cls64 order file r shnum).drop
            (file.length + r.strtab.length + r.shdrs.length + r.mcount_loc.length)
          = r.mcount_rel := by
  have hsz : sizeof_Ehdr cls64 = if cls64 then 64 else 52 := by
    cases cls64 <;> rfl
  have h1 : off_e_shoff cls64 + size_e_shoff cls64 ≤ sizeof_Ehdr cls64 := by
    cases cls64 <;> decide
  have h2 : off_e_shnum cls64 + 2 ≤ sizeof_Ehdr cls64 := by
    cases cls64 <;> decide
  have hlen1 : ∀ v, off_e_shoff cls64 + (to_bytes order (size_e_shoff cls64) v).length
      ≤ (file ++ r.bytes).length := by
    intro v; rw [to_bytes_length, List.length_append]; omega
  have hlenA : ∀ v, (write_at (file ++ r.bytes) (off_e_shoff cls64)
      (to_bytes order (size_e_shoff cls64) v)).length = (file ++ r.bytes).length :=
    fun v => write_at_length _ _ _ (hlen1 v)
  have hlen2 : ∀ v u, off_e_shnum cls64 + (to_bytes order 2 u).length
      ≤ (write_at (file ++ r.bytes) (off_e_shoff cls64)
          (to_bytes order (size_e_shoff cls64) v)).length := by
    intro v u; rw [to_bytes_length, hlenA, List.length_append]; omega
  have hget : ∀ i, ¬ (off_e_shoff cls64 ≤ i ∧ i < off_e_shoff cls64 + size_e_shoff cls64) →
      ¬ (off_e_shnum cls64 ≤ i ∧ i < off_e_shnum cls64 + 2) →
      (append_and_finalize cls64 order file r shnum)[i]? = (file ++ r.bytes)[i]? := by
    intro i hi1 hi2
    unfold append_and_finalize
    simp only [write_at_end]
    rw [write_at_get _ _ _ i (hlen2 _ _) (by rw [to_bytes_length]; omega),
      write_at_get _ _ _ i (hlen1 _) (by rw [to_bytes_length]; omega)]
  have hdrop : ∀ o, sizeof_Ehdr cls64 ≤ o →
      (append_and_finalize cls64 order file r shnum).drop o = (file ++ r.bytes).drop o := by
    intro o ho
    unfold append_and_finalize
    simp only [write_at_end]
    rw [write_at_drop _ _ _ o (hlen2 _ _) (by rw [to_bytes_length]; omega),
      write_at_drop _ _ _ o (hlen1 _) (by rw [to_bytes_length]; omega)]
  have hdropL : ∀ k, (append_and_finalize cls64 order file r shnum).drop (file.length + k)
      = r.bytes.drop k := by
    intro k
    rw [hdrop _ (by omega), ← List.drop_drop, List.drop_left]
  refine ⟨?_, ?_, ?_, ?_, ?_, ?_, ?_⟩
  · unfold append_and_finalize
    simp only [write_at_end]
    rw [write_at_length _ _ _ (hlen2 _ _), hlenA, List.length_append]
  · intro i hi hi1 hi2
    rw [hget i hi1 hi2, List.getElem?_append_left hi]
  · intro o n ho hn
    rw [hdrop o ho, List.drop_append_of_le_length (by omega),
      List.take_append_of_le_length (by rw [List.length_drop]; omega)]
  · have := hdropL 0
    rw [Nat.add_zero, List.drop_zero] at this
    rw [this]
    unfold SynthRegion.bytes
    rw [List.append_assoc, List.append_assoc, List.take_left]
  · rw [hdropL]
    unfold SynthRegion.bytes
    have := drop_take_parts r.strtab r.shdrs (r.mcount_loc ++ r.mcount_rel)
    rw [← List.append_assoc] at this
    exact this
  · rw [Nat.add_assoc, hdropL]
    unfold SynthRegion.bytes
    have := drop_take_parts (r.strtab ++ r.shdrs) r.mcount_loc r.mcount_rel
    rw [List.length_append] at this
    exact this
  · rw [Nat.add_assoc, Nat.add_assoc, hdropL]
    unfold SynthRegion.bytes
    have := List.drop_left (r.strtab ++ r.shdrs ++ r.mcount_loc) r.mcount_rel
    simp only [List.length_append] at this
    rw [← Nat.add_assoc]
    exact this

theorem append_only_witness :
    sizeof_Ehdr true ≤ sample_header64.length
    ∧ (append_and_finalize true ByteOrder.little sample_header64 sample_region 9).length
        = sample_header64.length + sample_region.bytes.length
    ∧ (∀ i, i < sample_header64.length →
        ¬ (off_e_shoff true ≤ i ∧ i < off_e_shoff true + size_e_shoff true) →
        ¬ (off_e_shnum true ≤ i ∧ i < off_e_shnum true + 2) →
        (append_and_finalize true ByteOrder.little sample_header64 sample_region 9)[i]?
          = sample_header64[i]?)
    ∧ (∀ o n, sizeof_Ehdr true ≤ o → o + n ≤ sample_header64.length →
        ((append_and_finalize true ByteOrder.little sample_header64 sample_region 9).drop
          o).take n = (sample_header64.drop o).take n)
    ∧ ((append_and_finalize true ByteOrder.little sample_header64 sample_region 9).drop
          sample_header64.length).take sample_region.strtab.length = sample_region.strtab
    ∧ ((append_and_finalize true ByteOrder.little sample_header64 sample_region 9).drop
          (sample_header64.length + sample_region.strtab.length)).take
          sample_region.shdrs.length = sample_region.shdrs
    ∧ ((append_and_finalize true ByteOrder.little sample_header64 sample_region 9).drop
          (sample_header64.length + sample_region.strtab.length
            + sample_region.shdrs.length)).take sample_region.mcount_loc.length
        = sample_region.mcount_loc
    ∧ (append_and_finalize true ByteOrder.little sample_header64 sample_region 9).drop
          (sample_header64.length + sample_region.strtab.length + sample_region.shdrs.length
            + sample_region.mcount_loc.length)
        = sample_region.mcount_rel :=
  ⟨by decide,
    append_only true ByteOrder.little sample_header64 sample_region 9 (by decide)⟩

end Recordmcount

namespace IpxeElf

theorem byte_at_lt (image : Image) (o : Nat) : byte_at image o < 256 :=
  Nat.mod_lt _ (by decide)

theorem le32_lt (image : Image) (o : Nat) : le32 image o < 2 ^ 32 := by
  have h0 := byte_at_lt image o
  have h1 := byte_at_lt image (o + 1)
  have h2 := byte_at_lt image (o + 2)
  have h3 := byte_at_lt image (o + 3)
  unfold le32
  omega

theorem log_entry (s : Load) (a : Access) : (s.log a).entry = s.entry := rfl

theorem raise_max_entry (s : Load) (e : Nat) : (s.raise_max e).entry = s.entry := by
  unfold Load.raise_max; split <;> rfl

/-- One call of `elf_load_segment`: the entry point is left alone, or the segment is
a `PT_LOAD` segment that passed one of the two tests; without wrap-around the tests
are containments. -/
theorem elf_load_segment_entry (prep : Nat → Nat → Nat → Int) (image : Image)
    (phdr : Elf_Phdr) (ehdr : Elf_Ehdr) (s : Load)
    (he : ehdr.e_entry < 2 ^ 32) (hd : dest_of phdr < 2 ^ 32) (hv : phdr.p_vaddr < 2 ^ 32) :
    (elf_load_segment prep image phdr ehdr s).2.entry = s.entry
      ∨ (phdr.p_type = PT_LOAD ∧ (elf_load_segment prep image phdr ehdr s).1 = 0
        ∧ (dest_of phdr + phdr.p_filesz ≤ 2 ^ 32 →
            dest_of phdr ≤ (elf_load_segment prep image phdr ehdr s).2.entry
              ∧ (elf_load_segment prep image phdr ehdr s).2.entry
                  < dest_of phdr + phdr.p_filesz)
        ∧ (dest_of phdr + phdr.p_filesz ≤ 2 ^ 32 → phdr.p_vaddr + phdr.p_filesz ≤ 2 ^ 32 →
            (dest_of phdr ≤ ehdr.e_entry ∧ ehdr.e_entry < dest_of phdr + phdr.p_filesz)
            ∨ (phdr.p_vaddr ≤ ehdr.e_entry
              ∧ ehdr.e_entry < phdr.p_vaddr + phdr.p_filesz))) := by
  unfold elf_load_segment
  simp only [log_entry, raise_max_entry]
  split_ifs with h1 h2 h3 h4 h5 h6 h7
  · left; rfl
  · left; rfl
  · left; rfl
  · left; rfl
  · right
    simp only [ne_eq, not_not] at h1
    refine ⟨h1, rfl, fun hw => ?_, fun hw _ => Or.inl ?_⟩ <;> dsimp only <;> omega
  · right
    simp only [ne_eq, not_not] at h1
    refine ⟨h1, rfl, fun hw => ?_, fun _ hw => Or.inr ?_⟩ <;> dsimp only <;> omega
  · left; simp only [log_entry, raise_max_entry]
  · left; simp only [log_entry, raise_max_entry]

theorem dest_of_lt (image : Image) (phoff : Nat) : dest_of (read_phdr image phoff) < 2 ^ 32 := by
  unfold dest_of
  split
  · exact le32_lt image (phoff + 8)
  · exact le32_lt image (phoff + 12)

/-- The loop of `elf_load` started at header `j`: the entry point is left alone, or it
comes from a `PT_LOAD` segment that passed one of the two tests. -/
theorem elf_load_loop_entry (prep : Nat → Nat → Nat → Int) (image : Image) :
    ∀ (phnum j : Nat) (s : Load),
      (elf_load_loop prep image (read_ehdr image) phnum
          (phoff_at (read_ehdr image) j) s).2.entry = s.entry
        ∨ ∃ k, k < j + phnum ∧ (segment image k).p_type = PT_LOAD
          ∧ (dest_of (segment image k) + (segment image k).p_filesz ≤ 2 ^ 32 →
              loads_at image k (elf_load_loop prep image (read_ehdr image) phnum
                (phoff_at (read_ehdr image) j) s).2.entry)
          ∧ (dest_of (segment image k) + (segment image k).p_filesz ≤ 2 ^ 32 →
              (segment image k).p_vaddr + (segment image k).p_filesz ≤ 2 ^ 32 →
              contains_entry image k) := by
  intro phnum
  induction phnum with
  | zero => intro j s; left; rfl
  | succ n ih =>
    intro j s
    rw [elf_load_loop]
    by_cases h0 : phoff_at (read_ehdr image) j > image.len
    · left; rw [if_pos h0]
    · simp only [if_neg h0]
      have step := elf_load_segment_entry prep image (segment image j) (read_ehdr image)
        (s.log (Access.read_phdr (phoff_at (read_ehdr image) j))) (le32_lt image 24)
        (dest_of_lt image _) (le32_lt image _)
      rw [log_entry] at step
      change _ ∨ (_ ∧ (elf_load_segment prep image (read_phdr image
        (phoff_at (read_ehdr image) j)) _ _).1 = 0 ∧ _) at step
      by_cases h1 : (elf_load_segment prep image (read_phdr image
          (phoff_at (read_ehdr image) j)) (read_ehdr image)
          (s.log (Access.read_phdr (phoff_at (read_ehdr image) j)))).1 ≠ 0
      · simp only [if_pos h1]
        rcases step with step | ⟨_, hz, _⟩
        · left; exact step
        · exact absurd hz h1
      · simp only [if_neg h1]
        rcases ih (j + 1) (elf_load_segment prep image (read_phdr image
          (phoff_at (read_ehdr image) j)) (read_ehdr image)
          (s.log (Access.read_phdr (phoff_at (read_ehdr image) j)))).2 with h | ⟨k, hk, h⟩
        · change (elf_load_loop prep image (read_ehdr image) n
            ((phoff_at (read_ehdr image) j + (read_ehdr image).e_phentsize) % 2 ^ 32) _).2.entry
            = _ at h
          rcases step with step | ⟨hl, _, hd, hc⟩
          · left; rw [h]; exact step
          · right
            refine ⟨j, by omega, hl, fun hw => ?_, fun hw hwv => ⟨hl, hc hw hwv⟩⟩
            rw [h]
            exact ⟨hl, hd hw⟩
        · right
          exact ⟨k, by omega, h⟩

/-- C13: the `PT_LOAD` header of `image_wrapped_offset` has `p_offset + p_filesz`
above `image->len` as unbounded integers, yet `elf_load_segment` passes the bounds
check, copies the segment from offset `0xfffffff0` and returns 0. -/
theorem segment_outside_image_copied :
    (segment image_wrapped_offset 0).p_type = PT_LOAD
      ∧ (segment image_wrapped_offset 0).p_offset + (segment image_wrapped_offset 0).p_filesz
          > image_wrapped_offset.len
      ∧ elf_load_segment prep_sane image_wrapped_offset (segment image_wrapped_offset 0)
          (read_ehdr image_wrapped_offset) Load.init
        = (0, { entry := 0x100000, max := 0x100020,
                trace := [Access.prep_segment 0x100000 0x20 0x20 0,
                          Access.memcpy_user 0x100000 0xfffffff0 0x20] }) := by
  decide

/-- A segment whose type is not `PT_LOAD` leaves `*entry`, `*max` and the memory
alone. -/
theorem non_load_segment_ignored (prep : Nat → Nat → Nat → Int) (image : Image)
    (phdr : Elf_Phdr) (ehdr : Elf_Ehdr) (s : Load) (h : phdr.p_type ≠ PT_LOAD) :
    elf_load_segment prep image phdr ehdr s = (0, s) := by
  unfold elf_load_segment
  rw [if_pos h]

/-- C15: on `image_wrapped_end` `elf_load` returns 0 with `*max = 0x1000`, while the
only segment is a `PT_LOAD` segment with `dest + p_memsz = 0x100001000`. -/
theorem max_below_segment_end :
    (elf_load prep_sane image_wrapped_end Load.init).1 = 0
      ∧ (elf_load prep_sane image_wrapped_end Load.init).2.max = 0x1000
      ∧ (read_ehdr image_wrapped_end).e_phnum = 1
      ∧ (segment image_wrapped_end 0).p_type = PT_LOAD
      ∧ dest_of (segment image_wrapped_end 0) + (segment image_wrapped_end 0).p_memsz
          = 0x100001000
      ∧ ¬ (dest_of (segment image_wrapped_end 0) + (segment image_wrapped_end 0).p_memsz
          ≤ (elf_load prep_sane image_wrapped_end Load.init).2.max) := by
  decide

/-- C19: on `image_short`, an image of 56 bytes, `elf_load` copies the program header
at offset 52, which ends at offset 84, and returns 0. -/
theorem header_outside_image_read :
    image_short.len = 56
      ∧ 52 + sizeof_phdr > image_short.len
      ∧ elf_load prep_sane image_short Load.init
        = (0, { entry := 0x100000, max := 0x100020,
                trace := [Access.read_header, Access.read_phdr 52,
                          Access.prep_segment 0x100000 0x20 0x20 0,
                          Access.memcpy_user 0x100000 0 0x20] }) := by
  decide

/-- One call of `elf_load_segment`: the status is 0, `-ENOEXEC`, or the non-zero status
of `prep_segment` for this `PT_LOAD` segment. -/
theorem elf_load_segment_status (prep : Nat → Nat → Nat → Int) (image : Image)
    (phdr : Elf_Phdr) (ehdr : Elf_Ehdr) (s : Load) :
    (elf_load_segment prep image phdr ehdr s).1 = 0
      ∨ (elf_load_segment prep image phdr ehdr s).1 = -ENOEXEC
      ∨ (phdr.p_type = PT_LOAD
        ∧ prep (dest_of phdr) phdr.p_filesz phdr.p_memsz
            = (elf_load_segment prep image phdr ehdr s).1
        ∧ (elf_load_segment prep image phdr ehdr s).1 ≠ 0) := by
  unfold elf_load_segment
  dsimp only
  split_ifs with h1 h2 h3 h4
  · left; rfl
  · right; left; rfl
  · right; left; rfl
  · right; right
    simp only [ne_eq, not_not] at h1
    exact ⟨h1, rfl, h4⟩
  · left; rfl
  · left; rfl
  · left; rfl
  · left; rfl

/-- The loop of `elf_load` started at header `j`: the status is 0, `-ENOEXEC`, or the
non-zero status of `prep_segment` for a `PT_LOAD` segment. -/
theorem elf_load_loop_status (prep : Nat → Nat → Nat → Int) (image : Image) :
    ∀ (phnum j : Nat) (s : Load),
      (elf_load_loop prep image (read_ehdr image) phnum
          (phoff_at (read_ehdr image) j) s).1 = 0
        ∨ (elf_load_loop prep image (read_ehdr image) phnum
          (phoff_at (read_ehdr image) j) s).1 = -ENOEXEC
        ∨ ∃ k, k < j + phnum ∧ rejected prep image k
            (elf_load_loop prep image (read_ehdr image) phnum
              (phoff_at (read_ehdr image) j) s).1 := by
  intro phnum
  induction phnum with
  | zero => intro j s; left; rfl
  | succ n ih =>
    intro j s
    rw [elf_load_loop]
    by_cases h0 : phoff_at (read_ehdr image) j > image.len
    · right; left; rw [if_pos h0]
    · simp only [if_neg h0]
      have step := elf_load_segment_status prep image (segment image j) (read_ehdr image)
        (s.log (Access.read_phdr (phoff_at (read_ehdr image) j)))
      change (elf_load_segment prep image (read_phdr image
        (phoff_at (read_ehdr image) j)) _ _).1 = 0 ∨ (elf_load_segment prep image
        (read_phdr image (phoff_at (read_ehdr image) j)) _ _).1 = -ENOEXEC ∨ _ at step
      by_cases h1 : (elf_load_segment prep image (read_phdr image
          (phoff_at (read_ehdr image) j)) (read_ehdr image)
          (s.log (Access.read_phdr (phoff_at (read_ehdr image) j)))).1 ≠ 0
      · simp only [if_pos h1]
        rcases step with step | step | step
        · exact absurd step h1
        · right; left; exact step
        · right; right
          exact ⟨j, by omega, step⟩
      · simp only [if_neg h1]
        rcases ih (j + 1) (elf_load_segment prep image (read_phdr image
          (phoff_at (read_ehdr image) j)) (read_ehdr image)
          (s.log (Access.read_phdr (phoff_at (read_ehdr image) j)))).2 with h | h | ⟨k, hk, h⟩
        · left; exact h
        · right; left; exact h
        · right; right
          exact ⟨k, by omega, h⟩

/-- C14 (amended): `elf_load` returns `-ENOEXEC` when the signature does not match; a
zero status comes with a non-zero entry point; when no `PT_LOAD` segment wraps around
the 32-bit address space counted from its load address, a zero status comes with an
entry point inside the file-backed bytes of a `PT_LOAD` segment counted from its load
address; when no `PT_LOAD` segment wraps by load address or by virtual address and none
contains `e_entry` by physical or by virtual address, the status is `-ENOEXEC` or the
non-zero status that `prep_segment` returned for a `PT_LOAD` segment. -/
theorem entry_point_valid (prep : Nat → Nat → Nat → Int) (image : Image) (s : Load) :
    (¬ signature_ok image → (elf_load prep image s).1 = -ENOEXEC)
      ∧ ((elf_load prep image s).1 = 0 → (elf_load prep image s).2.entry ≠ 0)
      ∧ (no_wrap_dest image → (elf_load prep image s).1 = 0 →
          ∃ k, k < (read_ehdr image).e_phnum
            ∧ loads_at image k (elf_load prep image s).2.entry)
      ∧ (no_wrap image → (∀ k, k < (read_ehdr image).e_phnum → ¬ contains_entry image k) →
          (elf_load prep image s).1 = -ENOEXEC
            ∨ ∃ k, k < (read_ehdr image).e_phnum
                ∧ rejected prep image k (elf_load prep image s).1) := by
  have hne : -ENOEXEC ≠ 0 := by decide
  have hloop := elf_load_loop_entry prep image (read_ehdr image).e_phnum 0
    { s.log Access.read_header with max := 0, entry := 0 }
  have hstat := elf_load_loop_status prep image (read_ehdr image).e_phnum 0
    { s.log Access.read_header with max := 0, entry := 0 }
  rw [Nat.zero_add] at hloop hstat
  change (elf_load_loop prep image (read_ehdr image) (read_ehdr image).e_phnum
    (read_ehdr image).e_phoff _).2.entry = 0 ∨ _ at hloop
  change (elf_load_loop prep image (read_ehdr image) (read_ehdr image).e_phnum
    (read_ehdr image).e_phoff _).1 = 0 ∨ (elf_load_loop prep image (read_ehdr image)
    (read_ehdr image).e_phnum (read_ehdr image).e_phoff _).1 = -ENOEXEC
    ∨ ∃ k, k < _ ∧ rejected prep image k (elf_load_loop prep image (read_ehdr image)
    (read_ehdr image).e_phnum (read_ehdr image).e_phoff _).1 at hstat
  unfold elf_load
  by_cases hsig : (read_ehdr image).e_ident.take e_ident.length ≠ e_ident
  · simp only [if_pos hsig]
    exact ⟨fun _ => trivial, fun h => absurd h hne, fun _ h => absurd h hne,
      fun _ _ => Or.inl trivial⟩
  · simp only [if_neg hsig]
    refine ⟨fun h => absurd (not_not.mp hsig) h, ?_, ?_, ?_⟩
    · split_ifs with h1 h2
      · exact fun h => absurd h h1
      · exact fun h => absurd h hne
      · exact fun _ => h2
    · intro hw
      split_ifs with h1 h2
      · exact fun h => absurd h h1
      · exact fun h => absurd h hne
      · intro _
        rcases hloop with h | ⟨k, hk, hl, hd, _⟩
        · exact absurd h h2
        · exact ⟨k, hk, hd (hw k hk hl)⟩
    · intro hw hno
      split_ifs with h1 h2
      · rcases hstat with h | h | h
        · exact absurd h h1
        · exact Or.inl h
        · exact Or.inr h
      · exact Or.inl rfl
      · rcases hloop with h | ⟨k, hk, hl, _, hc⟩
        · exact absurd h h2
        · exact absurd (hc (hw k hk hl).1 (hw k hk hl).2) (hno k hk)

theorem entry_point_valid_witness :
    ((no_wrap_dest image_plain ∧ (elf_load prep_sane image_plain Load.init).1 = 0)
      ∧ ∃ k, k < (read_ehdr image_plain).e_phnum
          ∧ loads_at image_plain k (elf_load prep_sane image_plain Load.init).2.entry)
    ∧ ((no_wrap_dest image_wrapped_vaddr
        ∧ (elf_load prep_sane image_wrapped_vaddr Load.init).1 = 0)
      ∧ ∃ k, k < (read_ehdr image_wrapped_vaddr).e_phnum
          ∧ loads_at image_wrapped_vaddr k
              (elf_load prep_sane image_wrapped_vaddr Load.init).2.entry)
    ∧ ((no_wrap image_no_entry
        ∧ ∀ k, k < (read_ehdr image_no_entry).e_phnum → ¬ contains_entry image_no_entry k)
      ∧ ((elf_load prep_sane image_no_entry Load.init).1 = -ENOEXEC
        ∨ ∃ k, k < (read_ehdr image_no_entry).e_phnum
            ∧ rejected prep_sane image_no_entry k
                (elf_load prep_sane image_no_entry Load.init).1))
    ∧ ((no_wrap image_insane
        ∧ ∀ k, k < (read_ehdr image_insane).e_phnum → ¬ contains_entry image_insane k)
      ∧ ((elf_load prep_sane image_insane Load.init).1 = -ENOEXEC
        ∨ ∃ k, k < (read_ehdr image_insane).e_phnum
            ∧ rejected prep_sane image_insane k
                (elf_load prep_sane image_insane Load.init).1)) :=
  ⟨⟨by decide, (entry_point_valid prep_sane image_plain Load.init).2.2.1 (by decide)
      (by decide)⟩,
    ⟨by decide, (entry_point_valid prep_sane image_wrapped_vaddr Load.init).2.2.1
      (by decide) (by decide)⟩,
    ⟨by decide, (entry_point_valid prep_sane image_no_entry Load.init).2.2.2 (by decide)
      (by decide)⟩,
    ⟨by decide, (entry_point_valid prep_sane image_insane Load.init).2.2.2 (by decide)
      (by decide)⟩⟩

/-- C14 (as stated, refuted): the only segment of `image_insane` does not contain
`e_entry` by physical or by virtual address, and `elf_load` returns the status `-22` of
`prep_segment`, not `-ENOEXEC`; on `image_wrapped_entry` `elf_load` returns 0 with
`*entry = 5`, an address below the load address `0xfffffff0` of the only segment; on
`image_wrapped_vaddr` the only segment does not contain `e_entry = 5` by physical or by
virtual address, and `elf_load` returns 0. -/
theorem status_of_prep_segment_returned :
    ((∀ k, k < (read_ehdr image_insane).e_phnum → ¬ contains_entry image_insane k)
      ∧ (elf_load prep_sane image_insane Load.init).1 = -22
      ∧ (elf_load prep_sane image_insane Load.init).1 ≠ -ENOEXEC)
    ∧ ((elf_load prep_sane image_wrapped_entry Load.init).1 = 0
      ∧ (elf_load prep_sane image_wrapped_entry Load.init).2.entry = 5
      ∧ ∀ k, k < (read_ehdr image_wrapped_entry).e_phnum →
          ¬ loads_at image_wrapped_entry k
            (elf_load prep_sane image_wrapped_entry Load.init).2.entry)
    ∧ ((∀ k, k < (read_ehdr image_wrapped_vaddr).e_phnum →
          ¬ contains_entry image_wrapped_vaddr k)
      ∧ (elf_load prep_sane image_wrapped_vaddr Load.init).1 = 0
      ∧ (elf_load prep_sane image_wrapped_vaddr Load.init).1 ≠ -ENOEXEC) := by
  decide

end IpxeElf

namespace ArmMisc

/-- Enough fuel: the loop of `strreverse` ends. -/
theorem strreverse_loop_some : ∀ (fuel : Nat) (buf : List Char) (begin_ end_ : Nat),
    end_ ≤ fuel + begin_ → (strreverse_loop (fuel + 1) buf begin_ end_).isSome = true := by
  intro fuel
  induction fuel with
  | zero =>
    intro buf begin_ end_ h
    rw [strreverse_loop, if_neg (by omega)]
    rfl
  | succ n ih =>
    intro buf begin_ end_ h
    rw [strreverse_loop]
    split
    · exact ih _ _ _ (by omega)
    · rfl

/-- The function `strreverse` returns. -/
theorem strreverse_some (buf : List Char) (begin_ end_ : Nat) :
    (strreverse buf begin_ end_).isSome = true :=
  strreverse_loop_some _ _ _ _ (by omega)

/-- Enough fuel: the conversion loop of `itoa` ends. -/
theorem itoa_loop_finishes : ∀ (fuel : Nat) (value base : Int) (buf : List Char),
    value.natAbs < 2 ^ fuel → 2 ≤ base →
    itoa_loop (fuel + 1) value base buf ≠ Digits.unfinished := by
  intro fuel
  induction fuel with
  | zero =>
    intro value base buf hv hb
    have h0 : value = 0 := by omega
    subst h0
    rw [itoa_loop]
    simp only [Int.zero_tmod, Int.zero_tdiv]
    split <;> simp
  | succ n ih =>
    intro value base buf hv hb
    rw [itoa_loop]
    split
    · simp
    · simp only []
      split
      · apply ih _ _ _ _ hb
        have h1 : (value.tdiv base).natAbs = value.natAbs / base.natAbs :=
          Int.natAbs_tdiv value base
        have h2 : 2 ≤ base.natAbs := by omega
        have h3 : value.natAbs / base.natAbs ≤ value.natAbs / 2 :=
          Nat.div_le_div_left h2 (by decide)
        rw [h1]
        rw [pow_succ] at hv
        omega
      · simp

/-- The function `itoa` returns or reads outside the array `num`, for every `int`
value. -/
theorem itoa_finishes (value base : Int) (hl : -2 ^ 31 ≤ value) (hu : value < 2 ^ 31) :
    itoa value base ≠ Outcome.unfinished := by
  unfold itoa
  split
  · simp
  · rename_i hb
    have hb2 : 2 ≤ base := by omega
    have hv : (if value < 0 then wrap_int (-value) else value).natAbs < 2 ^ 32 := by
      unfold wrap_int
      split <;> omega
    have hf := itoa_loop_finishes 32 (if value < 0 then wrap_int (-value) else value) base []
      hv hb2
    simp only []
    split
    · simp
    · rename_i h; exact absurd h hf
    · split
      · rename_i h
        have hs := congrArg Option.isSome h
        rw [strreverse_some] at hs
        simp at hs
      · simp

/-- A base below 2 or above 35: `itoa` returns `NULL` and leaves the empty string. -/
theorem itoa_bad_base (value base : Int) (h : base < 2 ∨ base > 35) :
    itoa value base = Outcome.ret_null [NUL] := by
  unfold itoa
  rw [if_pos h]

/-- C20: `itoa(INT_MIN, str, 10)` reads `num[-8]`, a byte before the digit table: the
negation of `INT_MIN` is `INT_MIN` again and the remainder of a negative value is
negative.  The same happens in every base from 2 to 35, while the values next to
`INT_MIN` and the other samples are written as the claim says. -/
theorem itoa_int_min_outside_table :
    wrap_int (-INT_MIN) = INT_MIN
      ∧ itoa INT_MIN 10 = Outcome.outside_table (-8)
      ∧ (∀ b : Nat, b < 34 → (itoa INT_MIN (b + 2)).below_table = true)
      ∧ itoa (INT_MIN + 1) 10 = Outcome.ret_str ("-2147483647".toList ++ [NUL])
      ∧ itoa 255 16 = Outcome.ret_str ("ff".toList ++ [NUL])
      ∧ itoa 0 10 = Outcome.ret_str ("0".toList ++ [NUL]) := by
  decide

theorem copy_byte_iterate (k : Nat) (c : Copy) :
    (copy_byte^[k] c).d = c.d + k ∧ (copy_byte^[k] c).s = c.s + k
      ∧ (copy_byte^[k] c).written = c.written ++ (List.range k).map (c.d + ·) := by
  induction k with
  | zero => simp
  | succ n ih =>
    rw [Function.iterate_succ_apply']
    obtain ⟨h1, h2, h3⟩ := ih
    refine ⟨?_, ?_, ?_⟩
    · show (copy_byte^[n] c).d + 1 = _
      omega
    · show (copy_byte^[n] c).s + 1 = _
      omega
    · show (copy_byte^[n] c).written ++ [(copy_byte^[n] c).d] = _
      rw [h1, h3, List.range_succ, List.map_append, List.append_assoc]
      rfl

theorem memcpy_loop_iterate : ∀ (i : Nat) (c : Copy),
    memcpy_loop i c = copy_byte^[8 * i] c := by
  intro i
  induction i with
  | zero => intro c; rfl
  | succ n ih =>
    intro c
    rw [memcpy_loop, ih, show 8 * (n + 1) = 8 * n + 8 from by ring,
      Function.iterate_add_apply]
    rfl

theorem copy_byte_iterate_mem : ∀ (k : Nat) (c : Copy),
    (c.d + k ≤ c.s ∨ c.s + k ≤ c.d) →
    (∀ i, i < k → (copy_byte^[k] c).mem (c.d + i) = c.mem (c.s + i))
      ∧ (∀ a, ¬ (c.d ≤ a ∧ a < c.d + k) → (copy_byte^[k] c).mem a = c.mem a) := by
  intro k
  induction k with
  | zero =>
    intro c _
    exact ⟨fun i hi => absurd hi (Nat.not_lt_zero i), fun a _ => rfl⟩
  | succ n ih =>
    intro c h
    obtain ⟨ih1, ih2⟩ := ih c (by omega)
    obtain ⟨hd, hs, _⟩ := copy_byte_iterate n c
    have step : ∀ a, (copy_byte^[n + 1] c).mem a
        = if a = c.d + n then (copy_byte^[n] c).mem (c.s + n) else (copy_byte^[n] c).mem a := by
      intro a
      rw [Function.iterate_succ_apply']
      show (if a = (copy_byte^[n] c).d then (copy_byte^[n] c).mem (copy_byte^[n] c).s
        else (copy_byte^[n] c).mem a) = _
      rw [hd, hs]
    refine ⟨fun i hi => ?_, fun a ha => ?_⟩
    · rw [step]
      by_cases hin : i = n
      · subst hin
        rw [if_pos rfl]
        exact ih2 _ (by omega)
      · rw [if_neg (by omega)]
        exact ih1 i (by omega)
    · rw [step, if_neg (by omega)]
      exact ih2 a (by omega)

theorem and_bit2 (n : Nat) : n &&& 1 <<< 2 = n % 8 &&& 4 := by
  rw [← Nat.and_pow_two_sub_one_eq_mod n 3, Nat.and_assoc]
  rfl

theorem and_bit1 (n : Nat) : n &&& 1 <<< 1 = n % 8 &&& 2 := by
  rw [← Nat.and_pow_two_sub_one_eq_mod n 3, Nat.and_assoc]
  rfl

theorem and_bit0 (n : Nat) : n &&& 1 = n % 8 &&& 1 := by
  rw [← Nat.and_pow_two_sub_one_eq_mod n 3, Nat.and_assoc]
  rfl

/-- The unrolled loop and the three tails together are `n` byte copies. -/
theorem memcpy_iterate (mem : Nat → Nat) (dest src n : Nat) (hn : n < 2 ^ 32) :
    memcpy mem dest src n
      = (dest, copy_byte^[n] { mem := mem, d := dest, s := src, written := [] }) := by
  unfold memcpy
  simp only [Nat.mod_eq_of_lt hn, memcpy_loop_iterate]
  rw [and_bit2 n, and_bit1 n, and_bit0 n]
  have hq : (wrap_int ((n >>> 3 : Nat) : Int)).toNat = n / 8 := by
    rw [Nat.shiftRight_eq_div_pow]
    unfold wrap_int
    have : n / 2 ^ 3 = n / 8 := rfl
    omega
  rw [hq]
  have hr : n % 8 < 8 := Nat.mod_lt _ (by decide)
  have hsplit : n = n % 8 + 8 * (n / 8) := by omega
  generalize hc : (copy_byte^[8 * (n / 8)] { mem := mem, d := dest, s := src, written := [] }
    : Copy) = c8
  have hfin : ∀ r, n % 8 = r →
      copy_byte^[n] { mem := mem, d := dest, s := src, written := [] } = copy_byte^[r] c8 := by
    intro r hrr
    rw [hsplit, Function.iterate_add_apply, hc, hrr]
  generalize hrr : n % 8 = r at hr
  rw [hfin r hrr]
  interval_cases r <;> rfl

/-- C21: for `n` in the range of `size_t` and buffers of `n` bytes at `dest` and `src`
that do not overlap, `memcpy(dest, src, n)` returns `dest`; afterwards byte `i` of `dest`
is the byte `i` that `src` had, for every `i < n`; every byte outside the first `n` bytes
of `dest` is unchanged, the bytes of `src` among them; and the stores made, in order, are
to `dest`, `dest + 1`, ..., `dest + n - 1`, each index below `n` once. -/
theorem memcpy_copies_exactly (mem : Nat → Nat) (dest src n : Nat) (hn : n < 2 ^ 32)
    (hdisj : dest + n ≤ src ∨ src + n ≤ dest) :
    (memcpy mem dest src n).1 = dest
      ∧ (∀ i, i < n → (memcpy mem dest src n).2.mem (dest + i) = mem (src + i))
      ∧ (∀ a, ¬ (dest ≤ a ∧ a < dest + n) → (memcpy mem dest src n).2.mem a = mem a)
      ∧ (∀ i, i < n → (memcpy mem dest src n).2.mem (src + i) = mem (src + i))
      ∧ (memcpy mem dest src n).2.written = (List.range n).map (dest + ·)
      ∧ (∀ i, i < n → (memcpy mem dest src n).2.written.count (dest + i) = 1) := by
  rw [memcpy_iterate mem dest src n hn]
  obtain ⟨h1, h2⟩ := copy_byte_iterate_mem n
    { mem := mem, d := dest, s := src, written := [] } hdisj
  obtain ⟨_, _, h3⟩ := copy_byte_iterate n { mem := mem, d := dest, s := src, written := [] }
  rw [List.nil_append] at h3
  refine ⟨rfl, h1, h2, fun i hi => h2 _ ?_, h3, fun i hi => ?_⟩
  · show ¬ (dest ≤ src + i ∧ src + i < dest + n)
    omega
  · show (copy_byte^[n] _).written.count (dest + i) = 1
    rw [h3]
    apply List.count_eq_one_of_mem
    · exact (List.nodup_range n).map (fun a b h => Nat.add_left_cancel h)
    · exact List.mem_map.mpr ⟨i, List.mem_range.mpr hi, rfl⟩

theorem memcpy_copies_exactly_witness :
    ((13 : Nat) < 2 ^ 32 ∧ ((100 : Nat) + 13 ≤ 200 ∨ (200 : Nat) + 13 ≤ 100))
      ∧ ((memcpy sample_mem 100 200 13).1 = 100
        ∧ (∀ i, i < 13 → (memcpy sample_mem 100 200 13).2.mem (100 + i) = sample_mem (200 + i))
        ∧ (∀ a, ¬ (100 ≤ a ∧ a < 100 + 13) →
            (memcpy sample_mem 100 200 13).2.mem a = sample_mem a)
        ∧ (∀ i, i < 13 → (memcpy sample_mem 100 200 13).2.mem (200 + i) = sample_mem (200 + i))
        ∧ (memcpy sample_mem 100 200 13).2.written = (List.range 13).map (100 + ·)
        ∧ (∀ i, i < 13 → (memcpy sample_mem 100 200 13).2.written.count (100 + i) = 1)) :=
  ⟨⟨by decide, by decide⟩,
    memcpy_copies_exactly sample_mem 100 200 13 (by decide) (by decide)⟩

end ArmMisc
